import Mathlib

/-!
# ParticleSystem: particle pool, emitter, per-step physics and the model clock

A shallow embedding of `Particle`, `ParticleList`, `ParticleGenerator` and
`Model`, together with proofs about the pool free list, the death rule, the
force and integration passes, the emission window, the emission carry and the
clock of `Model::timeStep`.

Conventions of the embedding:

* C++ `float`/`double` values are exact rationals (`ℚ`); rounding is not modelled.
* C++ `int` values are `Int`; no counter of the pool can leave the range of the
  pool capacity, so no wrap-around is modelled.
* The raw arrays `particles` and `inactiveStack` are lists.  A read or a write
  outside the allocated array has no defined result in C++; here it yields
  `none`, so every function that indexes an array returns an `Option`.
* A `for (int i = 0; i < numParticles; i++)` loop is `forLoop body n 0` with
  `n = numParticles`; no loop body assigns `numParticles`, so the bound is read once.
* `drand48` is an explicit state `Rng`, a stream of draws and a position; the
  functions of `<math.h>` that `randSphereVec` calls are the fields of `Libm`.
* The conversion `int n = floor(generationRate * h)` of `generateParticles` has no
  defined result in C++ when the floor is not a value of `int`; `emissionCount` is the
  mathematical floor, and `CountInRange` is the condition under which the conversion
  and the increment `n + 1` are defined.
-/

namespace ParticleSystem

/-! ## Vectors -/

/-- Modelled from the spec: the header `Vector.h` (class `Vector3d`) is not part of
the sources; the spec describes it as a 3-vector of real numbers.  Components are
exact rationals. -/
structure Vector3d where
  x : ℚ
  y : ℚ
  z : ℚ
deriving DecidableEq, Repr

namespace Vector3d

/-- Modelled from the spec: `Vector3d::set(x, y, z)` of the missing `Vector.h`,
which stores the three components. -/
def set (vx vy vz : ℚ) : Vector3d := ⟨vx, vy, vz⟩

/-- Modelled from the spec: `operator+` of the missing `Vector.h`, the componentwise sum. -/
def add (a b : Vector3d) : Vector3d := ⟨a.x + b.x, a.y + b.y, a.z + b.z⟩

/-- Modelled from the spec: `operator*(scalar, vector)` of the missing `Vector.h`,
the scalar multiple. -/
def smul (s : ℚ) (v : Vector3d) : Vector3d := ⟨s * v.x, s * v.y, s * v.z⟩

/-- Modelled from the spec: `operator/(vector, scalar)` of the missing `Vector.h`,
the componentwise quotient. -/
def sdiv (v : Vector3d) (s : ℚ) : Vector3d := ⟨v.x / s, v.y / s, v.z / s⟩

instance : Add Vector3d := ⟨add⟩
instance : HMul ℚ Vector3d Vector3d := ⟨smul⟩
instance : HDiv Vector3d ℚ Vector3d := ⟨sdiv⟩

end Vector3d

/-! ## Particle -/

/-- The class `Particle` of `Particle.h`. -/
structure Particle where
  position : Vector3d
  prev_position : Vector3d
  velocity : Vector3d
  acceleration : Vector3d
  mass : ℚ
  timestamp : ℚ
  isActive : Bool
  lifespan : ℚ
deriving DecidableEq, Repr

/-- The default constructor `Particle::Particle()`. -/
def Particle.default : Particle :=
  let x := Vector3d.set 0 0 0
  let v := Vector3d.set 0 0 0
  let a := Vector3d.set 0 0 0
  { position := x
    prev_position := x
    velocity := v
    acceleration := a
    mass := 1 / 2
    timestamp := 0
    isActive := false
    lifespan := 0 }

/-- The constructor `Particle::Particle(Vector3d x, Vector3d v, float m, float ls)`.
It does not assign `acceleration`, which keeps the value `dflt` that the default
constructor of `Vector3d` (in the missing `Vector.h`) gives it. -/
def Particle.new (dflt : Vector3d) (x v : Vector3d) (m ls : ℚ) : Particle :=
  { position := x
    prev_position := x
    velocity := v
    acceleration := dflt
    timestamp := 0
    isActive := false
    mass := |m|
    lifespan := |ls| }

/-! ## ParticleList -/

/-- The class `ParticleList` of `ParticleList.h`: the slot array, the stack of
inactive indices and the stack pointer. -/
structure ParticleList where
  numParticles : Int
  particles : List Particle
  inactiveStack : List Int
  inactiveCount : Int
deriving DecidableEq, Repr

/-- Array read `a[i]` with a C++ `int` index; `none` outside the array. -/
def readAt {α : Type} (xs : List α) (i : Int) : Option α :=
  if 0 ≤ i then xs[i.toNat]? else none

/-- Array write `a[i] = v` with a C++ `int` index; `none` outside the array. -/
def writeAt {α : Type} (xs : List α) (i : Int) (v : α) : Option (List α) :=
  if 0 ≤ i ∧ i.toNat < xs.length then some (xs.set i.toNat v) else none

/-- The loop `for (int i = i0; i < i0 + k; i++) body(i)` threading the pool through
the iterations; an iteration that fails makes the loop fail. -/
def forLoop (body : Nat → ParticleList → Option ParticleList) :
    Nat → Nat → ParticleList → Option ParticleList
  | 0, _, pl => some pl
  | k + 1, i, pl => (body i pl).bind (forLoop body k (i + 1))

namespace ParticleList

/-- Body of the loop of the constructor `ParticleList::ParticleList(int np)`. -/
def newBody (i : Nat) (pl : ParticleList) : Option ParticleList :=
  match writeAt pl.particles i Particle.default with
  | none => none
  | some ps =>
    match writeAt pl.inactiveStack i (i : Int) with
    | none => none
    | some st => some { pl with particles := ps, inactiveStack := st }

/-- The constructor `ParticleList::ParticleList(int np)`.  `new Particle[np]`
default-constructs every slot; the entries of `new int[np]` are indeterminate until
the loop stores them (they start as `0` here).  A negative length makes `new[]`
throw, which is `none`. -/
def new (np : Int) : Option ParticleList :=
  if np < 0 then none
  else
    forLoop newBody np.toNat 0
      { numParticles := np
        particles := List.replicate np.toNat Particle.default
        inactiveStack := List.replicate np.toNat 0
        inactiveCount := np }

/-- Body of the loop of `ParticleList::clear`. -/
def clearBody (i : Nat) (pl : ParticleList) : Option ParticleList :=
  match pl.particles[i]? with
  | none => none
  | some p =>
    match writeAt pl.inactiveStack i (i : Int) with
    | none => none
    | some st =>
      some { pl with particles := pl.particles.set i { p with isActive := false },
                     inactiveStack := st }

/-- The method `ParticleList::clear`. -/
def clear (pl : ParticleList) : Option ParticleList :=
  (forLoop clearBody pl.numParticles.toNat 0 pl).map
    (fun q => { q with inactiveCount := q.numParticles })

/-- The method `ParticleList::shouldKill`. -/
def shouldKill (p : Particle) (t : ℚ) : Bool :=
  let particleAge := t - p.timestamp
  if particleAge ≥ p.lifespan then true else false

/-- Body of the loop of `ParticleList::testAndDeactivate`. -/
def testAndDeactivateBody (t : ℚ) (i : Nat) (pl : ParticleList) : Option ParticleList :=
  match pl.particles[i]? with
  | none => none
  | some p =>
    if p.isActive = true then
      if shouldKill p t = true then
        match writeAt pl.inactiveStack pl.inactiveCount (i : Int) with
        | none => none
        | some st =>
          some { pl with particles := pl.particles.set i { p with isActive := false },
                         inactiveStack := st,
                         inactiveCount := pl.inactiveCount + 1 }
      else some pl
    else some pl

/-- The method `ParticleList::testAndDeactivate(float h, float t)`; the step `h` is
not used by the body. -/
def testAndDeactivate (_h t : ℚ) (pl : ParticleList) : Option ParticleList :=
  forLoop (testAndDeactivateBody t) pl.numParticles.toNat 0 pl

/-- Body of the loop of `ParticleList::computeAccelerations`. -/
def computeAccelerationsBody (drag : ℚ) (i : Nat) (pl : ParticleList) : Option ParticleList :=
  let Fa := Vector3d.set 0 (-(98 / 10)) 0
  match pl.particles[i]? with
  | none => none
  | some p =>
    if p.isActive = true then
      let Fg := p.mass * Fa
      let Fair := (-drag) * p.velocity
      let Ftotal := Fg + Fair
      some { pl with particles := pl.particles.set i { p with acceleration := Ftotal / p.mass } }
    else some pl

/-- The method `ParticleList::computeAccelerations(float drag)`. -/
def computeAccelerations (drag : ℚ) (pl : ParticleList) : Option ParticleList :=
  forLoop (computeAccelerationsBody drag) pl.numParticles.toNat 0 pl

/-- Body of the loop of `ParticleList::integrate`. -/
def integrateBody (h : ℚ) (i : Nat) (pl : ParticleList) : Option ParticleList :=
  match pl.particles[i]? with
  | none => none
  | some p =>
    if p.isActive = true then
      let v_new := p.velocity + (h * p.acceleration)
      let x_new := p.position + (h * p.velocity)
      some { pl with particles :=
        pl.particles.set i { p with prev_position := p.position, velocity := v_new,
                                    position := x_new } }
    else some pl

/-- The method `ParticleList::integrate(float h)`. -/
def integrate (h : ℚ) (pl : ParticleList) : Option ParticleList :=
  forLoop (integrateBody h) pl.numParticles.toNat 0 pl

/-- The method `ParticleList::activateTopParticle`. -/
def activateTopParticle (pos vel : Vector3d) (ls ts : ℚ) (pl : ParticleList) :
    Option ParticleList :=
  if 0 < pl.inactiveCount ∧ pl.inactiveCount ≤ pl.numParticles then
    match readAt pl.inactiveStack (pl.inactiveCount - 1) with
    | none => none
    | some pIndex =>
      match readAt pl.particles pIndex with
      | none => none
      | some p =>
        some { pl with
          particles := pl.particles.set pIndex.toNat
            { p with position := pos, velocity := vel, lifespan := ls, timestamp := ts,
                     isActive := true },
          inactiveCount := pl.inactiveCount - 1 }
  else some pl

/-- The method `ParticleList::topInactiveStack`: the test is `inactiveCount >= 0` and
the read is at `inactiveStack[inactiveCount]`. -/
def topInactiveStack (pl : ParticleList) : Option Int :=
  if pl.inactiveCount ≥ 0 then readAt pl.inactiveStack pl.inactiveCount
  else some (-1)

/-- Effect of one iteration of `computeAccelerations` on the record it visits. -/
def computeAccelerationsSlot (drag : ℚ) (p : Particle) : Particle :=
  if p.isActive = true then
    { p with acceleration :=
        (p.mass * Vector3d.set 0 (-(98 / 10)) 0 + (-drag) * p.velocity) / p.mass }
  else p

/-- Effect of one iteration of `integrate` on the record it visits. -/
def integrateSlot (h : ℚ) (p : Particle) : Particle :=
  if p.isActive = true then
    { p with prev_position := p.position,
             velocity := p.velocity + (h * p.acceleration),
             position := p.position + (h * p.velocity) }
  else p

/-- Effect of one iteration of `testAndDeactivate` on the record it visits. -/
def cullSlot (t : ℚ) (p : Particle) : Particle :=
  if p.isActive = true ∧ shouldKill p t = true then { p with isActive := false } else p

/-- Whether slot `j` of the array `ps` is active and due to be killed at time `t`. -/
def dies (t : ℚ) (ps : List Particle) (j : Nat) : Bool :=
  match ps[j]? with
  | some p => p.isActive && shouldKill p t
  | none => false

/-- The indices among `i, i+1, .., i+k-1` of the slots of `ps` that die at time `t`,
in ascending order. -/
def deadIndices (t : ℚ) (ps : List Particle) (i k : Nat) : List Int :=
  ((List.range' i k).filter (dies t ps)).map Int.ofNat

/-- Number of slots whose `isActive` flag is set. -/
def activeCount (pl : ParticleList) : Nat :=
  pl.particles.countP (fun p => p.isActive)

/-- The live part of the inactive stack: its first `inactiveCount` entries. -/
def freeList (pl : ParticleList) : List Int :=
  pl.inactiveStack.take pl.inactiveCount.toNat

/-- Allocation shape of a pool: both arrays have `numParticles` entries, as
allocated by the constructor. -/
def Allocated (pl : ParticleList) : Prop :=
  (pl.particles.length : Int) = pl.numParticles ∧
  (pl.inactiveStack.length : Int) = pl.numParticles

/-- The pool invariant: the arrays have `numParticles` entries, the number of
active slots plus `inactiveCount` is `numParticles`, and the first `inactiveCount`
entries of the stack are pairwise distinct and are exactly the indices of the
inactive slots. -/
structure PoolInv (pl : ParticleList) : Prop where
  alloc : Allocated pl
  count_nonneg : 0 ≤ pl.inactiveCount
  count_eq : (activeCount pl : Int) + pl.inactiveCount = pl.numParticles
  nodup : (freeList pl).Nodup
  mem_iff : ∀ i : Int, i ∈ freeList pl ↔
    ∃ p, readAt pl.particles i = some p ∧ p.isActive = false

end ParticleList

/-- The operation `reset()` as the spec words it: destroy the pool and recreate it in
its initial all-inactive state, that is, construct a fresh pool of the same capacity. -/
def resetSpec (pl : ParticleList) : Option ParticleList :=
  ParticleList.new pl.numParticles

/-- A call made on a pool by the rest of the program. -/
inductive PoolCall where
  | clear
  | activateTopParticle (pos vel : Vector3d) (ls ts : ℚ)
  | testAndDeactivate (h t : ℚ)
  | computeAccelerations (drag : ℚ)
  | integrate (h : ℚ)

/-- Perform one call on a pool. -/
def PoolCall.run : PoolCall → ParticleList → Option ParticleList
  | .clear, pl => pl.clear
  | .activateTopParticle pos vel ls ts, pl => pl.activateTopParticle pos vel ls ts
  | .testAndDeactivate h t, pl => pl.testAndDeactivate h t
  | .computeAccelerations drag, pl => pl.computeAccelerations drag
  | .integrate h, pl => pl.integrate h

/-- The call `activateTopParticle(pos, vel, ls, ts)` for a tuple of arguments. -/
def activateCall (a : Vector3d × Vector3d × ℚ × ℚ) : PoolCall :=
  .activateTopParticle a.1 a.2.1 a.2.2.1 a.2.2.2

/-- Perform a sequence of calls on a pool, first call first. -/
def runCalls : List PoolCall → ParticleList → Option ParticleList
  | [], pl => some pl
  | c :: cs, pl => (c.run pl).bind (runCalls cs)

/-- The call sequence `computeAccelerations(drag); integrate(dt)` made `k` times in a row. -/
def physicsRounds (drag dt : ℚ) : Nat → ParticleList → Option ParticleList
  | 0, pl => some pl
  | k + 1, pl =>
    (pl.computeAccelerations drag).bind
      (fun a => (a.integrate dt).bind (physicsRounds drag dt k))

/-- Effect of one round `computeAccelerations(drag); integrate(dt)` on one record. -/
def roundSlot (drag dt : ℚ) (p : Particle) : Particle :=
  ParticleList.integrateSlot dt (ParticleList.computeAccelerationsSlot drag p)

/-! ## ParticleGenerator -/

/-- The class `ParticleGenerator` of `ParticleGenerator.h`.  The member `plPointer`
always aliases `pl` and is left out. -/
structure ParticleGenerator where
  pl : ParticleList
  position : Vector3d
  radius : ℚ
  timeStart : ℚ
  timeStop : ℚ
  generationRate : Int
  f : ℚ
  meanInitSpeed : ℚ
  speedRange : ℚ
  meanLifespan : ℚ
  lifespanRange : ℚ
deriving DecidableEq, Repr

/-- Truncation of a rational toward zero, the integer part that `fmod` removes. -/
def truncQ (q : ℚ) : Int := if 0 ≤ q then ⌊q⌋ else ⌈q⌉

/-- The C library function `fmod(x, y)` of `<math.h>` on exact rationals:
`x - n * y` with `n` the quotient `x / y` truncated toward zero.  For `y = 0` the C
function returns NaN, which is `none`. -/
def fmod (x y : ℚ) : Option ℚ :=
  if y = 0 then none else some (x - (truncQ (x / y) : ℚ) * y)

/-- The state of the C library generator `drand48`: a fixed stream of draws and the
position of the next one.  Seeding (`srand48`) chooses the stream and is not
modelled. -/
structure Rng where
  draw : Nat → ℚ
  next : Nat

/-- The C library function `drand48()`: the next draw of the stream. -/
def drand48 (rng : Rng) : ℚ × Rng :=
  (rng.draw rng.next, { rng with next := rng.next + 1 })

/-- The contract of `drand48`: every draw lies in `[0, 1)`. -/
def Rng.Valid (rng : Rng) : Prop := ∀ k, 0 ≤ rng.draw k ∧ rng.draw k < 1

/-- The C library functions and the constant that `randSphereVec` uses: `cos`, `sin`
and `sqrt` of `<math.h>`, whose floating-point results are rationals, and the macro
`PI`, which no source file under `src/` defines. -/
structure Libm where
  PI : ℚ
  cos : ℚ → ℚ
  sin : ℚ → ℚ
  sqrt : ℚ → ℚ

/-- The interpolation table `tbl` of `ParticleGenerator::gauss`. -/
def gaussTbl : List ℚ :=
  [0, 6275 / 100000, 125641 / 1000000, 189 / 1000,
   253333 / 1000000, 318684 / 1000000, 385405 / 1000000, 453889 / 1000000,
   524412 / 1000000, 597647 / 1000000, 674375 / 1000000, 755333 / 1000000,
   841482 / 1000000, 934615 / 1000000, 103652 / 100000, 115048 / 100000,
   128167 / 100000, 143933 / 100000, 1645 / 1000, 196 / 100,
   387 / 100]

/-- Piecewise-linear interpolation of a table at the position `p`: the straight line
between the entries `⌊p⌋` and `⌊p⌋ + 1`, taken at `p`.  Entries outside the table
count as 0. -/
def interpolate (tbl : List ℚ) (p : ℚ) : ℚ :=
  tbl.getD ⌊p⌋.toNat 0 +
    (tbl.getD (⌊p⌋.toNat + 1) 0 - tbl.getD ⌊p⌋.toNat 0) * (p - (⌊p⌋ : ℚ))

namespace ParticleGenerator

/-- The constructor `ParticleGenerator(numParticles, x, start_t, stop_t, gen_r)`. -/
def new (numParticles : Int) (x : Vector3d) (start_t stop_t : ℚ) (gen_r : Int) :
    Option ParticleGenerator :=
  (ParticleList.new numParticles).map fun pl =>
    { pl := pl
      position := x
      radius := 1
      timeStart := start_t
      timeStop := stop_t
      generationRate := gen_r
      f := 0
      meanInitSpeed := 1 / 2
      speedRange := 2 / 10
      meanLifespan := 1
      lifespanRange := 3 / 10 }

/-- The method `ParticleGenerator::shouldGenerate`.  Every comparison with the NaN
that `fmod` returns for `duration = 0` is false. -/
def shouldGenerate (g : ParticleGenerator) (t : ℚ) : Bool :=
  let generating := false
  let delay : ℚ := 2
  let duration := g.timeStop - g.timeStart
  if t ≤ duration then
    if t ≥ g.timeStart ∧ t < g.timeStop then true else generating
  else
    match fmod t duration with
    | none => generating
    | some r => if r ≥ g.timeStart + delay ∧ r < g.timeStop then true else generating

/-- The method `ParticleGenerator::gauss` after its uniform draw `u0` has been taken:
sign and half-interval, table index, interpolation.  A table read outside the 21
entries is `none`. -/
def gaussOf (mean std u0 : ℚ) : Option ℚ :=
  let itblmax : Int := 20
  let didu : ℚ := 40
  let minus : Bool := if u0 ≥ 1 / 2 then false else true
  let u : ℚ := if u0 ≥ 1 / 2 then u0 - 1 / 2 else u0
  let di : ℚ := didu * u
  let index : Int := truncQ di
  let delta : Option ℚ :=
    if index = itblmax then readAt gaussTbl index
    else
      match readAt gaussTbl index, readAt gaussTbl (index + 1) with
      | some a, some b => some (a + (b - a) * (di - index))
      | _, _ => none
  delta.map fun d => mean + std * (if minus then -d else d)

/-- The method `ParticleGenerator::gauss(mean, std, seed)`: one draw from `drand48`,
then `gaussOf`. -/
def gauss (mean std : ℚ) (rng : Rng) : Option (ℚ × Rng) :=
  (gaussOf mean std (drand48 rng).1).map fun v => (v, (drand48 rng).2)

/-- The method `ParticleGenerator::uniform(min, max)`. -/
def uniform (min max : ℚ) (rng : Rng) : ℚ × Rng :=
  ((max - min) * (drand48 rng).1 + min, (drand48 rng).2)

/-- The method `ParticleGenerator::randSphereVec` after its two uniform draws `d1`
(azimuth) and `d2` (height) have been taken. -/
def sphereOf (m : Libm) (d1 d2 : ℚ) : Vector3d :=
  let theta := (m.PI - (-m.PI)) * d1 + (-m.PI)
  let y := (1 - (-1)) * d2 + (-1)
  let r := m.sqrt (1 - y ^ 2)
  Vector3d.set (r * m.cos theta) y (-r * m.sin theta)

/-- The method `ParticleGenerator::randSphereVec`: two calls of `uniform`, azimuth
first. -/
def randSphereVec (m : Libm) (rng : Rng) : Vector3d × Rng :=
  let theta := uniform (-m.PI) m.PI rng
  let y := uniform (-1) 1 theta.2
  let r := m.sqrt (1 - y.1 ^ 2)
  (Vector3d.set (r * m.cos theta.1) y.1 (-r * m.sin theta.1), y.2)

/-- The head of `ParticleGenerator::generateParticles`: the number `n` of particles
to emit in this pass and the new carry `f`, from the rate, the step `h` and the old
carry.  The count is the mathematical floor; it is the value of the C++ `int n` when
`CountInRange` holds. -/
def emissionCount (generationRate : Int) (h f : ℚ) : Int × ℚ :=
  let n : Int := ⌊(generationRate : ℚ) * h⌋
  let f := f + (((generationRate : ℚ) * h) - n)
  if f > 1 then (n + 1, f - 1) else (n, f)

/-- The condition under which the head of `generateParticles` stays within the 32-bit
`int` of its variable `n`: the floor of `generationRate * h` is a value of `int`, so
that the conversion `int n = floor(..)` is defined, and so is `n + 1`. -/
def CountInRange (generationRate : Int) (h : ℚ) : Prop :=
  -2147483648 ≤ ⌊(generationRate : ℚ) * h⌋ ∧ ⌊(generationRate : ℚ) * h⌋ + 1 ≤ 2147483647

/-- The arithmetic of `ParticleGenerator::randSphereVec` after its two uniform draws
`d1` (azimuth) and `d2` (height), over any ring `K` of numbers that carries the
constant `PI` and the functions `cos`, `sin` and `sqrt`: the three components of the
vector the method returns.  Over the rationals with the functions of a `Libm` this is
`sphereOf`; over the reals with the real functions it is the computation the source
approximates in floating point. -/
def sphereOfIn {K : Type} [Ring K] (PI : K) (cos sin sqrt : K → K) (d1 d2 : K) : K × K × K :=
  let theta := (PI - (-PI)) * d1 + (-PI)
  let y := (1 - (-1)) * d2 + (-1)
  let r := sqrt (1 - y ^ 2)
  (r * cos theta, y, -r * sin theta)

/-- Body of the loop of `ParticleGenerator::generateParticles`: one spawn attempt on
the pool `s.1` with the random stream `s.2`. -/
def spawnBody (m : Libm) (g : ParticleGenerator) (t : ℚ) (s : ParticleList × Rng) :
    Option (ParticleList × Rng) :=
  if s.1.inactiveCount > 0 then
    match gauss g.meanInitSpeed (g.speedRange / 3) s.2 with
    | none => none
    | some sp =>
      let u := randSphereVec m sp.2
      let v := |sp.1| * u.1
      let x := g.position + (g.radius * u.1)
      match gauss g.meanLifespan (g.lifespanRange / 3) u.2 with
      | none => none
      | some l =>
        match s.1.activateTopParticle x v l.1 t with
        | none => none
        | some pl => some (pl, l.2)
  else some s

/-- The loop `for (int i = 0; i < n; i++)` of `generateParticles`, `k` iterations. -/
def spawnLoop (m : Libm) (g : ParticleGenerator) (t : ℚ) :
    Nat → ParticleList × Rng → Option (ParticleList × Rng)
  | 0, s => some s
  | k + 1, s => (spawnBody m g t s).bind (spawnLoop m g t k)

/-- The method `ParticleGenerator::generateParticles(float t, float h)`. -/
def generateParticles (m : Libm) (t h : ℚ) (g : ParticleGenerator) (rng : Rng) :
    Option (ParticleGenerator × Rng) :=
  if g.shouldGenerate t = true then
    let nf := emissionCount g.generationRate h g.f
    (spawnLoop m g t nf.1.toNat (g.pl, rng)).map fun s =>
      ({ g with f := nf.2, pl := s.1 }, s.2)
  else some (g, rng)

/-- The setter `setSpeedParams`. -/
def setSpeedParams (mean range : ℚ) (g : ParticleGenerator) : ParticleGenerator :=
  { g with meanInitSpeed := mean, speedRange := range }

/-- The setter `setLifespanParams`. -/
def setLifespanParams (mean range : ℚ) (g : ParticleGenerator) : ParticleGenerator :=
  { g with meanLifespan := mean, lifespanRange := range }

/-- The setter `setRadius`. -/
def setRadius (rad : ℚ) (g : ParticleGenerator) : ParticleGenerator :=
  { g with radius := rad }

end ParticleGenerator

/-- A sequence of `generateParticles(t, h)` calls on one generator, first call first;
each entry of the list is a pair `(t, h)`. -/
def runGenerate (m : Libm) :
    List (ℚ × ℚ) → ParticleGenerator × Rng → Option (ParticleGenerator × Rng)
  | [], s => some s
  | c :: cs, s => (s.1.generateParticles m c.1 c.2 s.2).bind (runGenerate m cs)

/-- A run of one emitter.  Each step `(t, h, calls)` is the call
`generateParticles(t, h)` followed by the calls made on its pool before the next step
(culling, forces, integration).  The result is the final state, the number of slots
that the `generateParticles` calls activated (the drop of `inactiveCount` over each
of them), and a flag telling that no call asked for more particles than the pool had
free slots. -/
def runEmission (m : Libm) :
    List (ℚ × ℚ × List PoolCall) → ParticleGenerator × Rng →
      Option ((ParticleGenerator × Rng) × Int × Bool)
  | [], s => some (s, 0, true)
  | c :: cs, s =>
    match s.1.generateParticles m c.1 c.2.1 s.2 with
    | none => none
    | some s1 =>
      match runCalls c.2.2 s1.1.pl with
      | none => none
      | some pl2 =>
        match runEmission m cs ({ s1.1 with pl := pl2 }, s1.2) with
        | none => none
        | some r =>
          some (r.1, (s.1.pl.inactiveCount - s1.1.pl.inactiveCount) + r.2.1,
            decide ((ParticleGenerator.emissionCount s.1.generationRate c.2.1 s.1.f).1 ≤
              s.1.pl.inactiveCount) && r.2.2)

/-- A sequence of `generateParticles(t, h)` calls on one generator, first call first,
together with the sum of the emission counts: the value of the local variable `n` of
each call that found the generator on. -/
def runCounts (m : Libm) :
    List (ℚ × ℚ) → ParticleGenerator × Rng → Option ((ParticleGenerator × Rng) × Int)
  | [], s => some (s, 0)
  | c :: cs, s =>
    match s.1.generateParticles m c.1 c.2 s.2 with
    | none => none
    | some s1 =>
      match runCounts m cs s1 with
      | none => none
      | some r =>
        some (r.1,
          (if s.1.shouldGenerate c.1 = true then
            (ParticleGenerator.emissionCount s.1.generationRate c.2 s.1.f).1 else 0) + r.2)

/-! ## Model -/

/-- The class `Model` of `Model.h`.  The array `generators` is a list.  The members
`pg`, `pg2`, `pg3` only serve to fill `generators` in `initSimulation` and are left
out, as is `dispinterval`, which the simulation does not read. -/
structure Model where
  h : ℚ
  drag : ℚ
  numParticles : Int
  running : Bool
  t : ℚ
  n : Int
  numGenerators : Int
  generators : List ParticleGenerator

namespace Model

/-- Body of the loop of `Model::timeStep`: the four passes of generator `i`, then
the update of the step counter and of the clock.  The state is the model and the
random stream. -/
def timeStepBody (lm : Libm) (i : Nat) (s : Model × Rng) : Option (Model × Rng) :=
  match s.1.generators[i]? with
  | none => none
  | some g =>
    match g.generateParticles lm s.1.t s.1.h s.2 with
    | none => none
    | some gr =>
      match gr.1.pl.testAndDeactivate s.1.h s.1.t with
      | none => none
      | some pl1 =>
        match pl1.computeAccelerations s.1.drag with
        | none => none
        | some pl2 =>
          match pl2.integrate s.1.h with
          | none => none
          | some pl3 =>
            let n := s.1.n + 1
            some ({ s.1 with generators := s.1.generators.set i { gr.1 with pl := pl3 },
                             n := n, t := (n : ℚ) * s.1.h }, gr.2)

/-- The four passes that the body of `Model::timeStep` makes on one generator, with
the time `t`, the step `h` and the drag it hands to them. -/
def emitterPass (lm : Libm) (t h drag : ℚ) (g : ParticleGenerator) (rng : Rng) :
    Option (ParticleGenerator × Rng) :=
  match g.generateParticles lm t h rng with
  | none => none
  | some gr =>
    match gr.1.pl.testAndDeactivate h t with
    | none => none
    | some pl1 =>
      match pl1.computeAccelerations drag with
      | none => none
      | some pl2 =>
        match pl2.integrate h with
        | none => none
        | some pl3 => some ({ gr.1 with pl := pl3 }, gr.2)

/-- The loop `for (int i = i0; i < i0 + k; i++)` of `Model::timeStep`. -/
def timeStepLoop (lm : Libm) : Nat → Nat → Model × Rng → Option (Model × Rng)
  | 0, _, s => some s
  | k + 1, i, s => (timeStepBody lm i s).bind (timeStepLoop lm k (i + 1))

/-- The method `Model::timeStep`. -/
def timeStep (lm : Libm) (s : Model × Rng) : Option (Model × Rng) :=
  if s.1.running = true then timeStepLoop lm s.1.numGenerators.toNat 0 s else some s

/-- The method `Model::startSimulation`. -/
def startSimulation (md : Model) : Model := { md with running := true }

/-- One generator of `Model::initSimulation`: constructed, its three setters applied,
and its pool cleared. -/
def initGenerator (numParticles : Int) (x : Vector3d) (start_t stop_t : ℚ) (gen_r : Int)
    (mean_s s_range mean_ls ls_range rad : ℚ) : Option ParticleGenerator :=
  match ParticleGenerator.new numParticles x start_t stop_t gen_r with
  | none => none
  | some g0 =>
    let g := ((g0.setSpeedParams mean_s s_range).setLifespanParams mean_ls ls_range).setRadius rad
    match g.pl.clear with
    | none => none
    | some pl => some { g with pl := pl }

/-- The body of `Model::initSimulation` for a pool capacity `numParticles`: step,
drag, the three generators, then the stopped clock. -/
def initSimulationWith (numParticles : Int) : Option Model :=
  (initGenerator numParticles (Vector3d.set 0 10 0) 0 (45 / 10) 5000 5 1 (15 / 10)
    (5 / 10) 12).bind fun pg =>
  (initGenerator numParticles (Vector3d.set 10 0 0) 0 (35 / 10) 4000 20 8 1
    (5 / 10) 6).bind fun pg2 =>
  (initGenerator numParticles (Vector3d.set (-18) (-5) 4) 0 (25 / 10) 3000 12 3
    (8 / 10) (2 / 10) 3).bind fun pg3 =>
  some { h := 1 / 100
         drag := 2 / 10
         numParticles := numParticles
         running := false
         t := 0
         n := 0
         numGenerators := 3
         generators := [pg, pg2, pg3] }

/-- The method `Model::initSimulation`, which sets `numParticles = 50000`. -/
def initSimulation : Option Model := initSimulationWith 50000

/-- Perform `k` calls of `timeStep` in a row. -/
def timeSteps (lm : Libm) : Nat → Model × Rng → Option (Model × Rng)
  | 0, s => some s
  | k + 1, s => (timeStep lm s).bind (timeSteps lm k)

/-- A stopped model at time 0 that holds the single emitter `g`, built the way
`initSimulation` builds its model. -/
def single (g : ParticleGenerator) (h drag : ℚ) : Model :=
  { h := h
    drag := drag
    numParticles := g.pl.numParticles
    running := false
    t := 0
    n := 0
    numGenerators := 1
    generators := [g] }

/-- The state of the end-to-end run of the single emitter `g` after `j` steps of
`0.01` from the random stream `rng`: the model is running with `n = j` and
`t = j / 100`, the emitter has its carry at 0 and the pool `pl`, which satisfies the
pool invariant, has capacity 2000 and at most `10 j` active slots, and `40 j` draws
have been consumed. -/
def EndToEndState (g : ParticleGenerator) (rng : Rng) (j : Nat) (pl : ParticleList)
    (s : Model × Rng) : Prop :=
  s.1.running = true ∧ s.1.numGenerators = 1 ∧ s.1.h = 1 / 100 ∧ s.1.n = (j : Int) ∧
  s.1.t = (j : ℚ) / 100 ∧ s.1.generators = [{ g with f := 0, pl := pl }] ∧
  s.2 = Rng.mk rng.draw (rng.next + 40 * j) ∧
  ParticleList.PoolInv pl ∧ pl.numParticles = 2000 ∧ pl.activeCount ≤ 10 * j

/-- The generators are the `numGenerators` entries of the array and every pool
satisfies the pool invariant. -/
def Ready (md : Model) : Prop :=
  (md.generators.length : Int) = md.numGenerators ∧
  ∀ g ∈ md.generators, ParticleList.PoolInv g.pl

end Model

/-! ## Concrete pools and generators used as examples -/

/-- A freshly constructed pool of capacity 2, as `ParticleList(2)` builds it. -/
def demoPool : ParticleList :=
  { numParticles := 2
    particles := [Particle.default, Particle.default]
    inactiveStack := [0, 1]
    inactiveCount := 2 }

/-- A short run on a pool: spawn, cull at time 5, spawn again. -/
def demoCalls : List PoolCall :=
  [ .activateTopParticle ⟨1, 2, 3⟩ ⟨0, 0, 0⟩ 1 0,
    .testAndDeactivate (1 / 100) 5,
    .activateTopParticle ⟨4, 5, 6⟩ ⟨0, 1, 0⟩ 2 5 ]

/-- Three spawn requests, one more than `demoPool` can hold. -/
def demoArgs : List (Vector3d × Vector3d × ℚ × ℚ) :=
  [ (⟨1, 2, 3⟩, ⟨0, 0, 0⟩, 1, 0), (⟨4, 5, 6⟩, ⟨0, 1, 0⟩, 2, 0), (⟨7, 8, 9⟩, ⟨1, 0, 0⟩, 3, 0) ]

/-- One life of a particle in a pool of capacity 1: spawn at `(1, 2, 3)`, one force
pass, one integration step of length 1, cull at time 1. -/
def staleCalls : List PoolCall :=
  [ .activateTopParticle ⟨1, 2, 3⟩ ⟨0, 0, 0⟩ 1 0,
    .computeAccelerations 0,
    .integrate 1,
    .testAndDeactivate 1 1 ]

/-- The pool of capacity 1 that `staleCalls` leaves behind: its only slot is free
again and still holds the record of the dead particle. -/
def stalePool : ParticleList :=
  { numParticles := 1
    particles :=
      [ { position := ⟨1, 2, 3⟩
          prev_position := ⟨1, 2, 3⟩
          velocity := ⟨0, -(49 / 5), 0⟩
          acceleration := ⟨0, -(49 / 5), 0⟩
          mass := 1 / 2
          timestamp := 0
          isActive := false
          lifespan := 1 } ]
    inactiveStack := [0]
    inactiveCount := 1 }

/-- A default record activated with position `(1, 2, 3)`, zero velocity,
`lifespan = 1` and `timestamp = 2`. -/
def liveParticle : Particle :=
  { Particle.default with
      position := ⟨1, 2, 3⟩, velocity := ⟨0, 0, 0⟩, lifespan := 1, timestamp := 2,
      isActive := true }

/-- The pool `demoPool` after `activateTopParticle((1,2,3), (0,0,0), 1, 2)`: slot 1 is
active with `timestamp = 2` and `lifespan = 1`. -/
def livePool : ParticleList :=
  { numParticles := 2
    particles := [Particle.default, liveParticle]
    inactiveStack := [0, 1]
    inactiveCount := 1 }

/-- The first generator of `Model::initSimulation` (window `[0, 4.5)`, rate 5000,
its three setters applied), on a pool of capacity 2. -/
def demoGenerator : ParticleGenerator :=
  { pl := demoPool
    position := ⟨0, 10, 0⟩
    radius := 12
    timeStart := 0
    timeStop := 9 / 2
    generationRate := 5000
    f := 0
    meanInitSpeed := 5
    speedRange := 1
    meanLifespan := 3 / 2
    lifespanRange := 1 / 2 }

/-- A generator whose window is empty: it stops (at 1) before it starts (at 3). -/
def inertGenerator : ParticleGenerator :=
  { demoGenerator with timeStart := 3, timeStop := 1 }

/-- An allocated pool of capacity 2 that violates the pool invariant: both slots are
active, yet the stack pointer claims two free slots and the stack lists slot 0 twice. -/
def brokenPool : ParticleList :=
  { numParticles := 2
    particles := [liveParticle, liveParticle]
    inactiveStack := [0, 0]
    inactiveCount := 2 }

/-- The pool that `ParticleList(2000)` constructs. -/
def endToEndPool : ParticleList :=
  { numParticles := 2000
    particles := List.replicate (2000 : Int).toNat Particle.default
    inactiveStack := (List.range (2000 : Int).toNat).map Int.ofNat
    inactiveCount := 2000 }

/-- The generator that `ParticleGenerator(2000, (0,0,0), 0, 1, 1000)` constructs:
rate 1000, window `[0, 1)`, carry 0, a fresh pool of capacity 2000, and the
constructor's lifespan parameters (mean 1, range 0.3). -/
def endToEndGenerator : ParticleGenerator :=
  { pl := endToEndPool
    position := ⟨0, 0, 0⟩
    radius := 1
    timeStart := 0
    timeStop := 1
    generationRate := 1000
    f := 0
    meanInitSpeed := 1 / 2
    speedRange := 2 / 10
    meanLifespan := 1
    lifespanRange := 3 / 10 }

/-- A stand-in for the C math library in examples: `cos` is constantly 1, `sin`
constantly 0 and `sqrt` constantly 1. -/
def flatLibm : Libm :=
  { PI := 355 / 113
    cos := fun _ => 1
    sin := fun _ => 0
    sqrt := fun _ => 1 }

/-- The random stream all of whose draws are `c`. -/
def constRng (c : ℚ) : Rng :=
  { draw := fun _ => c
    next := 0 }

/-- The random stream whose draws `3, 7, 11, ..` (the lifespan draw of each spawn of an
emitter that starts on it) are `0.5` and whose other draws are `0.3`. -/
def mixedRng : Rng :=
  { draw := fun k => if k % 4 = 3 then 1 / 2 else 3 / 10
    next := 0 }

/-- A freshly constructed pool of capacity 1, as `ParticleList(1)` builds it. -/
def tinyPool : ParticleList :=
  { numParticles := 1
    particles := [Particle.default]
    inactiveStack := [0]
    inactiveCount := 1 }

/-- The generator `demoGenerator` after `setLifespanParams(0, 3)`: lifespans are
sampled by `gauss(0, 1)`. -/
def wideGenerator : ParticleGenerator :=
  demoGenerator.setLifespanParams 0 3

/-- The generator `demoGenerator` on a pool of capacity 1 instead of 2. -/
def tinyGenerator : ParticleGenerator :=
  { demoGenerator with pl := tinyPool }

/-- A running model at time 0 with step 0.01 and drag 0.2 whose only emitter is
`demoGenerator`. -/
def demoModel : Model :=
  (Model.single demoGenerator (1 / 100) (2 / 10)).startSimulation

/-- The pool of capacity 2 with both slots active: the stack pointer is 0. -/
def fullPool : ParticleList :=
  { numParticles := 2
    particles := [liveParticle, liveParticle]
    inactiveStack := [0, 1]
    inactiveCount := 0 }

/-- The generator that `ParticleGenerator(2, (0,0,0), 0, 10, 1)` constructs: rate 1,
window `[0, 10)`, carry 0, a fresh pool of capacity 2. -/
def carryGenerator : ParticleGenerator :=
  { pl := demoPool
    position := ⟨0, 0, 0⟩
    radius := 1
    timeStart := 0
    timeStop := 10
    generationRate := 1
    f := 0
    meanInitSpeed := 1 / 2
    speedRange := 2 / 10
    meanLifespan := 1
    lifespanRange := 3 / 10 }

/-! ## Vector lemmas -/

theorem Vector3d.add_def (a b : Vector3d) :
    a + b = ⟨a.x + b.x, a.y + b.y, a.z + b.z⟩ := rfl

theorem Vector3d.smul_def (s : ℚ) (v : Vector3d) :
    s * v = ⟨s * v.x, s * v.y, s * v.z⟩ := rfl

theorem Vector3d.sdiv_def (v : Vector3d) (s : ℚ) :
    v / s = ⟨v.x / s, v.y / s, v.z / s⟩ := rfl

/-! ## Array and loop lemmas -/

theorem readAt_natCast {α : Type} (xs : List α) (i : Nat) : readAt xs (i : Int) = xs[i]? := by
  simp [readAt]

theorem writeAt_natCast {α : Type} (xs : List α) (i : Nat) (v : α) (h : i < xs.length) :
    writeAt xs (i : Int) v = some (xs.set i v) := by
  simp [writeAt, h]

theorem readAt_eq_some {α : Type} {xs : List α} {i : Int} {a : α} (h : readAt xs i = some a) :
    0 ≤ i ∧ i.toNat < xs.length ∧ xs[i.toNat]? = some a := by
  unfold readAt at h
  split at h
  · rename_i h0
    refine ⟨h0, ?_, h⟩
    by_contra hlt
    rw [List.getElem?_eq_none (by omega)] at h
    cases h
  · cases h

/-- A loop whose iteration `i` rewrites slot `i` by `f` and touches nothing else
maps `f` over the slots `i0 ≤ j < i0 + k`. -/
theorem forLoop_pointwise (body : Nat → ParticleList → Option ParticleList)
    (f : Particle → Particle)
    (hbody : ∀ i pl p, pl.particles[i]? = some p →
      body i pl = some { pl with particles := pl.particles.set i (f p) }) :
    ∀ (k i : Nat) (pl : ParticleList), i + k ≤ pl.particles.length →
      ∃ ps, forLoop body k i pl = some { pl with particles := ps } ∧
        ps.length = pl.particles.length ∧
        ∀ j, ps[j]? = if i ≤ j ∧ j < i + k then (pl.particles[j]?).map f
                      else pl.particles[j]? := by
  intro k
  induction k with
  | zero =>
    intro i pl _
    refine ⟨pl.particles, rfl, rfl, fun j => ?_⟩
    have hno : ¬ (i ≤ j ∧ j < i + 0) := by omega
    rw [if_neg hno]
  | succ k ih =>
    intro i pl hlen
    have hi : i < pl.particles.length := by omega
    have hp : pl.particles[i]? = some pl.particles[i] := List.getElem?_eq_getElem hi
    obtain ⟨ps, h1, h2, h3⟩ :=
      ih (i + 1) { pl with particles := pl.particles.set i (f pl.particles[i]) }
        (by simp only [List.length_set]; omega)
    refine ⟨ps, ?_, ?_, ?_⟩
    · simp only [forLoop, hbody i pl _ hp, Option.some_bind, h1]
    · simpa using h2
    · intro j
      rw [h3 j]
      simp only [List.getElem?_set]
      by_cases hij : i = j
      · subst hij
        have h1 : ¬ (i + 1 ≤ i ∧ i < i + 1 + k) := by omega
        have h2 : (i ≤ i ∧ i < i + (k + 1)) := by omega
        simp [h1, h2, hi]
      · by_cases hc : i + 1 ≤ j ∧ j < i + 1 + k
        · have h2 : (i ≤ j ∧ j < i + (k + 1)) := by omega
          simp [hc, h2, hij]
        · have h2 : ¬ (i ≤ j ∧ j < i + (k + 1)) := by omega
          simp [hc, h2, hij]

/-- Closed form of a whole-array pass of the kind of `forLoop_pointwise`. -/
theorem forLoop_map (body : Nat → ParticleList → Option ParticleList)
    (f : Particle → Particle)
    (hbody : ∀ i pl p, pl.particles[i]? = some p →
      body i pl = some { pl with particles := pl.particles.set i (f p) })
    (pl : ParticleList) (hlen : (pl.particles.length : Int) = pl.numParticles) :
    forLoop body pl.numParticles.toNat 0 pl =
      some { pl with particles := pl.particles.map f } := by
  have hn : pl.numParticles.toNat = pl.particles.length := by omega
  obtain ⟨ps, h1, h2, h3⟩ := forLoop_pointwise body f hbody pl.particles.length 0 pl (by omega)
  rw [hn, h1]
  have : ps = pl.particles.map f := by
    apply List.ext_getElem?
    intro j
    rw [h3 j, List.getElem?_map]
    by_cases hj : j < pl.particles.length
    · simp [hj]
    · simp [hj, List.getElem?_eq_none (Nat.le_of_not_lt hj)]
  rw [this]

theorem set_eq_self_of_getElem? {α : Type} {l : List α} {i : Nat} {a : α}
    (h : l[i]? = some a) : l.set i a = l := by
  apply List.ext_getElem?
  intro j
  rw [List.getElem?_set]
  by_cases hij : i = j
  · subst hij
    have hi : i < l.length := by
      by_contra hlt
      rw [List.getElem?_eq_none (by omega)] at h
      cases h
    simp [hi, h]
  · simp [hij]

/-- Pushing `v` at the stack pointer `c` appends `v` to the live part of the stack. -/
theorem take_succ_set {α : Type} (l : List α) (c : Nat) (v : α) (hc : c < l.length) :
    (l.set c v).take (c + 1) = l.take c ++ [v] := by
  have hlen : (List.take c l).length = c := by
    rw [List.length_take]; omega
  apply List.ext_getElem?
  intro j
  rw [List.getElem?_take, List.getElem?_set, List.getElem?_append, hlen, List.getElem?_take]
  by_cases hj : j < c
  · have h1 : j < c + 1 := by omega
    have h2 : ¬ c = j := by omega
    rw [if_pos h1, if_neg h2, if_pos hj, if_pos hj]
  · by_cases hjc : j = c
    · subst hjc
      simp [hc]
    · have h1 : ¬ j < c + 1 := by omega
      rw [if_neg h1, if_neg hj]
      have h5 : j - c = (j - c - 1) + 1 := by omega
      rw [h5]
      rfl

namespace ParticleList

theorem computeAccelerations_eq (drag : ℚ) (pl : ParticleList)
    (hlen : (pl.particles.length : Int) = pl.numParticles) :
    pl.computeAccelerations drag =
      some { pl with particles := pl.particles.map (computeAccelerationsSlot drag) } := by
  unfold computeAccelerations
  apply forLoop_map _ _ _ pl hlen
  intro i q p hp
  unfold computeAccelerationsBody computeAccelerationsSlot
  simp only [hp]
  split
  · rfl
  · rw [set_eq_self_of_getElem? hp]

theorem integrate_eq (h : ℚ) (pl : ParticleList)
    (hlen : (pl.particles.length : Int) = pl.numParticles) :
    pl.integrate h = some { pl with particles := pl.particles.map (integrateSlot h) } := by
  unfold integrate
  apply forLoop_map _ _ _ pl hlen
  intro i q p hp
  unfold integrateBody integrateSlot
  simp only [hp]
  split
  · rfl
  · rw [set_eq_self_of_getElem? hp]

theorem deadIndices_congr (t : ℚ) (ps qs : List Particle) (i k : Nat)
    (h : ∀ j, i ≤ j → qs[j]? = ps[j]?) : deadIndices t qs i k = deadIndices t ps i k := by
  unfold deadIndices
  congr 1
  apply List.filter_congr
  intro x hx
  rw [List.mem_range'_1] at hx
  unfold dies
  rw [h x hx.1]

theorem deadIndices_succ (t : ℚ) (ps : List Particle) (i k : Nat) :
    deadIndices t ps i (k + 1) =
      if dies t ps i = true then (i : Int) :: deadIndices t ps (i + 1) k
      else deadIndices t ps (i + 1) k := by
  unfold deadIndices
  rw [List.range'_succ, List.filter_cons]
  split <;> simp

/-- Loop invariant of `testAndDeactivate`, in closed form: the iterations
`i .. i+k-1` turn off exactly the slots that die, push their indices in ascending
order on the live part of the stack and keep the sum of the active count and the
stack pointer. -/
theorem testAndDeactivate_loop (t : ℚ) :
    ∀ (k i : Nat) (pl : ParticleList),
      i + k = pl.particles.length →
      pl.inactiveStack.length = pl.particles.length →
      0 ≤ pl.inactiveCount →
      (activeCount pl : Int) + pl.inactiveCount ≤ pl.particles.length →
      ∃ pl', forLoop (testAndDeactivateBody t) k i pl = some pl' ∧
        pl'.numParticles = pl.numParticles ∧
        pl'.particles.length = pl.particles.length ∧
        (∀ j, pl'.particles[j]? =
          if i ≤ j then (pl.particles[j]?).map (cullSlot t) else pl.particles[j]?) ∧
        pl'.inactiveStack.length = pl.inactiveStack.length ∧
        pl'.inactiveCount = pl.inactiveCount + (deadIndices t pl.particles i k).length ∧
        freeList pl' = freeList pl ++ deadIndices t pl.particles i k ∧
        (activeCount pl' : Int) + pl'.inactiveCount = activeCount pl + pl.inactiveCount := by
  intro k
  induction k with
  | zero =>
    intro i pl hik _ _ _
    refine ⟨pl, rfl, rfl, rfl, fun j => ?_, rfl, ?_, ?_, rfl⟩
    · by_cases hij : i ≤ j
      · have hj : pl.particles.length ≤ j := by omega
        rw [if_pos hij, List.getElem?_eq_none hj]
        rfl
      · rw [if_neg hij]
    · simp [deadIndices]
    · simp [deadIndices]
  | succ k ih =>
    intro i pl hik hst hc hcnt
    have hi : i < pl.particles.length := by omega
    have hp : pl.particles[i]? = some pl.particles[i] := List.getElem?_eq_getElem hi
    by_cases hkill : pl.particles[i].isActive = true ∧ shouldKill pl.particles[i] t = true
    · -- the slot dies
      have hpos : 0 < activeCount pl :=
        List.countP_pos_iff.mpr ⟨pl.particles[i], List.getElem_mem hi, hkill.1⟩
      have hcl : pl.inactiveCount.toNat < pl.inactiveStack.length := by omega
      have hbody : testAndDeactivateBody t i pl =
          some { pl with
            particles := pl.particles.set i { pl.particles[i] with isActive := false },
            inactiveStack := pl.inactiveStack.set pl.inactiveCount.toNat (i : Int),
            inactiveCount := pl.inactiveCount + 1 } := by
        simp [testAndDeactivateBody, hp, hkill, writeAt, hc, hcl]
      obtain ⟨pl1, hb, e1, e2, e3, e4⟩ : ∃ pl1, testAndDeactivateBody t i pl = some pl1 ∧
          pl1.numParticles = pl.numParticles ∧
          pl1.particles = pl.particles.set i { pl.particles[i] with isActive := false } ∧
          pl1.inactiveStack = pl.inactiveStack.set pl.inactiveCount.toNat (i : Int) ∧
          pl1.inactiveCount = pl.inactiveCount + 1 := ⟨_, hbody, rfl, rfl, rfl, rfl⟩
      have hact : activeCount pl1 + 1 = activeCount pl := by
        simp only [activeCount, e2]
        rw [List.countP_set _ _ _ _ hi]
        simp only [activeCount] at hpos
        simp [hkill.1]
        omega
      have hlen1 : pl1.particles.length = pl.particles.length := by
        rw [e2, List.length_set]
      have hst1 : pl1.inactiveStack.length = pl.inactiveStack.length := by
        rw [e3, List.length_set]
      obtain ⟨pl', h1, h2, h3, h4, h5, h6, h7, h8⟩ :=
        ih (i + 1) pl1 (by omega) (by omega) (by omega) (by omega)
      have hdies : dies t pl.particles i = true := by
        simp [dies, hp, hkill]
      have hcongr : deadIndices t pl1.particles (i + 1) k =
          deadIndices t pl.particles (i + 1) k := by
        apply deadIndices_congr
        intro j hj
        rw [e2, List.getElem?_set]
        have : ¬ i = j := by omega
        simp [this]
      rw [hcongr] at h6 h7
      refine ⟨pl', ?_, by rw [h2, e1], by omega, ?_, by omega, ?_, ?_, by omega⟩
      · simp only [forLoop, hb, Option.some_bind, h1]
      · intro j
        rw [h4 j, e2]
        simp only [List.getElem?_set]
        by_cases hij : i = j
        · subst hij
          have : ¬ (i + 1 ≤ i) := by omega
          simp [this, hi, hp, cullSlot, hkill]
        · by_cases hle : i + 1 ≤ j
          · have : i ≤ j := by omega
            simp [hle, this, hij]
          · have : ¬ i ≤ j := by omega
            simp [hle, this, hij]
      · rw [h6, deadIndices_succ, if_pos hdies, e4]
        simp only [List.length_cons]
        push_cast
        omega
      · rw [h7, deadIndices_succ, if_pos hdies]
        simp only [freeList, e3, e4]
        have e : (pl.inactiveCount + 1).toNat = pl.inactiveCount.toNat + 1 := by omega
        rw [e, take_succ_set _ _ _ hcl]
        simp
    · -- the slot stays as it is
      have hbody : testAndDeactivateBody t i pl = some pl := by
        unfold testAndDeactivateBody
        simp only [hp]
        by_cases ha : pl.particles[i].isActive = true
        · have hk : ¬ shouldKill pl.particles[i] t = true := fun hk => hkill ⟨ha, hk⟩
          simp [ha, hk]
        · simp [ha]
      obtain ⟨pl', h1, h2, h3, h4, h5, h6, h7, h8⟩ := ih (i + 1) pl (by omega) hst hc hcnt
      have hdies : ¬ dies t pl.particles i = true := by
        simp only [dies, hp, Bool.and_eq_true]
        exact hkill
      refine ⟨pl', ?_, h2, h3, ?_, h5, ?_, ?_, h8⟩
      · simp only [forLoop, hbody, Option.some_bind, h1]
      · intro j
        rw [h4 j]
        by_cases hij : i = j
        · subst hij
          have : ¬ (i + 1 ≤ i) := by omega
          simp [this, hp, cullSlot, hkill]
        · by_cases hle : i + 1 ≤ j
          · have : i ≤ j := by omega
            simp [hle, this]
          · have : ¬ i ≤ j := by omega
            simp [hle, this]
      · rw [h6, deadIndices_succ, if_neg hdies]
      · rw [h7, deadIndices_succ, if_neg hdies]

theorem readAt_map {α β : Type} (f : α → β) (xs : List α) (i : Int) :
    readAt (xs.map f) i = (readAt xs i).map f := by
  unfold readAt
  split
  · rw [List.getElem?_map]
  · rfl

theorem shouldKill_iff (p : Particle) (t : ℚ) :
    shouldKill p t = true ↔ t - p.timestamp ≥ p.lifespan := by
  unfold shouldKill
  simp

theorem cullSlot_isActive (t : ℚ) (p : Particle) :
    (cullSlot t p).isActive = true ↔ p.isActive = true ∧ t - p.timestamp < p.lifespan := by
  unfold cullSlot
  by_cases ha : p.isActive = true
  · by_cases hk : shouldKill p t = true
    · have := (shouldKill_iff p t).mp hk
      simp only [ha, hk, and_self, if_true, true_and]
      constructor
      · intro h; cases h
      · intro h; exact absurd this (not_le.mpr h)
    · have hlt : t - p.timestamp < p.lifespan := by
        by_contra hge
        exact hk ((shouldKill_iff p t).mpr (not_lt.mp hge))
      simp [ha, hk, hlt]
  · simp [ha]

theorem cullSlot_inactive (t : ℚ) (p : Particle) :
    (cullSlot t p).isActive = false ↔
      p.isActive = false ∨ (p.isActive = true ∧ shouldKill p t = true) := by
  unfold cullSlot
  by_cases ha : p.isActive = true
  · by_cases hk : shouldKill p t = true
    · simp [ha, hk]
    · simp [ha, hk]
  · simp [ha]

theorem mem_deadIndices (t : ℚ) (ps : List Particle) (x : Int) :
    x ∈ deadIndices t ps 0 ps.length ↔
      ∃ p, readAt ps x = some p ∧ p.isActive = true ∧ shouldKill p t = true := by
  unfold deadIndices
  simp only [List.mem_map, List.mem_filter, List.mem_range'_1]
  constructor
  · rintro ⟨j, ⟨⟨_, hj⟩, hd⟩, rfl⟩
    have hj' : j < ps.length := by omega
    refine ⟨ps[j], ?_, ?_⟩
    · show readAt ps (j : Int) = _
      rw [readAt_natCast, List.getElem?_eq_getElem hj']
    · simpa [dies, List.getElem?_eq_getElem hj'] using hd
  · rintro ⟨p, hp, ha, hk⟩
    obtain ⟨h0, hlt, hget⟩ := readAt_eq_some hp
    refine ⟨x.toNat, ⟨⟨by omega, by omega⟩, ?_⟩, ?_⟩
    · simp [dies, hget, ha, hk]
    · show ((x.toNat : Nat) : Int) = x
      omega

theorem nodup_deadIndices (t : ℚ) (ps : List Particle) (i k : Nat) :
    (deadIndices t ps i k).Nodup := by
  unfold deadIndices
  apply List.Nodup.map
  · intro a b hab
    exact Int.ofNat.inj hab
  · exact List.Nodup.filter _ (List.nodup_range' i k)

/-- On a pool that satisfies the invariant, `testAndDeactivate` returns, turns off
exactly the slots that die, appends their indices in ascending order to the live
part of the stack, and re-establishes the invariant. -/
theorem testAndDeactivate_spec (h t : ℚ) (pl : ParticleList) (inv : PoolInv pl) :
    ∃ pl', pl.testAndDeactivate h t = some pl' ∧
      pl'.numParticles = pl.numParticles ∧
      pl'.particles = pl.particles.map (cullSlot t) ∧
      pl'.inactiveCount =
        pl.inactiveCount + (deadIndices t pl.particles 0 pl.particles.length).length ∧
      freeList pl' = freeList pl ++ deadIndices t pl.particles 0 pl.particles.length ∧
      PoolInv pl' := by
  obtain ⟨⟨hpl, hsl⟩, hc, hcnt, hnd, hmem⟩ := inv
  have hn : pl.numParticles.toNat = pl.particles.length := by omega
  obtain ⟨pl', h1, h2, h3, h4, h5, h6, h7, h8⟩ :=
    testAndDeactivate_loop t pl.particles.length 0 pl (by omega) (by omega) hc (by omega)
  have hps : pl'.particles = pl.particles.map (cullSlot t) := by
    apply List.ext_getElem?
    intro j
    rw [h4 j, List.getElem?_map]
    simp
  refine ⟨pl', ?_, h2, hps, h6, h7, ⟨⟨by omega, by omega⟩, by omega, by omega, ?_, ?_⟩⟩
  · unfold testAndDeactivate
    rw [hn, h1]
  · rw [h7, List.nodup_append]
    refine ⟨hnd, nodup_deadIndices _ _ _ _, ?_⟩
    intro x hx hx'
    obtain ⟨p, hp, hina⟩ := (hmem x).mp hx
    obtain ⟨q, hq, hact, _⟩ := (mem_deadIndices t pl.particles x).mp hx'
    rw [hp] at hq
    cases hq
    rw [hina] at hact
    cases hact
  · intro x
    rw [h7, List.mem_append, hmem x, mem_deadIndices, hps, readAt_map]
    constructor
    · rintro (⟨p, hp, hina⟩ | ⟨p, hp, ha, hk⟩)
      · exact ⟨cullSlot t p, by rw [hp]; rfl, (cullSlot_inactive t p).mpr (Or.inl hina)⟩
      · exact ⟨cullSlot t p, by rw [hp]; rfl, (cullSlot_inactive t p).mpr (Or.inr ⟨ha, hk⟩)⟩
    · rintro ⟨q, hq, hina⟩
      cases hr : readAt pl.particles x with
      | none => rw [hr] at hq; cases hq
      | some p =>
        rw [hr] at hq
        have hqe : cullSlot t p = q := by simpa using hq
        rw [← hqe] at hina
        rcases (cullSlot_inactive t p).mp hina with h | ⟨ha, hk⟩
        · exact Or.inl ⟨p, rfl, h⟩
        · exact Or.inr ⟨p, rfl, ha, hk⟩

theorem readAt_set {α : Type} (xs : List α) (k : Int) (hk : 0 ≤ k) (v : α) (i : Int) :
    readAt (xs.set k.toNat v) i =
      if i = k then (if k.toNat < xs.length then some v else none) else readAt xs i := by
  unfold readAt
  by_cases hi : 0 ≤ i
  · rw [if_pos hi, if_pos hi, List.getElem?_set]
    by_cases hik : i = k
    · subst hik
      simp
    · have : ¬ k.toNat = i.toNat := by omega
      rw [if_neg this, if_neg hik]
  · have hik : ¬ i = k := by omega
    rw [if_neg hi, if_neg hi, if_neg hik]

/-- On a pool that satisfies the invariant and has a free slot, `activateTopParticle`
returns: it takes the index on top of the stack, whose slot is inactive, rewrites
that slot and decrements the stack pointer; the invariant holds afterwards. -/
theorem activateTopParticle_spec (pos vel : Vector3d) (ls ts : ℚ) (pl : ParticleList)
    (inv : PoolInv pl) (hpos : 0 < pl.inactiveCount) :
    ∃ (pIndex : Int) (p : Particle),
      readAt pl.inactiveStack (pl.inactiveCount - 1) = some pIndex ∧
      readAt pl.particles pIndex = some p ∧ p.isActive = false ∧
      ∃ pl', pl.activateTopParticle pos vel ls ts = some pl' ∧
        pl' = { pl with
          particles := pl.particles.set pIndex.toNat
            { p with position := pos, velocity := vel, lifespan := ls, timestamp := ts,
                     isActive := true },
          inactiveCount := pl.inactiveCount - 1 } ∧
        PoolInv pl' := by
  obtain ⟨⟨hpl, hsl⟩, hc, hcnt, hnd, hmem⟩ := inv
  have hle : pl.inactiveCount ≤ pl.numParticles := by omega
  have htop : (pl.inactiveCount - 1).toNat < pl.inactiveStack.length := by omega
  have hread : readAt pl.inactiveStack (pl.inactiveCount - 1) =
      some pl.inactiveStack[(pl.inactiveCount - 1).toNat] := by
    unfold readAt
    rw [if_pos (by omega), List.getElem?_eq_getElem htop]
  have hfree : freeList pl = pl.inactiveStack.take (pl.inactiveCount - 1).toNat ++
      [pl.inactiveStack[(pl.inactiveCount - 1).toNat]] := by
    unfold freeList
    have e : pl.inactiveCount.toNat = (pl.inactiveCount - 1).toNat + 1 := by omega
    rw [e, List.take_succ, List.getElem?_eq_getElem htop]
    rfl
  have hin : pl.inactiveStack[(pl.inactiveCount - 1).toNat] ∈ freeList pl := by
    rw [hfree]
    exact List.mem_append_right _ (List.mem_singleton.mpr rfl)
  obtain ⟨p, hp, hina⟩ := (hmem _).mp hin
  obtain ⟨hp0, hplt, hpget⟩ := readAt_eq_some hp
  refine ⟨_, p, hread, hp, hina, _, ?_, rfl, ?_⟩
  · unfold activateTopParticle
    rw [if_pos ⟨hpos, hle⟩]
    simp only [hread, hp]
  · rw [hfree, List.nodup_append] at hnd
    obtain ⟨hnd1, _, hdisj⟩ := hnd
    refine ⟨⟨?_, hsl⟩, ?_, ?_, hnd1, ?_⟩
    · show ((List.set _ _ _).length : Int) = _
      rw [List.length_set]; exact hpl
    · show 0 ≤ pl.inactiveCount - 1
      omega
    · show ((List.countP _ (List.set _ _ _) : Nat) : Int) + (pl.inactiveCount - 1) = _
      rw [List.countP_set _ _ _ _ hplt]
      have hpe : pl.particles[(pl.inactiveStack[(pl.inactiveCount - 1).toNat]).toNat] = p := by
        rw [List.getElem?_eq_getElem hplt] at hpget
        exact Option.some.inj hpget
      simp only [hpe, hina, activeCount] at hcnt ⊢
      simp
      omega
    · intro i
      simp only [freeList]
      rw [readAt_set _ _ hp0]
      have hmi := hmem i
      rw [hfree, List.mem_append, List.mem_singleton] at hmi
      by_cases hik : i = pl.inactiveStack[(pl.inactiveCount - 1).toNat]
      · rw [if_pos hik, if_pos hplt]
        constructor
        · intro hi
          exact absurd (List.mem_singleton.mpr hik.symm) (fun hm =>
            hdisj hi (by rw [← hik] at hm ⊢; exact List.mem_singleton.mpr rfl))
        · rintro ⟨q, hq, hqa⟩
          have := Option.some.inj hq
          rw [← this] at hqa
          cases hqa
      · rw [if_neg hik, ← hmi]
        exact ⟨Or.inl, fun h => h.resolve_right hik⟩

/-- A loop whose iteration `i` rewrites slot `i` by `f` and stores `i` in entry `i`
of the stack does so for all `i0 ≤ j < i0 + k`. -/
theorem forLoop_reset (body : Nat → ParticleList → Option ParticleList)
    (f : Particle → Particle)
    (hbody : ∀ i pl p, pl.particles[i]? = some p → i < pl.inactiveStack.length →
      body i pl = some { pl with particles := pl.particles.set i (f p),
                                 inactiveStack := pl.inactiveStack.set i (i : Int) }) :
    ∀ (k i : Nat) (pl : ParticleList),
      i + k ≤ pl.particles.length → i + k ≤ pl.inactiveStack.length →
      ∃ ps st, forLoop body k i pl = some { pl with particles := ps, inactiveStack := st } ∧
        ps.length = pl.particles.length ∧ st.length = pl.inactiveStack.length ∧
        (∀ j, ps[j]? = if i ≤ j ∧ j < i + k then (pl.particles[j]?).map f
                       else pl.particles[j]?) ∧
        (∀ j, st[j]? = if i ≤ j ∧ j < i + k then some (j : Int)
                       else pl.inactiveStack[j]?) := by
  intro k
  induction k with
  | zero =>
    intro i pl _ _
    refine ⟨pl.particles, pl.inactiveStack, rfl, rfl, rfl, fun j => ?_, fun j => ?_⟩
    · have hno : ¬ (i ≤ j ∧ j < i + 0) := by omega
      rw [if_neg hno]
    · have hno : ¬ (i ≤ j ∧ j < i + 0) := by omega
      rw [if_neg hno]
  | succ k ih =>
    intro i pl hlen hslen
    have hi : i < pl.particles.length := by omega
    have his : i < pl.inactiveStack.length := by omega
    have hp : pl.particles[i]? = some pl.particles[i] := List.getElem?_eq_getElem hi
    obtain ⟨ps, st, h1, h2, h3, h4, h5⟩ :=
      ih (i + 1) { pl with particles := pl.particles.set i (f pl.particles[i]),
                           inactiveStack := pl.inactiveStack.set i (i : Int) }
        (by simp only [List.length_set]; omega) (by simp only [List.length_set]; omega)
    refine ⟨ps, st, ?_, ?_, ?_, ?_, ?_⟩
    · simp only [forLoop, hbody i pl _ hp his, Option.some_bind, h1]
    · simpa using h2
    · simpa using h3
    · intro j
      rw [h4 j]
      simp only [List.getElem?_set]
      by_cases hij : i = j
      · subst hij
        have h1 : ¬ (i + 1 ≤ i ∧ i < i + 1 + k) := by omega
        have h2 : (i ≤ i ∧ i < i + (k + 1)) := by omega
        simp [h1, h2, hi]
      · by_cases hc : i + 1 ≤ j ∧ j < i + 1 + k
        · have h2 : (i ≤ j ∧ j < i + (k + 1)) := by omega
          simp [hc, h2, hij]
        · have h2 : ¬ (i ≤ j ∧ j < i + (k + 1)) := by omega
          simp [hc, h2, hij]
    · intro j
      rw [h5 j]
      simp only [List.getElem?_set]
      by_cases hij : i = j
      · subst hij
        have h1 : ¬ (i + 1 ≤ i ∧ i < i + 1 + k) := by omega
        have h2 : (i ≤ i ∧ i < i + (k + 1)) := by omega
        simp [h1, h2, his]
      · by_cases hc : i + 1 ≤ j ∧ j < i + 1 + k
        · have h2 : (i ≤ j ∧ j < i + (k + 1)) := by omega
          simp [hc, h2]
        · have h2 : ¬ (i ≤ j ∧ j < i + (k + 1)) := by omega
          simp [hc, h2, hij]

/-- Closed form of a whole-array pass of the kind of `forLoop_reset`. -/
theorem forLoop_reset_all (body : Nat → ParticleList → Option ParticleList)
    (f : Particle → Particle)
    (hbody : ∀ i pl p, pl.particles[i]? = some p → i < pl.inactiveStack.length →
      body i pl = some { pl with particles := pl.particles.set i (f p),
                                 inactiveStack := pl.inactiveStack.set i (i : Int) })
    (n : Nat) (pl : ParticleList) (hpl : pl.particles.length = n)
    (hsl : pl.inactiveStack.length = n) :
    forLoop body n 0 pl =
      some { pl with particles := pl.particles.map f,
                     inactiveStack := (List.range n).map Int.ofNat } := by
  obtain ⟨ps, st, h1, h2, h3, h4, h5⟩ :=
    forLoop_reset body f hbody n 0 pl (by omega) (by omega)
  rw [h1]
  have e1 : ps = pl.particles.map f := by
    apply List.ext_getElem?
    intro j
    rw [h4 j, List.getElem?_map]
    by_cases hj : j < n
    · simp [hj]
    · simp [hj, List.getElem?_eq_none (show pl.particles.length ≤ j by omega)]
  have e2 : st = (List.range n).map Int.ofNat := by
    apply List.ext_getElem?
    intro j
    rw [h5 j, List.getElem?_map]
    by_cases hj : j < n
    · simp [hj, List.getElem?_range hj]
    · simp [hj, List.getElem?_eq_none (show pl.inactiveStack.length ≤ j by omega),
        List.getElem?_eq_none (show (List.range n).length ≤ j by simp; omega)]
  rw [e1, e2]

/-- Closed form of `clear` on an allocated pool. -/
theorem clear_eq (pl : ParticleList) (ha : Allocated pl) :
    pl.clear = some
      { numParticles := pl.numParticles
        particles := pl.particles.map (fun p => { p with isActive := false })
        inactiveStack := (List.range pl.numParticles.toNat).map Int.ofNat
        inactiveCount := pl.numParticles } := by
  obtain ⟨hpl, hsl⟩ := ha
  unfold clear
  rw [forLoop_reset_all clearBody (fun p => { p with isActive := false }) ?_
    pl.numParticles.toNat pl (by omega) (by omega)]
  · rfl
  · intro i q p hp hi
    simp [clearBody, hp, writeAt_natCast _ _ _ hi]

/-- Closed form of the constructor. -/
theorem new_eq (np : Int) (hnp : 0 ≤ np) :
    new np = some
      { numParticles := np
        particles := List.replicate np.toNat Particle.default
        inactiveStack := (List.range np.toNat).map Int.ofNat
        inactiveCount := np } := by
  unfold new
  rw [if_neg (by omega)]
  rw [forLoop_reset_all newBody (fun _ => Particle.default) ?_ np.toNat _ (by simp) (by simp)]
  · simp
  · intro i q p hp hi
    have hi' : i < q.particles.length := by
      by_contra hlt
      rw [List.getElem?_eq_none (by omega)] at hp
      cases hp
    simp [newBody, writeAt_natCast _ _ _ hi, writeAt_natCast _ _ _ hi']

/-- A pool whose slots are all inactive and whose stack lists `0, 1, .., n-1` with
the stack pointer at `n` satisfies the invariant. -/
theorem poolInv_reset (n : Int) (hn : 0 ≤ n) (ps : List Particle)
    (hlen : (ps.length : Int) = n) (hall : ∀ p ∈ ps, p.isActive = false) :
    PoolInv { numParticles := n, particles := ps,
              inactiveStack := (List.range n.toNat).map Int.ofNat, inactiveCount := n } := by
  have hfree : freeList (ParticleList.mk n ps ((List.range n.toNat).map Int.ofNat) n) =
      (List.range n.toNat).map Int.ofNat := by
    simp only [freeList]
    exact List.take_of_length_le (by simp)
  refine ⟨⟨hlen, ?_⟩, hn, ?_, ?_, ?_⟩
  · simp only [List.length_map, List.length_range]
    omega
  · have h0 : List.countP (fun p : Particle => p.isActive) ps = 0 := by
      rw [List.countP_eq_zero]
      intro p hp
      simp [hall p hp]
    simp only [activeCount, h0]
    simp
  · rw [hfree]
    exact List.Nodup.map (fun a b hab => Int.ofNat.inj hab) (List.nodup_range _)
  · intro i
    rw [hfree]
    simp only [List.mem_map, List.mem_range]
    constructor
    · rintro ⟨j, hj, rfl⟩
      have hj' : j < ps.length := by omega
      refine ⟨ps[j], ?_, hall _ (List.getElem_mem hj')⟩
      show readAt ps (j : Int) = _
      rw [readAt_natCast, List.getElem?_eq_getElem hj']
    · rintro ⟨p, hp, _⟩
      obtain ⟨h0, hlt, _⟩ := readAt_eq_some hp
      refine ⟨i.toNat, by omega, ?_⟩
      show ((i.toNat : Nat) : Int) = i
      omega

/-- A pass that maps a function preserving `isActive` over the slots keeps the
invariant. -/
theorem poolInv_map (f : Particle → Particle) (hf : ∀ p, (f p).isActive = p.isActive)
    (pl : ParticleList) (inv : PoolInv pl) :
    PoolInv { pl with particles := pl.particles.map f } := by
  obtain ⟨⟨hpl, hsl⟩, hc, hcnt, hnd, hmem⟩ := inv
  refine ⟨⟨?_, hsl⟩, hc, ?_, hnd, ?_⟩
  · simpa using hpl
  · have : List.countP (fun p : Particle => p.isActive) (pl.particles.map f) =
        List.countP (fun p : Particle => p.isActive) pl.particles := by
      rw [List.countP_map]
      congr 1
      funext p
      exact hf p
    simp only [activeCount] at hcnt ⊢
    rw [this]
    exact hcnt
  · intro i
    show i ∈ freeList pl ↔ _
    rw [hmem i]
    simp only [readAt_map]
    constructor
    · rintro ⟨p, hp, hina⟩
      exact ⟨f p, by rw [hp]; rfl, by rw [hf]; exact hina⟩
    · rintro ⟨q, hq, hina⟩
      cases hr : readAt pl.particles i with
      | none => rw [hr] at hq; cases hq
      | some p =>
        rw [hr] at hq
        have hqe : f p = q := by simpa using hq
        rw [← hqe, hf] at hina
        exact ⟨p, rfl, hina⟩

theorem computeAccelerationsSlot_isActive (drag : ℚ) (p : Particle) :
    (computeAccelerationsSlot drag p).isActive = p.isActive := by
  unfold computeAccelerationsSlot
  split <;> rfl

theorem integrateSlot_isActive (h : ℚ) (p : Particle) :
    (integrateSlot h p).isActive = p.isActive := by
  unfold integrateSlot
  split <;> rfl

/-- The constructor establishes the invariant. -/
theorem new_poolInv (np : Int) (hnp : 0 ≤ np) :
    ∃ pl, new np = some pl ∧ pl.numParticles = np ∧ pl.inactiveCount = np ∧
      activeCount pl = 0 ∧ PoolInv pl := by
  have hall : ∀ p ∈ List.replicate np.toNat Particle.default, p.isActive = false := by
    intro p hp
    rw [List.eq_of_mem_replicate hp]
    rfl
  have inv := poolInv_reset np hnp (List.replicate np.toNat Particle.default)
    (by simp; omega) hall
  refine ⟨_, new_eq np hnp, rfl, rfl, ?_, inv⟩
  have := inv.count_eq
  simp only at this
  omega

/-- The method `clear` establishes the invariant on every allocated pool. -/
theorem clear_poolInv (q : ParticleList) (ha : Allocated q) :
    ∃ pl, q.clear = some pl ∧ pl.numParticles = q.numParticles ∧
      pl.inactiveCount = q.numParticles ∧ activeCount pl = 0 ∧ PoolInv pl := by
  have hall : ∀ p ∈ q.particles.map (fun p => { p with isActive := false }),
      p.isActive = false := by
    intro p hp
    rw [List.mem_map] at hp
    obtain ⟨p0, _, rfl⟩ := hp
    rfl
  have hn : 0 ≤ q.numParticles := by
    have := ha.1
    omega
  have inv := poolInv_reset q.numParticles hn _ (by simpa using ha.1) hall
  refine ⟨_, clear_eq q ha, rfl, rfl, ?_, inv⟩
  have := inv.count_eq
  simp only at this
  omega

/-- Every call keeps the invariant and returns. -/
theorem run_poolInv (c : PoolCall) (pl : ParticleList) (inv : PoolInv pl) :
    ∃ pl', c.run pl = some pl' ∧ pl'.numParticles = pl.numParticles ∧ PoolInv pl' := by
  cases c with
  | clear =>
    obtain ⟨pl', h1, h2, _, _, h3⟩ := clear_poolInv pl inv.alloc
    exact ⟨pl', h1, h2, h3⟩
  | activateTopParticle pos vel ls ts =>
    by_cases hpos : 0 < pl.inactiveCount
    · obtain ⟨_, _, _, _, _, pl', h1, h2, h3⟩ := activateTopParticle_spec pos vel ls ts pl inv hpos
      exact ⟨pl', h1, by rw [h2], h3⟩
    · refine ⟨pl, ?_, rfl, inv⟩
      show pl.activateTopParticle pos vel ls ts = some pl
      unfold activateTopParticle
      rw [if_neg (fun h => hpos h.1)]
  | testAndDeactivate h t =>
    obtain ⟨pl', h1, h2, _, _, _, h3⟩ := testAndDeactivate_spec h t pl inv
    exact ⟨pl', h1, h2, h3⟩
  | computeAccelerations drag =>
    exact ⟨_, computeAccelerations_eq drag pl inv.alloc.1, rfl,
      poolInv_map _ (computeAccelerationsSlot_isActive drag) pl inv⟩
  | integrate h =>
    exact ⟨_, integrate_eq h pl inv.alloc.1, rfl,
      poolInv_map _ (integrateSlot_isActive h) pl inv⟩

/-- Every sequence of calls keeps the invariant and returns. -/
theorem runCalls_poolInv (cs : List PoolCall) :
    ∀ (pl : ParticleList), PoolInv pl →
      ∃ pl', runCalls cs pl = some pl' ∧ pl'.numParticles = pl.numParticles ∧ PoolInv pl' := by
  induction cs with
  | nil => intro pl inv; exact ⟨pl, rfl, rfl, inv⟩
  | cons c cs ih =>
    intro pl inv
    obtain ⟨pl1, h1, h2, h3⟩ := run_poolInv c pl inv
    obtain ⟨pl', h4, h5, h6⟩ := ih pl1 h3
    exact ⟨pl', by simp only [runCalls, h1, Option.some_bind, h4], by rw [h5, h2], h6⟩

theorem new_nonneg {np : Int} {pl : ParticleList} (h : new np = some pl) : 0 ≤ np := by
  by_contra hneg
  unfold new at h
  rw [if_pos (by omega)] at h
  cases h

/-- A pool that comes from the constructor or from `clear` satisfies the invariant
and has no active slot. -/
theorem fresh_poolInv (pl0 : ParticleList)
    (h0 : (∃ np, new np = some pl0) ∨ (∃ q, Allocated q ∧ q.clear = some pl0)) :
    PoolInv pl0 ∧ activeCount pl0 = 0 := by
  rcases h0 with ⟨np, hnew⟩ | ⟨q, ha, hclear⟩
  · obtain ⟨pl, h1, _, _, h2, h3⟩ := new_poolInv np (new_nonneg hnew)
    rw [h1] at hnew
    cases hnew
    exact ⟨h3, h2⟩
  · obtain ⟨pl, h1, _, _, h2, h3⟩ := clear_poolInv q ha
    rw [h1] at hclear
    cases hclear
    exact ⟨h3, h2⟩

/-- After `k` activation requests on a pool that satisfies the invariant the number
of active slots has grown by `k`, capped at the capacity. -/
theorem activations_count (args : List (Vector3d × Vector3d × ℚ × ℚ)) :
    ∀ (pl : ParticleList), PoolInv pl →
      ∃ pl', runCalls (args.map activateCall) pl = some pl' ∧ PoolInv pl' ∧
        pl'.numParticles = pl.numParticles ∧
        (activeCount pl' : Int) = min ((activeCount pl : Int) + args.length) pl.numParticles := by
  induction args with
  | nil =>
    intro pl inv
    refine ⟨pl, rfl, inv, rfl, ?_⟩
    have := inv.count_eq
    have := inv.count_nonneg
    simp only [List.length_nil]
    omega
  | cons a args ih =>
    intro pl inv
    have hcnt := inv.count_eq
    have hc := inv.count_nonneg
    by_cases hpos : 0 < pl.inactiveCount
    · obtain ⟨_, _, _, _, _, pl1, h1, h2, h3⟩ :=
        activateTopParticle_spec a.1 a.2.1 a.2.2.1 a.2.2.2 pl inv hpos
      obtain ⟨pl', h4, h5, h6, h7⟩ := ih pl1 h3
      have hcnt1 := h3.count_eq
      have hn1 : pl1.numParticles = pl.numParticles := by rw [h2]
      have hc1 : pl1.inactiveCount = pl.inactiveCount - 1 := by rw [h2]
      refine ⟨pl', ?_, h5, by rw [h6, hn1], ?_⟩
      · simp only [List.map_cons, runCalls, activateCall, PoolCall.run, h1, Option.some_bind]
        exact h4
      · rw [h7]
        simp only [List.length_cons]
        push_cast
        omega
    · obtain ⟨pl', h4, h5, h6, h7⟩ := ih pl inv
      have h1 : pl.activateTopParticle a.1 a.2.1 a.2.2.1 a.2.2.2 = some pl := by
        unfold activateTopParticle
        rw [if_neg (fun h => hpos h.1)]
      refine ⟨pl', ?_, h5, h6, ?_⟩
      · simp only [List.map_cons, runCalls, activateCall, PoolCall.run, h1, Option.some_bind]
        exact h4
      · rw [h7]
        simp only [List.length_cons]
        push_cast
        omega

theorem demoPool_inv : PoolInv demoPool :=
  (fresh_poolInv demoPool (Or.inl ⟨2, rfl⟩)).1

theorem livePool_inv : PoolInv livePool := by
  obtain ⟨_, _, _, _, _, pl', h1, _, h3⟩ :=
    activateTopParticle_spec ⟨1, 2, 3⟩ ⟨0, 0, 0⟩ 1 2 demoPool demoPool_inv (by decide)
  have e : demoPool.activateTopParticle ⟨1, 2, 3⟩ ⟨0, 0, 0⟩ 1 2 = some livePool := rfl
  rw [e] at h1
  cases h1
  exact h3

/-- Closed form of `k` rounds of the two physics passes on an allocated pool. -/
theorem physicsRounds_eq (drag dt : ℚ) (k : Nat) :
    ∀ (pl : ParticleList), (pl.particles.length : Int) = pl.numParticles →
      physicsRounds drag dt k pl =
        some { pl with particles := pl.particles.map (roundSlot drag dt)^[k] } := by
  induction k with
  | zero =>
    intro pl _
    simp [physicsRounds]
  | succ k ih =>
    intro pl hlen
    simp only [physicsRounds]
    rw [computeAccelerations_eq drag pl hlen]
    simp only [Option.some_bind]
    rw [integrate_eq dt _ (by simpa using hlen)]
    simp only [Option.some_bind]
    rw [ih _ (by simpa using hlen)]
    simp only [List.map_map, Function.iterate_succ]
    rfl

/-- Trace of one active record with non-zero mass and zero velocity under `k`
rounds with zero drag. -/
theorem roundSlot_trace (dt : ℚ) (p : Particle) (hact : p.isActive = true)
    (hm : p.mass ≠ 0) (hv : p.velocity = ⟨0, 0, 0⟩) (k : Nat) :
    ((roundSlot 0 dt)^[k] p).isActive = true ∧
    ((roundSlot 0 dt)^[k] p).mass = p.mass ∧
    ((roundSlot 0 dt)^[k] p).velocity = ⟨0, -(98 / 10) * k * dt, 0⟩ ∧
    ((roundSlot 0 dt)^[k] p).position =
      ⟨p.position.x, p.position.y - 98 / 10 * dt ^ 2 * (k * (k - 1) / 2), p.position.z⟩ := by
  induction k with
  | zero =>
    refine ⟨hact, rfl, ?_, ?_⟩
    · rw [Function.iterate_zero, id, hv]
      simp
    · simp
  | succ k ih =>
    obtain ⟨h1, h2, h3, h4⟩ := ih
    rw [Function.iterate_succ_apply']
    generalize (roundSlot 0 dt)^[k] p = q at h1 h2 h3 h4
    have hq : q.mass ≠ 0 := by rw [h2]; exact hm
    simp only [roundSlot, integrateSlot, computeAccelerationsSlot, h1, if_true, h3, h4, h2,
      Vector3d.set, Vector3d.add_def, Vector3d.smul_def, Vector3d.sdiv_def]
    refine ⟨trivial, trivial, ?_, ?_⟩
    · congr 1
      · simp
      · push_cast
        field_simp
        ring
      · simp
    · congr 1
      · simp
      · push_cast
        ring
      · simp

end ParticleList

/-! ## The pool: invariant, exhaustion, activation -/

/-- C1 (pool invariant).  Start from a pool built by the constructor `ParticleList(np)`
or reset by `clear`, and make any sequence of calls (`activateTopParticle` and
`testAndDeactivate`, and also `clear`, `computeAccelerations`, `integrate`).  Every
call returns, and in the pool reached: the number of active slots plus
`inactiveCount` is `numParticles`; the first `inactiveCount` entries of the stack are
pairwise distinct; they are exactly the indices of the inactive slots; and whenever a
free slot exists, the slot that `activateTopParticle` picks (the index on top of the
stack) is inactive at that moment and is the slot the call rewrites. -/
theorem pool_invariant (pl0 : ParticleList)
    (h0 : (∃ np, ParticleList.new np = some pl0) ∨
      (∃ q, ParticleList.Allocated q ∧ q.clear = some pl0))
    (cs : List PoolCall) :
    ∃ pl, runCalls cs pl0 = some pl ∧
      (pl.activeCount : Int) + pl.inactiveCount = pl.numParticles ∧
      pl.freeList.Nodup ∧
      (∀ i : Int, i ∈ pl.freeList ↔
        ∃ p, readAt pl.particles i = some p ∧ p.isActive = false) ∧
      (0 < pl.inactiveCount → ∀ (pos vel : Vector3d) (ls ts : ℚ),
        ∃ (pIndex : Int) (p : Particle),
          readAt pl.inactiveStack (pl.inactiveCount - 1) = some pIndex ∧
          readAt pl.particles pIndex = some p ∧ p.isActive = false ∧
          pl.activateTopParticle pos vel ls ts = some { pl with
            particles := pl.particles.set pIndex.toNat
              { p with position := pos, velocity := vel, lifespan := ls, timestamp := ts,
                       isActive := true },
            inactiveCount := pl.inactiveCount - 1 }) := by
  obtain ⟨inv0, _⟩ := ParticleList.fresh_poolInv pl0 h0
  obtain ⟨pl, h1, _, inv⟩ := ParticleList.runCalls_poolInv cs pl0 inv0
  refine ⟨pl, h1, inv.count_eq, inv.nodup, inv.mem_iff, ?_⟩
  intro hpos pos vel ls ts
  obtain ⟨pIndex, p, h2, h3, h4, pl', h5, h6, _⟩ :=
    ParticleList.activateTopParticle_spec pos vel ls ts pl inv hpos
  exact ⟨pIndex, p, h2, h3, h4, by rw [h5, h6]⟩

/-- C2 (pool exhaustion is silently dropped).  On a pool of capacity `c` that comes from
the constructor or from `clear`, `k` activation requests in a row all return and
leave exactly `min k c` active slots, never more than `c`; and on any pool whatsoever
a request made while `inactiveCount = 0` returns the pool unchanged. -/
theorem exhaustion_dropped (pl0 : ParticleList)
    (h0 : (∃ np, ParticleList.new np = some pl0) ∨
      (∃ q, ParticleList.Allocated q ∧ q.clear = some pl0))
    (args : List (Vector3d × Vector3d × ℚ × ℚ)) :
    (∃ pl, runCalls (args.map activateCall) pl0 = some pl ∧
      (pl.activeCount : Int) = min (args.length : Int) pl0.numParticles ∧
      (pl.activeCount : Int) ≤ pl0.numParticles) ∧
    (∀ (pl : ParticleList) (pos vel : Vector3d) (ls ts : ℚ), pl.inactiveCount = 0 →
      pl.activateTopParticle pos vel ls ts = some pl) := by
  obtain ⟨inv0, hzero⟩ := ParticleList.fresh_poolInv pl0 h0
  constructor
  · obtain ⟨pl, h1, _, _, h3⟩ := ParticleList.activations_count args pl0 inv0
    refine ⟨pl, h1, ?_, ?_⟩
    · rw [h3, hzero]; simp
    · rw [h3]; omega
  · intro pl pos vel ls ts hz
    unfold ParticleList.activateTopParticle
    rw [if_neg (by omega)]

/-- C3 (activation).  On a pool that satisfies the invariant and has `inactiveCount > 0`,
`activateTopParticle(pos, vel, ls, ts)` returns; it selects
`p = inactiveStack[inactiveCount - 1]`; afterwards slot `p` holds `pos`, `vel`, `ls`,
`ts` and is active, `inactiveCount` has dropped by exactly 1, every other slot is
unchanged, and the stack array and the capacity are unchanged. -/
theorem activate_top (pl : ParticleList) (inv : ParticleList.PoolInv pl)
    (hpos : 0 < pl.inactiveCount) (pos vel : Vector3d) (ls ts : ℚ) :
    ∃ (pIndex : Int) (pl' : ParticleList) (p' : Particle),
      readAt pl.inactiveStack (pl.inactiveCount - 1) = some pIndex ∧
      pl.activateTopParticle pos vel ls ts = some pl' ∧
      readAt pl'.particles pIndex = some p' ∧
      p'.position = pos ∧ p'.velocity = vel ∧ p'.lifespan = ls ∧ p'.timestamp = ts ∧
      p'.isActive = true ∧
      pl'.inactiveCount = pl.inactiveCount - 1 ∧
      (∀ j : Int, j ≠ pIndex → readAt pl'.particles j = readAt pl.particles j) ∧
      pl'.inactiveStack = pl.inactiveStack ∧ pl'.numParticles = pl.numParticles := by
  obtain ⟨pIndex, p, h2, h3, _, pl', h5, h6, _⟩ :=
    ParticleList.activateTopParticle_spec pos vel ls ts pl inv hpos
  obtain ⟨hp0, hplt, _⟩ := readAt_eq_some h3
  refine ⟨pIndex, pl',
    { p with position := pos, velocity := vel, lifespan := ls, timestamp := ts,
             isActive := true },
    h2, h5, ?_, rfl, rfl, rfl, rfl, rfl, by rw [h6], ?_, by rw [h6], by rw [h6]⟩
  · rw [h6]
    simp only
    rw [ParticleList.readAt_set _ _ hp0, if_pos rfl, if_pos hplt]
  · intro j hj
    rw [h6]
    simp only
    rw [ParticleList.readAt_set _ _ hp0, if_neg hj]

theorem pool_invariant_witness :
    ParticleList.new 2 = some demoPool ∧
    ∃ pl, runCalls demoCalls demoPool = some pl ∧
      (pl.activeCount : Int) + pl.inactiveCount = pl.numParticles ∧
      pl.freeList.Nodup ∧
      (∀ i : Int, i ∈ pl.freeList ↔
        ∃ p, readAt pl.particles i = some p ∧ p.isActive = false) ∧
      (0 < pl.inactiveCount → ∀ (pos vel : Vector3d) (ls ts : ℚ),
        ∃ (pIndex : Int) (p : Particle),
          readAt pl.inactiveStack (pl.inactiveCount - 1) = some pIndex ∧
          readAt pl.particles pIndex = some p ∧ p.isActive = false ∧
          pl.activateTopParticle pos vel ls ts = some { pl with
            particles := pl.particles.set pIndex.toNat
              { p with position := pos, velocity := vel, lifespan := ls, timestamp := ts,
                       isActive := true },
            inactiveCount := pl.inactiveCount - 1 }) :=
  ⟨rfl, pool_invariant demoPool (Or.inl ⟨2, rfl⟩) demoCalls⟩

theorem exhaustion_dropped_witness :
    ParticleList.new 2 = some demoPool ∧
    ((∃ pl, runCalls (demoArgs.map activateCall) demoPool = some pl ∧
      (pl.activeCount : Int) = min (demoArgs.length : Int) demoPool.numParticles ∧
      (pl.activeCount : Int) ≤ demoPool.numParticles) ∧
    (∀ (pl : ParticleList) (pos vel : Vector3d) (ls ts : ℚ), pl.inactiveCount = 0 →
      pl.activateTopParticle pos vel ls ts = some pl)) :=
  ⟨rfl, exhaustion_dropped demoPool (Or.inl ⟨2, rfl⟩) demoArgs⟩

theorem activate_top_witness :
    ParticleList.PoolInv demoPool ∧ 0 < demoPool.inactiveCount ∧
    ∃ (pIndex : Int) (pl' : ParticleList) (p' : Particle),
      readAt demoPool.inactiveStack (demoPool.inactiveCount - 1) = some pIndex ∧
      demoPool.activateTopParticle ⟨1, 2, 3⟩ ⟨0, 1, 0⟩ 2 5 = some pl' ∧
      readAt pl'.particles pIndex = some p' ∧
      p'.position = ⟨1, 2, 3⟩ ∧ p'.velocity = ⟨0, 1, 0⟩ ∧ p'.lifespan = 2 ∧ p'.timestamp = 5 ∧
      p'.isActive = true ∧
      pl'.inactiveCount = demoPool.inactiveCount - 1 ∧
      (∀ j : Int, j ≠ pIndex → readAt pl'.particles j = readAt demoPool.particles j) ∧
      pl'.inactiveStack = demoPool.inactiveStack ∧
      pl'.numParticles = demoPool.numParticles :=
  ⟨(ParticleList.fresh_poolInv demoPool (Or.inl ⟨2, rfl⟩)).1, by decide,
    activate_top demoPool (ParticleList.fresh_poolInv demoPool (Or.inl ⟨2, rfl⟩)).1
      (by decide) ⟨1, 2, 3⟩ ⟨0, 1, 0⟩ 2 5⟩

/-- C4, as stated, fails.  The pool `stalePool` is reached from `ParticleList(1)` by
one life of a particle (`staleCalls`); it satisfies `inactiveCount > 0`.  Activating
with position `(7, 7, 7)` returns with slot 0 active at `(7, 7, 7)`, but its
`prev_position` is still `(1, 2, 3)`, not `(7, 7, 7)`, and its `acceleration` is
still `(0, -9.8, 0)`, not zero. -/
theorem activate_keeps_stale_fields :
    (ParticleList.new 1).bind (runCalls staleCalls) = some stalePool ∧
    0 < stalePool.inactiveCount ∧
    ∃ pl' p', stalePool.activateTopParticle ⟨7, 7, 7⟩ ⟨0, 0, 0⟩ 1 5 = some pl' ∧
      readAt pl'.particles 0 = some p' ∧ p'.isActive = true ∧
      p'.position = ⟨7, 7, 7⟩ ∧
      p'.prev_position = ⟨1, 2, 3⟩ ∧ p'.prev_position ≠ ⟨7, 7, 7⟩ ∧
      p'.acceleration = ⟨0, -(49 / 5), 0⟩ ∧ p'.acceleration ≠ ⟨0, 0, 0⟩ := by
  refine ⟨?_, by decide, ?_⟩
  · simp [ParticleList.new, forLoop, ParticleList.newBody, writeAt, staleCalls, runCalls,
      PoolCall.run, ParticleList.activateTopParticle, readAt, ParticleList.computeAccelerations,
      ParticleList.computeAccelerationsBody, ParticleList.integrate, ParticleList.integrateBody,
      ParticleList.testAndDeactivate, ParticleList.testAndDeactivateBody,
      ParticleList.shouldKill, Particle.default, Vector3d.set, Vector3d.add_def,
      Vector3d.smul_def, Vector3d.sdiv_def, stalePool]
    norm_num
  · refine ⟨_, { position := ⟨7, 7, 7⟩, prev_position := ⟨1, 2, 3⟩, velocity := ⟨0, 0, 0⟩,
                 acceleration := ⟨0, -(49 / 5), 0⟩, mass := 1 / 2, timestamp := 5,
                 isActive := true, lifespan := 1 },
      rfl, rfl, rfl, rfl, rfl, ?_, rfl, ?_⟩
    · simp
    · simp

/-- C4 (amended).  On a pool that satisfies the invariant and has `inactiveCount > 0`,
`activateTopParticle(pos, vel, ls, ts)` returns and the activated slot holds `pos`,
`vel`, `ls`, `ts` and is active, while its `prev_position`, `acceleration` and `mass`
are the values the slot held before the call: activation overwrites five fields and
leaves the other three. -/
theorem activate_overwrites (pl : ParticleList) (inv : ParticleList.PoolInv pl)
    (hpos : 0 < pl.inactiveCount) (pos vel : Vector3d) (ls ts : ℚ) :
    ∃ (pIndex : Int) (p : Particle) (pl' : ParticleList) (p' : Particle),
      readAt pl.inactiveStack (pl.inactiveCount - 1) = some pIndex ∧
      readAt pl.particles pIndex = some p ∧
      pl.activateTopParticle pos vel ls ts = some pl' ∧
      readAt pl'.particles pIndex = some p' ∧
      p'.position = pos ∧ p'.velocity = vel ∧ p'.lifespan = ls ∧ p'.timestamp = ts ∧
      p'.isActive = true ∧
      p'.prev_position = p.prev_position ∧ p'.acceleration = p.acceleration ∧
      p'.mass = p.mass := by
  obtain ⟨pIndex, p, h2, h3, _, pl', h5, h6, _⟩ :=
    ParticleList.activateTopParticle_spec pos vel ls ts pl inv hpos
  obtain ⟨hp0, hplt, _⟩ := readAt_eq_some h3
  refine ⟨pIndex, p, pl',
    { p with position := pos, velocity := vel, lifespan := ls, timestamp := ts,
             isActive := true },
    h2, h3, h5, ?_, rfl, rfl, rfl, rfl, rfl, rfl, rfl, rfl⟩
  rw [h6]
  simp only
  rw [ParticleList.readAt_set _ _ hp0, if_pos rfl, if_pos hplt]

theorem activate_overwrites_witness :
    ParticleList.PoolInv demoPool ∧ 0 < demoPool.inactiveCount ∧
    ∃ (pIndex : Int) (p : Particle) (pl' : ParticleList) (p' : Particle),
      readAt demoPool.inactiveStack (demoPool.inactiveCount - 1) = some pIndex ∧
      readAt demoPool.particles pIndex = some p ∧
      demoPool.activateTopParticle ⟨1, 2, 3⟩ ⟨0, 1, 0⟩ 2 5 = some pl' ∧
      readAt pl'.particles pIndex = some p' ∧
      p'.position = ⟨1, 2, 3⟩ ∧ p'.velocity = ⟨0, 1, 0⟩ ∧ p'.lifespan = 2 ∧ p'.timestamp = 5 ∧
      p'.isActive = true ∧
      p'.prev_position = p.prev_position ∧ p'.acceleration = p.acceleration ∧
      p'.mass = p.mass :=
  ⟨(ParticleList.fresh_poolInv demoPool (Or.inl ⟨2, rfl⟩)).1, by decide,
    activate_overwrites demoPool (ParticleList.fresh_poolInv demoPool (Or.inl ⟨2, rfl⟩)).1
      (by decide) ⟨1, 2, 3⟩ ⟨0, 1, 0⟩ 2 5⟩

/-! ## The per-step passes: death rule, integration, forces -/

/-- C5 (death rule).  On a pool that satisfies the invariant, `testAndDeactivate(h, t)`
returns for every `t`, and afterwards a slot is active iff it was active before and
`t - timestamp < lifespan`.  The deactivated slots are listed by `dead`: their indices
are pairwise distinct, are appended to the live part of the stack, occur there exactly
once, and `inactiveCount` grows by their number.  In particular an active particle
with `timestamp = 2` and `lifespan = 1` is still active after the pass at `t = 2.999`
and inactive after the pass at `t = 3`. -/
theorem death_rule (h : ℚ) (pl : ParticleList) (inv : ParticleList.PoolInv pl) :
    (∀ t : ℚ, ∃ pl', pl.testAndDeactivate h t = some pl' ∧
      pl'.particles.length = pl.particles.length ∧
      (∀ (i : Int) (p : Particle), readAt pl.particles i = some p →
        ∃ p', readAt pl'.particles i = some p' ∧
          (p'.isActive = true ↔ p.isActive = true ∧ t - p.timestamp < p.lifespan)) ∧
      ∃ dead : List Int,
        (∀ i : Int, i ∈ dead ↔ ∃ p, readAt pl.particles i = some p ∧ p.isActive = true ∧
          p.lifespan ≤ t - p.timestamp) ∧
        dead.Nodup ∧
        pl'.freeList = pl.freeList ++ dead ∧
        (∀ i ∈ dead, pl'.freeList.count i = 1) ∧
        pl'.inactiveCount = pl.inactiveCount + dead.length) ∧
    (∀ (i : Int) (p : Particle), readAt pl.particles i = some p → p.isActive = true →
      p.timestamp = 2 → p.lifespan = 1 →
      (∃ pl1 p1, pl.testAndDeactivate h (2999 / 1000) = some pl1 ∧
        readAt pl1.particles i = some p1 ∧ p1.isActive = true) ∧
      (∃ pl2 p2, pl.testAndDeactivate h 3 = some pl2 ∧
        readAt pl2.particles i = some p2 ∧ p2.isActive = false)) := by
  have key : ∀ t : ℚ, ∃ pl', pl.testAndDeactivate h t = some pl' ∧
      pl'.particles = pl.particles.map (ParticleList.cullSlot t) ∧
      pl'.inactiveCount = pl.inactiveCount +
        (ParticleList.deadIndices t pl.particles 0 pl.particles.length).length ∧
      pl'.freeList =
        pl.freeList ++ ParticleList.deadIndices t pl.particles 0 pl.particles.length ∧
      ParticleList.PoolInv pl' := by
    intro t
    obtain ⟨pl', h1, _, h3, h4, h5, h6⟩ := ParticleList.testAndDeactivate_spec h t pl inv
    exact ⟨pl', h1, h3, h4, h5, h6⟩
  constructor
  · intro t
    obtain ⟨pl', h1, h3, h4, h5, h6⟩ := key t
    refine ⟨pl', h1, by rw [h3, List.length_map], ?_,
      ParticleList.deadIndices t pl.particles 0 pl.particles.length, ?_,
      ParticleList.nodup_deadIndices _ _ _ _, h5, ?_, h4⟩
    · intro i p hp
      refine ⟨ParticleList.cullSlot t p, ?_, ParticleList.cullSlot_isActive t p⟩
      rw [h3, ParticleList.readAt_map, hp]
      rfl
    · intro i
      rw [ParticleList.mem_deadIndices]
      constructor
      · rintro ⟨p, hp, ha, hk⟩
        exact ⟨p, hp, ha, (ParticleList.shouldKill_iff p t).mp hk⟩
      · rintro ⟨p, hp, ha, hk⟩
        exact ⟨p, hp, ha, (ParticleList.shouldKill_iff p t).mpr hk⟩
    · intro i hi
      apply List.count_eq_one_of_mem h6.nodup
      rw [h5]
      exact List.mem_append_right _ hi
  · intro i p hp ha hts hls
    constructor
    · obtain ⟨pl1, h1, h3, _⟩ := key (2999 / 1000)
      refine ⟨pl1, ParticleList.cullSlot (2999 / 1000) p, h1, ?_, ?_⟩
      · rw [h3, ParticleList.readAt_map, hp]
        rfl
      · rw [ParticleList.cullSlot_isActive, hts, hls]
        exact ⟨ha, by norm_num⟩
    · obtain ⟨pl2, h1, h3, _⟩ := key 3
      refine ⟨pl2, ParticleList.cullSlot 3 p, h1, ?_, ?_⟩
      · rw [h3, ParticleList.readAt_map, hp]
        rfl
      · rw [ParticleList.cullSlot_inactive]
        refine Or.inr ⟨ha, ?_⟩
        rw [ParticleList.shouldKill_iff, hts, hls]
        norm_num

/-- C6 (integration step).  On an allocated pool `integrate(h)` returns, keeps the
activity flags, and every active slot ends with `prev_position` = its old position,
`velocity` = old velocity + `h` * old acceleration and `position` = old position +
`h` * old velocity (the velocity before the update). -/
theorem integrate_step (h : ℚ) (pl : ParticleList) (ha : ParticleList.Allocated pl) :
    ∃ pl', pl.integrate h = some pl' ∧
      pl'.particles.length = pl.particles.length ∧
      (∀ (i : Int) (p : Particle), readAt pl.particles i = some p →
        ∃ p', readAt pl'.particles i = some p' ∧ p'.isActive = p.isActive) ∧
      (∀ (i : Int) (p p' : Particle), readAt pl.particles i = some p →
        readAt pl'.particles i = some p' → p'.isActive = true →
        p'.prev_position = p.position ∧
        p'.velocity = p.velocity + h * p.acceleration ∧
        p'.position = p.position + h * p.velocity) := by
  refine ⟨_, ParticleList.integrate_eq h pl ha.1, ?_, ?_, ?_⟩
  · simp
  · intro i p hp
    refine ⟨ParticleList.integrateSlot h p, ?_, ParticleList.integrateSlot_isActive h p⟩
    simp only [ParticleList.readAt_map, hp]
    rfl
  · intro i p p' hp hp' hact
    simp only [ParticleList.readAt_map, hp] at hp'
    have e : ParticleList.integrateSlot h p = p' := by simpa using hp'
    have hpa : p.isActive = true := by
      rw [← e, ParticleList.integrateSlot_isActive] at hact
      exact hact
    rw [← e]
    unfold ParticleList.integrateSlot
    rw [if_pos hpa]
    exact ⟨rfl, rfl, rfl⟩

theorem death_rule_witness :
    ParticleList.PoolInv livePool ∧
    ((∀ t : ℚ, ∃ pl', livePool.testAndDeactivate (1 / 100) t = some pl' ∧
      pl'.particles.length = livePool.particles.length ∧
      (∀ (i : Int) (p : Particle), readAt livePool.particles i = some p →
        ∃ p', readAt pl'.particles i = some p' ∧
          (p'.isActive = true ↔ p.isActive = true ∧ t - p.timestamp < p.lifespan)) ∧
      ∃ dead : List Int,
        (∀ i : Int, i ∈ dead ↔ ∃ p, readAt livePool.particles i = some p ∧
          p.isActive = true ∧ p.lifespan ≤ t - p.timestamp) ∧
        dead.Nodup ∧
        pl'.freeList = livePool.freeList ++ dead ∧
        (∀ i ∈ dead, pl'.freeList.count i = 1) ∧
        pl'.inactiveCount = livePool.inactiveCount + dead.length) ∧
    (∀ (i : Int) (p : Particle), readAt livePool.particles i = some p → p.isActive = true →
      p.timestamp = 2 → p.lifespan = 1 →
      (∃ pl1 p1, livePool.testAndDeactivate (1 / 100) (2999 / 1000) = some pl1 ∧
        readAt pl1.particles i = some p1 ∧ p1.isActive = true) ∧
      (∃ pl2 p2, livePool.testAndDeactivate (1 / 100) 3 = some pl2 ∧
        readAt pl2.particles i = some p2 ∧ p2.isActive = false))) :=
  ⟨ParticleList.livePool_inv, death_rule (1 / 100) livePool ParticleList.livePool_inv⟩

theorem integrate_step_witness :
    ParticleList.Allocated livePool ∧
    ∃ pl', livePool.integrate (1 / 100) = some pl' ∧
      pl'.particles.length = livePool.particles.length ∧
      (∀ (i : Int) (p : Particle), readAt livePool.particles i = some p →
        ∃ p', readAt pl'.particles i = some p' ∧ p'.isActive = p.isActive) ∧
      (∀ (i : Int) (p p' : Particle), readAt livePool.particles i = some p →
        readAt pl'.particles i = some p' → p'.isActive = true →
        p'.prev_position = p.position ∧
        p'.velocity = p.velocity + (1 / 100 : ℚ) * p.acceleration ∧
        p'.position = p.position + (1 / 100 : ℚ) * p.velocity) :=
  ⟨⟨rfl, rfl⟩, integrate_step (1 / 100) livePool ⟨rfl, rfl⟩⟩

/-- C7 (integrator trace).  Take any allocated pool and any slot `i` of it that holds
an active particle with non-zero mass and zero velocity.  With drag 0, `k` rounds of
`computeAccelerations(0); integrate(dt)` return and leave the particle with velocity
`(0, -9.8 * k * dt, 0)` and position `(x0, y0 - 9.8 * dt^2 * k(k-1)/2, z0)`.  For
`dt = 0.1` the first three rounds give `position.y = y0, y0 - 0.098, y0 - 0.294` and
`velocity.y = -0.98, -1.96, -2.94`. -/
theorem integrator_trace (pl : ParticleList) (ha : ParticleList.Allocated pl)
    (i : Int) (p : Particle) (hp : readAt pl.particles i = some p)
    (hact : p.isActive = true) (hm : p.mass ≠ 0) (hv : p.velocity = ⟨0, 0, 0⟩) :
    (∀ (dt : ℚ) (k : Nat), ∃ pl' p', physicsRounds 0 dt k pl = some pl' ∧
      readAt pl'.particles i = some p' ∧
      p'.velocity = ⟨0, -(98 / 10) * k * dt, 0⟩ ∧
      p'.position =
        ⟨p.position.x, p.position.y - 98 / 10 * dt ^ 2 * (k * (k - 1) / 2), p.position.z⟩) ∧
    (∃ pl1 p1 pl2 p2 pl3 p3,
      physicsRounds 0 (1 / 10) 1 pl = some pl1 ∧ readAt pl1.particles i = some p1 ∧
      physicsRounds 0 (1 / 10) 2 pl = some pl2 ∧ readAt pl2.particles i = some p2 ∧
      physicsRounds 0 (1 / 10) 3 pl = some pl3 ∧ readAt pl3.particles i = some p3 ∧
      p1.position.y = p.position.y ∧ p1.velocity.y = -(98 / 100) ∧
      p2.position.y = p.position.y - 98 / 1000 ∧ p2.velocity.y = -(196 / 100) ∧
      p3.position.y = p.position.y - 294 / 1000 ∧ p3.velocity.y = -(294 / 100)) := by
  have key : ∀ (dt : ℚ) (k : Nat), ∃ pl' p', physicsRounds 0 dt k pl = some pl' ∧
      readAt pl'.particles i = some p' ∧
      p'.velocity = ⟨0, -(98 / 10) * k * dt, 0⟩ ∧
      p'.position =
        ⟨p.position.x, p.position.y - 98 / 10 * dt ^ 2 * (k * (k - 1) / 2), p.position.z⟩ := by
    intro dt k
    obtain ⟨_, _, h3, h4⟩ := ParticleList.roundSlot_trace dt p hact hm hv k
    refine ⟨_, (roundSlot 0 dt)^[k] p, ParticleList.physicsRounds_eq 0 dt k pl ha.1, ?_, h3, h4⟩
    simp only [ParticleList.readAt_map, hp]
    rfl
  refine ⟨key, ?_⟩
  obtain ⟨pl1, p1, a1, b1, c1, d1⟩ := key (1 / 10) 1
  obtain ⟨pl2, p2, a2, b2, c2, d2⟩ := key (1 / 10) 2
  obtain ⟨pl3, p3, a3, b3, c3, d3⟩ := key (1 / 10) 3
  refine ⟨pl1, p1, pl2, p2, pl3, p3, a1, b1, a2, b2, a3, b3, ?_, ?_, ?_, ?_, ?_, ?_⟩
  · rw [d1]; norm_num
  · rw [c1]; norm_num
  · rw [d2]; norm_num
  · rw [c2]; norm_num
  · rw [d3]; norm_num
  · rw [c3]; norm_num

/-- C8 (force accumulation).  On an allocated pool `computeAccelerations(drag)`
returns, and every active slot with non-zero mass ends with
`acceleration = (mass * (0, -9.8, 0) + (-drag) * velocity) / mass`, which is
`(0, -9.8, 0) - (drag / mass) * velocity` component by component, while its position,
`prev_position` and velocity are unchanged. -/
theorem force_accumulation (drag : ℚ) (pl : ParticleList) (ha : ParticleList.Allocated pl) :
    ∃ pl', pl.computeAccelerations drag = some pl' ∧
      ∀ (i : Int) (p : Particle), readAt pl.particles i = some p → p.isActive = true →
        p.mass ≠ 0 →
        ∃ p', readAt pl'.particles i = some p' ∧
          p'.acceleration =
            (p.mass * Vector3d.set 0 (-(98 / 10)) 0 + (-drag) * p.velocity) / p.mass ∧
          p'.acceleration =
            ⟨0 - drag / p.mass * p.velocity.x, -(98 / 10) - drag / p.mass * p.velocity.y,
             0 - drag / p.mass * p.velocity.z⟩ ∧
          p'.position = p.position ∧ p'.prev_position = p.prev_position ∧
          p'.velocity = p.velocity := by
  refine ⟨_, ParticleList.computeAccelerations_eq drag pl ha.1, ?_⟩
  intro i p hp hact hm
  refine ⟨ParticleList.computeAccelerationsSlot drag p, ?_, ?_, ?_, ?_, ?_, ?_⟩
  · simp only [ParticleList.readAt_map, hp]
    rfl
  · simp only [ParticleList.computeAccelerationsSlot, hact, if_true]
  · simp only [ParticleList.computeAccelerationsSlot, hact, if_true, Vector3d.set,
      Vector3d.add_def, Vector3d.smul_def, Vector3d.sdiv_def]
    congr 1
    · field_simp
    · field_simp
      ring
    · field_simp
  · simp only [ParticleList.computeAccelerationsSlot, hact, if_true]
  · simp only [ParticleList.computeAccelerationsSlot, hact, if_true]
  · simp only [ParticleList.computeAccelerationsSlot, hact, if_true]

theorem integrator_trace_witness :
    ParticleList.Allocated livePool ∧ readAt livePool.particles 1 = some liveParticle ∧
    liveParticle.isActive = true ∧ liveParticle.mass ≠ 0 ∧
    liveParticle.velocity = ⟨0, 0, 0⟩ ∧
    ((∀ (dt : ℚ) (k : Nat), ∃ pl' p', physicsRounds 0 dt k livePool = some pl' ∧
      readAt pl'.particles 1 = some p' ∧
      p'.velocity = ⟨0, -(98 / 10) * k * dt, 0⟩ ∧
      p'.position =
        ⟨liveParticle.position.x,
         liveParticle.position.y - 98 / 10 * dt ^ 2 * (k * (k - 1) / 2),
         liveParticle.position.z⟩) ∧
    (∃ pl1 p1 pl2 p2 pl3 p3,
      physicsRounds 0 (1 / 10) 1 livePool = some pl1 ∧ readAt pl1.particles 1 = some p1 ∧
      physicsRounds 0 (1 / 10) 2 livePool = some pl2 ∧ readAt pl2.particles 1 = some p2 ∧
      physicsRounds 0 (1 / 10) 3 livePool = some pl3 ∧ readAt pl3.particles 1 = some p3 ∧
      p1.position.y = liveParticle.position.y ∧ p1.velocity.y = -(98 / 100) ∧
      p2.position.y = liveParticle.position.y - 98 / 1000 ∧ p2.velocity.y = -(196 / 100) ∧
      p3.position.y = liveParticle.position.y - 294 / 1000 ∧
      p3.velocity.y = -(294 / 100))) :=
  ⟨⟨rfl, rfl⟩, rfl, rfl, by norm_num [liveParticle, Particle.default], rfl,
    integrator_trace livePool ⟨rfl, rfl⟩ 1 liveParticle rfl rfl
      (by norm_num [liveParticle, Particle.default]) rfl⟩

theorem force_accumulation_witness :
    ParticleList.Allocated livePool ∧
    ∃ pl', livePool.computeAccelerations (1 / 5) = some pl' ∧
      ∀ (i : Int) (p : Particle), readAt livePool.particles i = some p → p.isActive = true →
        p.mass ≠ 0 →
        ∃ p', readAt pl'.particles i = some p' ∧
          p'.acceleration =
            (p.mass * Vector3d.set 0 (-(98 / 10)) 0 + (-(1 / 5 : ℚ)) * p.velocity) / p.mass ∧
          p'.acceleration =
            ⟨0 - 1 / 5 / p.mass * p.velocity.x, -(98 / 10) - 1 / 5 / p.mass * p.velocity.y,
             0 - 1 / 5 / p.mass * p.velocity.z⟩ ∧
          p'.position = p.position ∧ p'.prev_position = p.prev_position ∧
          p'.velocity = p.velocity :=
  ⟨⟨rfl, rfl⟩, force_accumulation (1 / 5) livePool ⟨rfl, rfl⟩⟩

/-! ## The emission window -/

theorem fmod_pos (t d : ℚ) (hd : 0 < d) (ht : d < t) :
    ∃ (n : Int) (r : ℚ), fmod t d = some r ∧ 0 ≤ n ∧ t = n * d + r ∧ 0 ≤ r ∧ r < d := by
  have hq : 0 ≤ t / d := le_of_lt (div_pos (lt_trans hd ht) hd)
  refine ⟨⌊t / d⌋, t - (⌊t / d⌋ : ℚ) * d, ?_, Int.floor_nonneg.mpr hq, by ring, ?_, ?_⟩
  · unfold fmod truncQ
    rw [if_neg (ne_of_gt hd), if_pos hq]
  · have h1 : (⌊t / d⌋ : ℚ) ≤ t / d := Int.floor_le _
    have h2 : (⌊t / d⌋ : ℚ) * d ≤ t := (le_div_iff₀ hd).mp h1
    linarith
  · have h1 : t / d < (⌊t / d⌋ : ℚ) + 1 := Int.lt_floor_add_one _
    have h2 : t < ((⌊t / d⌋ : ℚ) + 1) * d := (div_lt_iff₀ hd).mp h1
    linarith

/-- C9 (emission window).  Write `duration = timeStop - timeStart`.  For `t ≤ duration`,
`shouldGenerate(t)` is true iff `timeStart ≤ t < timeStop`, with no delay.  For
`t > duration` and `duration > 0`, `fmod(t, duration)` is the remainder `r` of `t`
modulo `duration` (`t = n * duration + r`, `0 ≤ r < duration`) and
`shouldGenerate(t)` is true iff `timeStart + 2 ≤ r < timeStop`. -/
theorem emission_window (g : ParticleGenerator) (t : ℚ) :
    (t ≤ g.timeStop - g.timeStart →
      (g.shouldGenerate t = true ↔ g.timeStart ≤ t ∧ t < g.timeStop)) ∧
    (g.timeStop - g.timeStart < t → 0 < g.timeStop - g.timeStart →
      ∃ (n : Int) (r : ℚ), fmod t (g.timeStop - g.timeStart) = some r ∧
        0 ≤ n ∧ t = n * (g.timeStop - g.timeStart) + r ∧
        0 ≤ r ∧ r < g.timeStop - g.timeStart ∧
        (g.shouldGenerate t = true ↔ g.timeStart + 2 ≤ r ∧ r < g.timeStop)) := by
  constructor
  · intro hle
    unfold ParticleGenerator.shouldGenerate
    simp only [if_pos hle]
    simp
  · intro hlt hd
    obtain ⟨n, r, h1, h2, h3, h4, h5⟩ := fmod_pos t _ hd hlt
    refine ⟨n, r, h1, h2, h3, h4, h5, ?_⟩
    unfold ParticleGenerator.shouldGenerate
    simp only [if_neg (not_le.mpr hlt), h1]
    simp

theorem emission_window_witness :
    ((1 : ℚ) ≤ demoGenerator.timeStop - demoGenerator.timeStart ∧
      (demoGenerator.shouldGenerate 1 = true ↔
        demoGenerator.timeStart ≤ 1 ∧ (1 : ℚ) < demoGenerator.timeStop)) ∧
    (demoGenerator.timeStop - demoGenerator.timeStart < 7 ∧
      0 < demoGenerator.timeStop - demoGenerator.timeStart ∧
      ∃ (n : Int) (r : ℚ),
        fmod 7 (demoGenerator.timeStop - demoGenerator.timeStart) = some r ∧
        0 ≤ n ∧ (7 : ℚ) = n * (demoGenerator.timeStop - demoGenerator.timeStart) + r ∧
        0 ≤ r ∧ r < demoGenerator.timeStop - demoGenerator.timeStart ∧
        (demoGenerator.shouldGenerate 7 = true ↔
          demoGenerator.timeStart + 2 ≤ r ∧ r < demoGenerator.timeStop)) :=
  ⟨⟨by norm_num [demoGenerator],
     (emission_window demoGenerator 1).1 (by norm_num [demoGenerator])⟩,
   ⟨by norm_num [demoGenerator], by norm_num [demoGenerator],
     (emission_window demoGenerator 7).2 (by norm_num [demoGenerator])
       (by norm_num [demoGenerator])⟩⟩

/-- C10 (degenerate window).  When `timeStop ≤ timeStart`, `shouldGenerate(t)` is false
for every `t`, on the first-cycle branch and on the `fmod` branch alike. -/
theorem degenerate_window (g : ParticleGenerator) (t : ℚ)
    (h : g.timeStop ≤ g.timeStart) : g.shouldGenerate t = false := by
  unfold ParticleGenerator.shouldGenerate
  simp only
  split
  · rw [if_neg]
    rintro ⟨h1, h2⟩
    linarith
  · split
    · rfl
    · rw [if_neg]
      rintro ⟨h1, h2⟩
      linarith

theorem degenerate_window_witness :
    inertGenerator.timeStop ≤ inertGenerator.timeStart ∧
    inertGenerator.shouldGenerate 2 = false :=
  ⟨by norm_num [inertGenerator], degenerate_window inertGenerator 2
    (by norm_num [inertGenerator])⟩

/-! ## Emission: carry, random draws, spawn loop -/

theorem readAt_of_lt {α : Type} (xs : List α) (i : Int) (h0 : 0 ≤ i)
    (hlt : i.toNat < xs.length) : readAt xs i = some xs[i.toNat] := by
  unfold readAt
  rw [if_pos h0, List.getElem?_eq_getElem hlt]

namespace ParticleGenerator

theorem emissionCount_carry (r : Int) (h f : ℚ) (h0 : 0 ≤ f) (h1 : f ≤ 1) :
    0 ≤ (emissionCount r h f).2 ∧ (emissionCount r h f).2 ≤ 1 := by
  have hfl : ((⌊(r : ℚ) * h⌋ : Int) : ℚ) ≤ (r : ℚ) * h := Int.floor_le _
  have hlt : (r : ℚ) * h < (⌊(r : ℚ) * h⌋ : Int) + 1 := Int.lt_floor_add_one _
  unfold emissionCount
  simp only
  split
  · rename_i hgt
    constructor <;> simp only <;> linarith
  · rename_i hle
    constructor <;> simp only <;> linarith

theorem emissionCount_sum (r : Int) (h f : ℚ) :
    ((emissionCount r h f).1 : ℚ) + (emissionCount r h f).2 = f + (r : ℚ) * h := by
  unfold emissionCount
  simp only
  split
  · push_cast; ring
  · ring

theorem emissionCount_nonneg (r : Int) (h f : ℚ) (hrh : 0 ≤ (r : ℚ) * h) :
    0 ≤ (emissionCount r h f).1 := by
  have hfl : 0 ≤ ⌊(r : ℚ) * h⌋ := Int.floor_nonneg.mpr hrh
  unfold emissionCount
  simp only
  split
  · simp only; omega
  · exact hfl

/-- When the floor of `generationRate * h` is in the range of `int`, the emission
count is a value of `int`. -/
theorem emissionCount_inRange (r : Int) (h f : ℚ) (hr : CountInRange r h) :
    -2147483648 ≤ (emissionCount r h f).1 ∧ (emissionCount r h f).1 ≤ 2147483647 := by
  obtain ⟨h1, h2⟩ := hr
  unfold emissionCount
  simp only
  split
  · constructor
    · show (-2147483648 : Int) ≤ ⌊(r : ℚ) * h⌋ + 1
      omega
    · exact h2
  · constructor
    · exact h1
    · show ⌊(r : ℚ) * h⌋ ≤ 2147483647
      omega

theorem countInRange_of_floor (r : Int) (h : ℚ) (n : Int) (hfl : ⌊(r : ℚ) * h⌋ = n)
    (h1 : -2147483648 ≤ n) (h2 : n + 1 ≤ 2147483647) : CountInRange r h := by
  unfold CountInRange
  rw [hfl]
  exact ⟨h1, h2⟩

theorem gaussTbl_length : gaussTbl.length = 21 := rfl

/-- With a draw in `[0, 1]` every table read of `gauss` is inside the table, so
`gaussOf` has a value. -/
theorem gaussOf_isSome (mean std u0 : ℚ) (h0 : 0 ≤ u0) (h1 : u0 ≤ 1) :
    ∃ v, gaussOf mean std u0 = some v := by
  have hu : 0 ≤ (if u0 ≥ 1 / 2 then u0 - 1 / 2 else u0) ∧
      (if u0 ≥ 1 / 2 then u0 - 1 / 2 else u0) ≤ 1 / 2 := by
    split
    · constructor <;> linarith
    · rename_i hlt
      constructor
      · exact h0
      · linarith [not_le.mp hlt]
  obtain ⟨hu0, hu1⟩ := hu
  have hdi0 : (0 : ℚ) ≤ 40 * (if u0 ≥ 1 / 2 then u0 - 1 / 2 else u0) := by linarith
  have hdi1 : 40 * (if u0 ≥ 1 / 2 then u0 - 1 / 2 else u0) ≤ 20 := by linarith
  have hi0 : 0 ≤ truncQ (40 * (if u0 ≥ 1 / 2 then u0 - 1 / 2 else u0)) := by
    unfold truncQ
    rw [if_pos hdi0]
    exact Int.floor_nonneg.mpr hdi0
  have hi1 : truncQ (40 * (if u0 ≥ 1 / 2 then u0 - 1 / 2 else u0)) ≤ 20 := by
    unfold truncQ
    rw [if_pos hdi0]
    have : (⌊40 * (if u0 ≥ 1 / 2 then u0 - 1 / 2 else u0)⌋ : ℚ) ≤ 20 :=
      le_trans (Int.floor_le _) hdi1
    exact_mod_cast this
  unfold gaussOf
  simp only
  generalize truncQ (40 * (if u0 ≥ 1 / 2 then u0 - 1 / 2 else u0)) = idx at hi0 hi1
  by_cases h20 : idx = 20
  · rw [if_pos h20, readAt_of_lt gaussTbl idx hi0 (by rw [gaussTbl_length]; omega)]
    exact ⟨_, rfl⟩
  · rw [if_neg h20, readAt_of_lt gaussTbl idx hi0 (by rw [gaussTbl_length]; omega),
      readAt_of_lt gaussTbl (idx + 1) (by omega) (by rw [gaussTbl_length]; omega)]
    exact ⟨_, rfl⟩

end ParticleGenerator

namespace ParticleList

/-- On a pool that satisfies the invariant, two different positions below the stack
pointer hold different indices. -/
theorem stack_distinct (pl : ParticleList) (inv : PoolInv pl) (i j : Int) (hi : 0 ≤ i)
    (hij : i < j) (hj : j < pl.inactiveCount) :
    readAt pl.inactiveStack i ≠ readAt pl.inactiveStack j := by
  have hnd := inv.nodup
  have hcnt := inv.count_eq
  have hsl := inv.alloc.2
  unfold freeList at hnd
  rw [List.nodup_iff_getElem?_ne_getElem?] at hnd
  have h := hnd i.toNat j.toNat (by omega) (by rw [List.length_take]; omega)
  rw [List.getElem?_take_of_lt (by omega), List.getElem?_take_of_lt (by omega)] at h
  unfold readAt
  rw [if_pos hi, if_pos (by omega)]
  exact h

end ParticleList

namespace ParticleGenerator

/-- One spawn attempt on a pool with a free slot: the speed comes from the next draw,
the direction from the two draws after it, the lifespan from the fourth, and the body
is the activation with these values. -/
theorem spawnBody_spec (m : Libm) (g : ParticleGenerator) (t : ℚ) (pl : ParticleList)
    (rng : Rng) (hv : rng.Valid) (hpos : 0 < pl.inactiveCount) :
    ∃ sp l, gaussOf g.meanInitSpeed (g.speedRange / 3) (rng.draw rng.next) = some sp ∧
      gaussOf g.meanLifespan (g.lifespanRange / 3) (rng.draw (rng.next + 3)) = some l ∧
      spawnBody m g t (pl, rng) =
        (pl.activateTopParticle
          (g.position + g.radius * sphereOf m (rng.draw (rng.next + 1)) (rng.draw (rng.next + 2)))
          (|sp| * sphereOf m (rng.draw (rng.next + 1)) (rng.draw (rng.next + 2))) l t).map
          (fun q => (q, { rng with next := rng.next + 4 })) := by
  obtain ⟨sp, hsp⟩ := gaussOf_isSome g.meanInitSpeed (g.speedRange / 3) (rng.draw rng.next)
    (hv _).1 (le_of_lt (hv _).2)
  obtain ⟨l, hl⟩ := gaussOf_isSome g.meanLifespan (g.lifespanRange / 3)
    (rng.draw (rng.next + 3)) (hv _).1 (le_of_lt (hv _).2)
  refine ⟨sp, l, hsp, hl, ?_⟩
  unfold spawnBody
  simp only [gt_iff_lt, hpos, if_true, gauss, drand48, hsp, Option.map_some', randSphereVec,
    uniform, sphereOf, hl, Nat.add_assoc]
  cases pl.activateTopParticle _ _ l t <;> rfl

end ParticleGenerator

namespace ParticleGenerator

/-- The spawn loop on a pool that satisfies the invariant, `k` iterations: it returns,
performs `a = min k inactiveCount` activations, consumes `4 a` draws, leaves the
stack array alone, and the `j`-th activation (`j < a`) rewrites the slot whose index
is `j` places below the top of the stack with the values made from the draws
`4 j .. 4 j + 3`; every other slot is unchanged. -/
theorem spawnLoop_spec (m : Libm) (g : ParticleGenerator) (t : ℚ) :
    ∀ (k : Nat) (pl : ParticleList) (rng : Rng), ParticleList.PoolInv pl → rng.Valid →
      ∃ pl', spawnLoop m g t k (pl, rng) =
          some (pl', { rng with next := rng.next + 4 * min k pl.inactiveCount.toNat }) ∧
        ParticleList.PoolInv pl' ∧ pl'.numParticles = pl.numParticles ∧
        pl'.inactiveStack = pl.inactiveStack ∧
        pl'.inactiveCount = pl.inactiveCount - (min k pl.inactiveCount.toNat : Nat) ∧
        (∀ j : Nat, j < min k pl.inactiveCount.toNat → ∃ idx sp l p,
          readAt pl.inactiveStack (pl.inactiveCount - 1 - j) = some idx ∧
          gaussOf g.meanInitSpeed (g.speedRange / 3) (rng.draw (rng.next + 4 * j)) = some sp ∧
          gaussOf g.meanLifespan (g.lifespanRange / 3) (rng.draw (rng.next + 4 * j + 3))
            = some l ∧
          readAt pl.particles idx = some p ∧
          readAt pl'.particles idx = some
            { p with
              position := g.position + g.radius *
                sphereOf m (rng.draw (rng.next + 4 * j + 1)) (rng.draw (rng.next + 4 * j + 2)),
              velocity := |sp| *
                sphereOf m (rng.draw (rng.next + 4 * j + 1)) (rng.draw (rng.next + 4 * j + 2)),
              lifespan := l, timestamp := t, isActive := true }) ∧
        (∀ i : Int, (∀ j : Nat, j < min k pl.inactiveCount.toNat →
            readAt pl.inactiveStack (pl.inactiveCount - 1 - j) ≠ some i) →
          readAt pl'.particles i = readAt pl.particles i) := by
  intro k
  induction k with
  | zero =>
    intro pl rng inv _
    refine ⟨pl, ?_, inv, rfl, rfl, ?_, ?_, ?_⟩
    · simp [spawnLoop]
    · simp
    · intro j hj
      simp at hj
    · intro i _
      rfl
  | succ k ih =>
    intro pl rng inv hv
    have hc := inv.count_nonneg
    by_cases hpos : 0 < pl.inactiveCount
    · -- a free slot: one activation, then the rest of the loop
      obtain ⟨sp, l, hsp, hl, hbody⟩ := spawnBody_spec m g t pl rng hv hpos
      obtain ⟨idx0, p0, hidx0, hp0, _, pl1, hact, hpl1, inv1⟩ :=
        ParticleList.activateTopParticle_spec
          (g.position + g.radius *
            sphereOf m (rng.draw (rng.next + 1)) (rng.draw (rng.next + 2)))
          (|sp| * sphereOf m (rng.draw (rng.next + 1)) (rng.draw (rng.next + 2))) l t
          pl inv hpos
      obtain ⟨hidx0nn, hidx0lt, _⟩ := readAt_eq_some hp0
      have e1 : pl1.numParticles = pl.numParticles := by rw [hpl1]
      have e2 : pl1.inactiveStack = pl.inactiveStack := by rw [hpl1]
      have e3 : pl1.inactiveCount = pl.inactiveCount - 1 := by rw [hpl1]
      have e4 : ∀ i : Int, readAt pl1.particles i =
          if i = idx0 then some
            { p0 with
              position := g.position + g.radius *
                sphereOf m (rng.draw (rng.next + 1)) (rng.draw (rng.next + 2)),
              velocity := |sp| *
                sphereOf m (rng.draw (rng.next + 1)) (rng.draw (rng.next + 2)),
              lifespan := l, timestamp := t, isActive := true }
          else readAt pl.particles i := by
        intro i
        rw [hpl1]
        simp only
        rw [ParticleList.readAt_set _ _ hidx0nn, if_pos hidx0lt]
      have hv1 : Rng.Valid { rng with next := rng.next + 4 } := hv
      obtain ⟨pl', h1, h2, h3, h4, h5, h6, h7⟩ :=
        ih pl1 { rng with next := rng.next + 4 } inv1 hv1
      have ha : min (k + 1) pl.inactiveCount.toNat = min k pl1.inactiveCount.toNat + 1 := by
        rw [e3]; omega
      -- positions strictly below the top never hold the top index
      have hbelow : ∀ j : Nat, j < min k pl1.inactiveCount.toNat →
          readAt pl.inactiveStack (pl1.inactiveCount - 1 - j) ≠ some idx0 := by
        intro j hj hcontra
        have := ParticleList.stack_distinct pl inv (pl1.inactiveCount - 1 - j)
          (pl.inactiveCount - 1) (by rw [e3]; omega) (by rw [e3]; omega) (by omega)
        rw [hcontra, hidx0] at this
        exact this rfl
      refine ⟨pl', ?_, h2, by rw [h3, e1], by rw [h4, e2], ?_, ?_, ?_⟩
      · simp only [spawnLoop, hbody, hact, Option.map_some', Option.some_bind, h1]
        congr 2
        simp only [Rng.mk.injEq, true_and]
        rw [ha]
        ring
      · rw [h5, ha, e3]
        push_cast
        ring
      · intro j hj
        cases j with
        | zero =>
          refine ⟨idx0, sp, l, p0, ?_, ?_, ?_, hp0, ?_⟩
          · simpa using hidx0
          · simpa using hsp
          · simpa using hl
          · rw [h7 idx0 (by rw [e2]; exact hbelow), e4 idx0, if_pos rfl]
        | succ j =>
          have hj' : j < min k pl1.inactiveCount.toNat := by omega
          obtain ⟨idx, sp', l', p, a1, a2, a3, a4, a5⟩ := h6 j hj'
          have hne : idx ≠ idx0 := by
            intro he
            rw [e2, he] at a1
            exact hbelow j hj' a1
          refine ⟨idx, sp', l', p, ?_, ?_, ?_, ?_, ?_⟩
          · rw [e2, e3] at a1
            rw [← a1]
            congr 1
            push_cast
            ring
          · rw [← a2]
            simp only
            congr 2
            ring
          · rw [← a3]
            simp only
            congr 2
            ring
          · rw [e4 idx, if_neg hne] at a4
            exact a4
          · rw [a5]
            simp only
            have q1 : rng.next + 4 + 4 * j + 1 = rng.next + 4 * (j + 1) + 1 := by ring
            have q2 : rng.next + 4 + 4 * j + 2 = rng.next + 4 * (j + 1) + 2 := by ring
            rw [q1, q2]
      · intro i hi
        have hi0 : i ≠ idx0 := by
          intro he
          have := hi 0 (by omega)
          rw [he] at this
          exact this (by simpa using hidx0)
        rw [h7 i ?_, e4 i, if_neg hi0]
        intro j hj
        have := hi (j + 1) (by omega)
        rw [e2, e3]
        intro hcontra
        apply this
        rw [← hcontra]
        congr 1
        push_cast
        ring
    · -- no free slot: the iteration does nothing
      have hz : pl.inactiveCount.toNat = 0 := by omega
      have hbody : spawnBody m g t (pl, rng) = some (pl, rng) := by
        unfold spawnBody
        simp only [gt_iff_lt, hpos, if_false]
      obtain ⟨pl', h1, h2, h3, h4, h5, h6, h7⟩ := ih pl rng inv hv
      have ha : min (k + 1) pl.inactiveCount.toNat = min k pl.inactiveCount.toNat := by
        rw [hz]; simp
      rw [ha]
      exact ⟨pl', by simp only [spawnLoop, hbody, Option.some_bind, h1], h2, h3, h4, h5, h6, h7⟩

end ParticleGenerator

namespace ParticleGenerator

theorem generateParticles_off (m : Libm) (t h : ℚ) (g : ParticleGenerator) (rng : Rng)
    (hoff : g.shouldGenerate t = false) : g.generateParticles m t h rng = some (g, rng) := by
  unfold generateParticles
  rw [if_neg (by rw [hoff]; exact Bool.false_ne_true)]

theorem generateParticles_on (m : Libm) (t h : ℚ) (g : ParticleGenerator) (rng : Rng)
    (hon : g.shouldGenerate t = true) :
    g.generateParticles m t h rng =
      (spawnLoop m g t (emissionCount g.generationRate h g.f).1.toNat (g.pl, rng)).map
        fun s => ({ g with f := (emissionCount g.generationRate h g.f).2, pl := s.1 }, s.2) := by
  unfold generateParticles
  rw [if_pos hon]

/-- Every call of `generateParticles` on a generator whose pool satisfies the
invariant returns; it keeps the invariant, the validity of the stream and every
parameter of the generator, and leaves a carry in `[0, 1]` when it found one there. -/
theorem generateParticles_returns (m : Libm) (t h : ℚ) (g : ParticleGenerator) (rng : Rng)
    (inv : ParticleList.PoolInv g.pl) (hv : rng.Valid) :
    ∃ g' rng', g.generateParticles m t h rng = some (g', rng') ∧
      ParticleList.PoolInv g'.pl ∧ rng'.Valid ∧
      g'.pl.numParticles = g.pl.numParticles ∧
      g'.timeStart = g.timeStart ∧ g'.timeStop = g.timeStop ∧
      g'.generationRate = g.generationRate ∧
      g'.f = (if g.shouldGenerate t = true then (emissionCount g.generationRate h g.f).2
              else g.f) ∧
      g'.pl.inactiveCount =
        (if g.shouldGenerate t = true then
          g.pl.inactiveCount -
            (min (emissionCount g.generationRate h g.f).1.toNat g.pl.inactiveCount.toNat : Nat)
         else g.pl.inactiveCount) := by
  by_cases hon : g.shouldGenerate t = true
  · obtain ⟨pl', h1, h2, h3, _, h5, _, _⟩ :=
      spawnLoop_spec m g t (emissionCount g.generationRate h g.f).1.toNat g.pl rng inv hv
    refine ⟨{ g with f := (emissionCount g.generationRate h g.f).2, pl := pl' },
      (Rng.mk rng.draw (rng.next +
          4 * min (emissionCount g.generationRate h g.f).1.toNat g.pl.inactiveCount.toNat)),
      ?_, h2, ?_, h3, rfl, rfl, rfl, ?_, ?_⟩
    · rw [generateParticles_on m t h g rng hon, h1]
      rfl
    · exact hv
    · simp only [hon, if_true]
    · simp only [hon, if_true]
      exact h5
  · have hoff : g.shouldGenerate t = false := by simpa using hon
    refine ⟨g, rng, generateParticles_off m t h g rng hoff, inv, hv, rfl, rfl, rfl, rfl, ?_, ?_⟩
    · simp [hoff]
    · simp [hoff]

end ParticleGenerator

/-- C13 (spawn rule).  Let `shouldGenerate(t)` hold on a generator whose pool satisfies
the invariant, let the draws be in `[0, 1)`, and let `n` be the emission count of the
pass, with the floor of `generationRate * h` in the range of `int` (so that `n` is the
value of the C++ variable).  Then `generateParticles(t, h)` returns and activates exactly
`k = min(n, inactiveCount)` slots: the active count grows by `k`, `inactiveCount` drops
by `k`, `4 k` draws are consumed, and the `j`-th spawn (`j < k`) takes the free slot
`j` places below the top of the stack, which afterwards is active with
`timestamp = t`, `velocity = |s| * u`, `position = origin + radius * u` and
`lifespan = l`, where `s = gauss(meanInitSpeed, speedRange/3)` comes from draw `4 j`,
the sphere direction `u` from draws `4 j + 1` and `4 j + 2`, and
`l = gauss(meanLifespan, lifespanRange/3)` from draw `4 j + 3` of the pass; the
other fields of that slot and every other slot are unchanged. -/
theorem spawn_rule (m : Libm) (t h : ℚ) (g : ParticleGenerator) (rng : Rng)
    (hon : g.shouldGenerate t = true) (inv : ParticleList.PoolInv g.pl) (hv : rng.Valid)
    (hrange : ParticleGenerator.CountInRange g.generationRate h) :
    ∃ g' rng', g.generateParticles m t h rng = some (g', rng') ∧
      (-2147483648 ≤ (ParticleGenerator.emissionCount g.generationRate h g.f).1 ∧
        (ParticleGenerator.emissionCount g.generationRate h g.f).1 ≤ 2147483647) ∧
      g'.pl.activeCount = g.pl.activeCount +
        min (ParticleGenerator.emissionCount g.generationRate h g.f).1.toNat
          g.pl.inactiveCount.toNat ∧
      g'.pl.inactiveCount = g.pl.inactiveCount -
        (min (ParticleGenerator.emissionCount g.generationRate h g.f).1.toNat
          g.pl.inactiveCount.toNat : Nat) ∧
      rng'.draw = rng.draw ∧
      rng'.next = rng.next +
        4 * min (ParticleGenerator.emissionCount g.generationRate h g.f).1.toNat
          g.pl.inactiveCount.toNat ∧
      (∀ j : Nat, j < min (ParticleGenerator.emissionCount g.generationRate h g.f).1.toNat
          g.pl.inactiveCount.toNat →
        ∃ idx s l p p',
          readAt g.pl.inactiveStack (g.pl.inactiveCount - 1 - j) = some idx ∧
          ParticleGenerator.gaussOf g.meanInitSpeed (g.speedRange / 3)
            (rng.draw (rng.next + 4 * j)) = some s ∧
          ParticleGenerator.gaussOf g.meanLifespan (g.lifespanRange / 3)
            (rng.draw (rng.next + 4 * j + 3)) = some l ∧
          readAt g.pl.particles idx = some p ∧ p.isActive = false ∧
          readAt g'.pl.particles idx = some p' ∧ p'.isActive = true ∧
          p'.timestamp = t ∧
          p'.velocity = |s| * ParticleGenerator.sphereOf m
            (rng.draw (rng.next + 4 * j + 1)) (rng.draw (rng.next + 4 * j + 2)) ∧
          p'.position = g.position + g.radius * ParticleGenerator.sphereOf m
            (rng.draw (rng.next + 4 * j + 1)) (rng.draw (rng.next + 4 * j + 2)) ∧
          p'.lifespan = l ∧
          p'.prev_position = p.prev_position ∧ p'.acceleration = p.acceleration ∧
          p'.mass = p.mass) ∧
      (∀ i : Int,
        (∀ j : Nat, j < min (ParticleGenerator.emissionCount g.generationRate h g.f).1.toNat
            g.pl.inactiveCount.toNat →
          readAt g.pl.inactiveStack (g.pl.inactiveCount - 1 - j) ≠ some i) →
        readAt g'.pl.particles i = readAt g.pl.particles i) := by
  obtain ⟨pl', h1, h2, h3, h4, h5, h6, h7⟩ :=
    ParticleGenerator.spawnLoop_spec m g t
      (ParticleGenerator.emissionCount g.generationRate h g.f).1.toNat g.pl rng inv hv
  refine ⟨{ g with f := (ParticleGenerator.emissionCount g.generationRate h g.f).2, pl := pl' },
    (Rng.mk rng.draw (rng.next +
        4 * min (ParticleGenerator.emissionCount g.generationRate h g.f).1.toNat
          g.pl.inactiveCount.toNat)),
    ?_, ParticleGenerator.emissionCount_inRange _ _ _ hrange, ?_, h5, rfl, rfl, ?_, h7⟩
  · rw [ParticleGenerator.generateParticles_on m t h g rng hon, h1]
    rfl
  · have c1 := inv.count_eq
    have c2 := h2.count_eq
    simp only at c2 ⊢
    rw [h3, h5] at c2
    omega
  · intro j hj
    obtain ⟨idx, s, l, p, a1, a2, a3, a4, a5⟩ := h6 j hj
    have hmem : idx ∈ g.pl.freeList := by
      obtain ⟨c0, clt, cget⟩ := readAt_eq_some a1
      unfold ParticleList.freeList
      rw [List.mem_iff_getElem?]
      refine ⟨(g.pl.inactiveCount - 1 - j).toNat, ?_⟩
      rw [List.getElem?_take_of_lt (by omega)]
      exact cget
    obtain ⟨q, hq, hqa⟩ := (inv.mem_iff idx).mp hmem
    rw [a4] at hq
    cases hq
    exact ⟨idx, s, l, p, _, a1, a2, a3, a4, hqa, a5, rfl, rfl, rfl, rfl, rfl, rfl, rfl, rfl⟩

theorem floor_half : ⌊((1 : Int) : ℚ) * (1 / 2)⌋ = 0 := by
  rw [Int.floor_eq_iff]
  norm_num

theorem carryGenerator_inRange (h : ℚ) (hh : h = 1 / 2) :
    ParticleGenerator.CountInRange carryGenerator.generationRate h := by
  subst hh
  exact ParticleGenerator.countInRange_of_floor 1 (1 / 2) 0 floor_half (by norm_num)
    (by norm_num)

theorem demoGenerator_inRange :
    ParticleGenerator.CountInRange demoGenerator.generationRate (1 / 100) := by
  apply ParticleGenerator.countInRange_of_floor 5000 (1 / 100) 50 _ (by norm_num) (by norm_num)
  rw [Int.floor_eq_iff]
  norm_num

theorem ParticleGenerator.generateParticles_none (m : Libm) (t h : ℚ)
    (g : ParticleGenerator) (rng : Rng) (hon : g.shouldGenerate t = true) (n : Int) (f' : ℚ)
    (hn : emissionCount g.generationRate h g.f = (n, f')) (hn0 : n ≤ 0) :
    g.generateParticles m t h rng = some ({ g with f := f' }, rng) := by
  rw [generateParticles_on m t h g rng hon, hn]
  have : n.toNat = 0 := by omega
  simp only [this, spawnLoop, Option.map_some']

theorem shouldGenerate_first (g : ParticleGenerator) (t : ℚ)
    (hd : t ≤ g.timeStop - g.timeStart) (h0 : g.timeStart ≤ t) (h1 : t < g.timeStop) :
    g.shouldGenerate t = true := by
  unfold ParticleGenerator.shouldGenerate
  simp only
  rw [if_pos hd, if_pos ⟨h0, h1⟩]

theorem shouldGenerate_congr (g g' : ParticleGenerator) (t : ℚ)
    (h1 : g'.timeStart = g.timeStart) (h2 : g'.timeStop = g.timeStop) :
    g'.shouldGenerate t = g.shouldGenerate t := by
  unfold ParticleGenerator.shouldGenerate
  rw [h1, h2]

/-- Every sequence of `generateParticles` calls returns, keeps the pool invariant and
keeps the carry in `[0, 1]`. -/
theorem runGenerate_spec (m : Libm) (calls : List (ℚ × ℚ)) :
    ∀ (g : ParticleGenerator) (rng : Rng), ParticleList.PoolInv g.pl → rng.Valid →
      0 ≤ g.f → g.f ≤ 1 →
      ∃ g' rng', runGenerate m calls (g, rng) = some (g', rng') ∧
        ParticleList.PoolInv g'.pl ∧ rng'.Valid ∧ 0 ≤ g'.f ∧ g'.f ≤ 1 := by
  induction calls with
  | nil =>
    intro g rng inv hv h0 h1
    exact ⟨g, rng, rfl, inv, hv, h0, h1⟩
  | cons c cs ih =>
    intro g rng inv hv h0 h1
    obtain ⟨g1, rng1, a1, a2, a3, _, _, _, _, a8, _⟩ :=
      ParticleGenerator.generateParticles_returns m c.1 c.2 g rng inv hv
    have hb := ParticleGenerator.emissionCount_carry g.generationRate c.2 g.f h0 h1
    have hf : 0 ≤ g1.f ∧ g1.f ≤ 1 := by
      rw [a8]
      split
      · exact hb
      · exact ⟨h0, h1⟩
    obtain ⟨g', rng', b1, b2, b3, b4, b5⟩ := ih g1 rng1 a2 a3 hf.1 hf.2
    exact ⟨g', rng', by simp only [runGenerate, a1, Option.some_bind, b1], b2, b3, b4, b5⟩

/-- Carry accounting over a run of one emitter: the run returns, and when every step
is inside the window with `rate * h ≥ 0` and no call found the pool short of free
slots, the number of activated slots plus the final carry is the initial carry plus
`rate * (h_1 + .. + h_m)`. -/
theorem runEmission_spec (m : Libm) (steps : List (ℚ × ℚ × List PoolCall)) :
    ∀ (g : ParticleGenerator) (rng : Rng), ParticleList.PoolInv g.pl → rng.Valid →
      0 ≤ g.f → g.f ≤ 1 →
      (∀ c ∈ steps, g.shouldGenerate c.1 = true ∧ 0 ≤ (g.generationRate : ℚ) * c.2.1) →
      ∃ g' rng' total ok, runEmission m steps (g, rng) = some ((g', rng'), total, ok) ∧
        ParticleList.PoolInv g'.pl ∧ 0 ≤ g'.f ∧ g'.f ≤ 1 ∧
        (ok = true → (total : ℚ) + g'.f =
          g.f + (g.generationRate : ℚ) * (steps.map (fun c => c.2.1)).sum) := by
  induction steps with
  | nil =>
    intro g rng inv hv h0 h1 _
    exact ⟨g, rng, 0, true, rfl, inv, h0, h1, by intro _; simp⟩
  | cons c cs ih =>
    intro g rng inv hv h0 h1 hs
    obtain ⟨hon, hrh⟩ := hs c (List.mem_cons_self _ _)
    obtain ⟨g1, rng1, a1, a2, a3, a4, a5, a6, a7, a8, a9⟩ :=
      ParticleGenerator.generateParticles_returns m c.1 c.2.1 g rng inv hv
    rw [if_pos hon] at a8 a9
    have hb := ParticleGenerator.emissionCount_carry g.generationRate c.2.1 g.f h0 h1
    obtain ⟨pl2, r1, _, r3⟩ := ParticleList.runCalls_poolInv c.2.2 g1.pl a2
    have hs' : ∀ c' ∈ cs,
        ParticleGenerator.shouldGenerate { g1 with pl := pl2 } c'.1 = true ∧
        0 ≤ ((({ g1 with pl := pl2 } : ParticleGenerator).generationRate : Int) : ℚ) * c'.2.1 := by
      intro c' hc'
      obtain ⟨x1, x2⟩ := hs c' (List.mem_cons_of_mem _ hc')
      constructor
      · rw [shouldGenerate_congr g { g1 with pl := pl2 } c'.1 a5 a6]
        exact x1
      · show 0 ≤ ((g1.generationRate : Int) : ℚ) * c'.2.1
        rw [a7]
        exact x2
    obtain ⟨g', rng', total, ok, b1, b2, b3, b4, b5⟩ :=
      ih { g1 with pl := pl2 } rng1 r3 a3 (by show 0 ≤ g1.f; rw [a8]; exact hb.1)
        (by show g1.f ≤ 1; rw [a8]; exact hb.2) hs'
    refine ⟨g', rng', (g.pl.inactiveCount - g1.pl.inactiveCount) + total,
      decide ((ParticleGenerator.emissionCount g.generationRate c.2.1 g.f).1 ≤
        g.pl.inactiveCount) && ok, ?_, b2, b3, b4, ?_⟩
    · simp only [runEmission, a1, r1, b1]
    · intro hok
      rw [Bool.and_eq_true, decide_eq_true_eq] at hok
      obtain ⟨hle, hok'⟩ := hok
      have hsum := ParticleGenerator.emissionCount_sum g.generationRate c.2.1 g.f
      have hnn := ParticleGenerator.emissionCount_nonneg g.generationRate c.2.1 g.f hrh
      have hic := inv.count_nonneg
      have hdrop : g.pl.inactiveCount - g1.pl.inactiveCount =
          (ParticleGenerator.emissionCount g.generationRate c.2.1 g.f).1 := by
        rw [a9]
        omega
      have h5 := b5 hok'
      simp only at h5
      rw [a8, a7] at h5
      rw [hdrop]
      simp only [List.map_cons, List.sum_cons]
      push_cast
      linarith

theorem carryGenerator_count0 :
    ParticleGenerator.emissionCount 1 (1 / 2) 0 = (0, 1 / 2) := by
  unfold ParticleGenerator.emissionCount
  simp only [floor_half]
  norm_num

theorem carryGenerator_count1 :
    ParticleGenerator.emissionCount 1 (1 / 2) (1 / 2) = (0, 1) := by
  unfold ParticleGenerator.emissionCount
  simp only [floor_half]
  norm_num

theorem carryGenerator_step0 :
    carryGenerator.generateParticles flatLibm 0 (1 / 2) (constRng 0) =
      some ({ carryGenerator with f := 1 / 2 }, constRng 0) :=
  ParticleGenerator.generateParticles_none flatLibm 0 (1 / 2) carryGenerator (constRng 0)
    (shouldGenerate_first _ _ (by norm_num [carryGenerator]) (by norm_num [carryGenerator])
      (by norm_num [carryGenerator])) 0 (1 / 2) carryGenerator_count0 (le_refl 0)

theorem carryGenerator_step1 :
    ParticleGenerator.generateParticles flatLibm (1 / 2) (1 / 2)
      { carryGenerator with f := 1 / 2 } (constRng 0) =
      some ({ carryGenerator with f := 1 }, constRng 0) :=
  ParticleGenerator.generateParticles_none flatLibm (1 / 2) (1 / 2)
    { carryGenerator with f := 1 / 2 } (constRng 0)
    (shouldGenerate_first _ _ (by norm_num [carryGenerator]) (by norm_num [carryGenerator])
      (by norm_num [carryGenerator])) 0 1 carryGenerator_count1 (le_refl 0)

theorem constRng_valid (c : ℚ) (h0 : 0 ≤ c) (h1 : c < 1) : (constRng c).Valid :=
  fun _ => ⟨h0, h1⟩

/-! ## Emission: carry, conservation, spawn rule -/

/-- C11, as stated, fails.  The emitter `carryGenerator` is constructed with `f = 0` and
has rate 1.  Two calls `generateParticles(0, 0.5)` and `generateParticles(0.5, 0.5)`
each add the remainder 0.5 to the carry; after the second the carry is exactly 1,
which the test `f > 1` lets stand. -/
theorem carry_reaches_one :
    ParticleGenerator.new 2 ⟨0, 0, 0⟩ 0 10 1 = some carryGenerator ∧
    carryGenerator.f = 0 ∧ 0 ≤ carryGenerator.generationRate ∧
    ∃ g' rng', runGenerate flatLibm [(0, 1 / 2), (1 / 2, 1 / 2)]
        (carryGenerator, constRng 0) = some (g', rng') ∧
      g'.f = 1 ∧ ¬ g'.f < 1 := by
  refine ⟨rfl, rfl, by decide, { carryGenerator with f := 1 }, constRng 0, ?_, rfl,
    by norm_num⟩
  simp only [runGenerate, carryGenerator_step0, Option.some_bind, carryGenerator_step1]

/-- C11 (amended).  For every emitter whose pool satisfies the invariant and whose carry
starts in `[0, 1]` (in particular one constructed with `f = 0`), every rate and every
sequence of `generateParticles(t, h)` calls with draws in `[0, 1)`, each with the floor
of `generationRate * h` in the range of `int`, all calls return and the carry satisfies
`0 ≤ f ≤ 1` after the last of them, hence after each: the carry is turned into one
extra particle once it exceeds 1, and may rest at exactly 1.  Every emission count the
calls can compute is a value of `int`. -/
theorem carry_invariant (m : Libm) (g : ParticleGenerator) (rng : Rng)
    (inv : ParticleList.PoolInv g.pl) (hv : rng.Valid) (hf0 : 0 ≤ g.f) (hf1 : g.f ≤ 1)
    (calls : List (ℚ × ℚ))
    (hrange : ∀ c ∈ calls, ParticleGenerator.CountInRange g.generationRate c.2) :
    ∃ g' rng', runGenerate m calls (g, rng) = some (g', rng') ∧ 0 ≤ g'.f ∧ g'.f ≤ 1 ∧
      ∀ c ∈ calls, ∀ f : ℚ,
        -2147483648 ≤ (ParticleGenerator.emissionCount g.generationRate c.2 f).1 ∧
        (ParticleGenerator.emissionCount g.generationRate c.2 f).1 ≤ 2147483647 := by
  obtain ⟨g', rng', h1, _, _, h4, h5⟩ := runGenerate_spec m calls g rng inv hv hf0 hf1
  exact ⟨g', rng', h1, h4, h5,
    fun c hc f => ParticleGenerator.emissionCount_inRange _ _ f (hrange c hc)⟩

theorem carry_invariant_witness :
    ParticleList.PoolInv carryGenerator.pl ∧ (constRng 0).Valid ∧
    0 ≤ carryGenerator.f ∧ carryGenerator.f ≤ 1 ∧
    (∀ c ∈ [((0 : ℚ), (1 / 2 : ℚ)), (1 / 2, 1 / 2), (1, 1 / 2)],
      ParticleGenerator.CountInRange carryGenerator.generationRate c.2) ∧
    ∃ g' rng', runGenerate flatLibm [(0, 1 / 2), (1 / 2, 1 / 2), (1, 1 / 2)]
        (carryGenerator, constRng 0) = some (g', rng') ∧ 0 ≤ g'.f ∧ g'.f ≤ 1 ∧
      ∀ c ∈ [((0 : ℚ), (1 / 2 : ℚ)), (1 / 2, 1 / 2), (1, 1 / 2)], ∀ f : ℚ,
        -2147483648 ≤
          (ParticleGenerator.emissionCount carryGenerator.generationRate c.2 f).1 ∧
        (ParticleGenerator.emissionCount carryGenerator.generationRate c.2 f).1 ≤
          2147483647 := by
  have hr : ∀ c ∈ [((0 : ℚ), (1 / 2 : ℚ)), (1 / 2, 1 / 2), (1, 1 / 2)],
      ParticleGenerator.CountInRange carryGenerator.generationRate c.2 := by
    intro c hc
    simp only [List.mem_cons, List.mem_singleton, List.not_mem_nil, or_false] at hc
    rcases hc with rfl | rfl | rfl <;> exact carryGenerator_inRange _ rfl
  exact ⟨ParticleList.demoPool_inv, constRng_valid 0 (le_refl 0) (by norm_num), le_refl 0,
    by norm_num [carryGenerator], hr,
    carry_invariant flatLibm carryGenerator (constRng 0) ParticleList.demoPool_inv
      (constRng_valid 0 (le_refl 0) (by norm_num)) (le_refl 0)
      (by norm_num [carryGenerator]) [(0, 1 / 2), (1 / 2, 1 / 2), (1, 1 / 2)] hr⟩

/-- C12, as stated, fails.  The emitter `carryGenerator` (rate 1, `f = 0`, two free
slots) is on at `t = 0` and at `t = 0.5`.  Over the two steps of length 0.5 it is
never short of free slots and activates 0 particles, while
`r * (dt_1 + dt_2) = 1`: the difference is exactly 1, not less than 1. -/
theorem emission_off_by_one :
    carryGenerator.shouldGenerate 0 = true ∧ carryGenerator.shouldGenerate (1 / 2) = true ∧
    ∃ g' rng' total, runEmission flatLibm [(0, 1 / 2, []), (1 / 2, 1 / 2, [])]
        (carryGenerator, constRng 0) = some ((g', rng'), total, true) ∧
      total = 0 ∧
      (carryGenerator.generationRate : ℚ) * (1 / 2 + 1 / 2) = 1 ∧
      ¬ |(carryGenerator.generationRate : ℚ) * (1 / 2 + 1 / 2) - total| < 1 := by
  refine ⟨shouldGenerate_first _ _ (by norm_num [carryGenerator])
      (by norm_num [carryGenerator]) (by norm_num [carryGenerator]),
    shouldGenerate_first _ _ (by norm_num [carryGenerator])
      (by norm_num [carryGenerator]) (by norm_num [carryGenerator]),
    { carryGenerator with f := 1 }, constRng 0, 0, ?_, rfl, by norm_num [carryGenerator],
    by norm_num [carryGenerator]⟩
  simp only [runEmission, carryGenerator_step0, runCalls, carryGenerator_step1]
  have c0 : (ParticleGenerator.emissionCount carryGenerator.generationRate (1 / 2)
      carryGenerator.f).1 = 0 := by
    show (ParticleGenerator.emissionCount 1 (1 / 2) 0).1 = 0
    rw [carryGenerator_count0]
  have c1 : (ParticleGenerator.emissionCount carryGenerator.generationRate (1 / 2)
      (1 / 2)).1 = 0 := by
    show (ParticleGenerator.emissionCount 1 (1 / 2) (1 / 2)).1 = 0
    rw [carryGenerator_count1]
  refine congrArg some (Prod.ext rfl (Prod.ext ?_ ?_))
  · rfl
  · simp only [c0, c1]
    rfl

/-- C12 (amended).  Let an emitter start with `f = 0`, a rate `r ≥ 0` and a pool that
satisfies the invariant, and let it run through steps `dt_1 .. dt_m ≥ 0`, all inside
its window, with any pool calls between the steps and draws in `[0, 1)`.  The run
returns, and if no call found the pool short of free slots, the total number of
particles activated by `generateParticles` plus the final carry is
`r * (dt_1 + .. + dt_m)`; so the total is at most that product and falls short of it by
at most 1 (by exactly 1 when the carry rests at 1). -/
theorem emission_conservation (m : Libm) (g : ParticleGenerator) (rng : Rng)
    (inv : ParticleList.PoolInv g.pl) (hv : rng.Valid) (hf : g.f = 0)
    (hr : 0 ≤ g.generationRate) (steps : List (ℚ × ℚ × List PoolCall))
    (hs : ∀ c ∈ steps, g.shouldGenerate c.1 = true ∧ 0 ≤ c.2.1) :
    ∃ g' rng' total ok, runEmission m steps (g, rng) = some ((g', rng'), total, ok) ∧
      (ok = true →
        (total : ℚ) + g'.f = (g.generationRate : ℚ) * (steps.map (fun c => c.2.1)).sum ∧
        0 ≤ (g.generationRate : ℚ) * (steps.map (fun c => c.2.1)).sum - total ∧
        (g.generationRate : ℚ) * (steps.map (fun c => c.2.1)).sum - total ≤ 1 ∧
        |(g.generationRate : ℚ) * (steps.map (fun c => c.2.1)).sum - total| ≤ 1) := by
  have hr' : (0 : ℚ) ≤ (g.generationRate : ℚ) := by exact_mod_cast hr
  obtain ⟨g', rng', total, ok, h1, _, h3, h4, h5⟩ :=
    runEmission_spec m steps g rng inv hv (by rw [hf]) (by rw [hf]; norm_num)
      (fun c hc => ⟨(hs c hc).1, mul_nonneg hr' (hs c hc).2⟩)
  refine ⟨g', rng', total, ok, h1, ?_⟩
  intro hok
  have h := h5 hok
  rw [hf, zero_add] at h
  refine ⟨h, by linarith, by linarith, ?_⟩
  rw [abs_le]
  constructor <;> linarith

theorem emission_conservation_witness :
    ParticleList.PoolInv carryGenerator.pl ∧ (constRng 0).Valid ∧ carryGenerator.f = 0 ∧
    0 ≤ carryGenerator.generationRate ∧
    (∀ c ∈ [((0 : ℚ), (1 / 2 : ℚ), ([] : List PoolCall)), (1 / 2, 1 / 2, [])],
      carryGenerator.shouldGenerate c.1 = true ∧ 0 ≤ c.2.1) ∧
    ∃ g' rng' total ok, runEmission flatLibm [(0, 1 / 2, []), (1 / 2, 1 / 2, [])]
        (carryGenerator, constRng 0) = some ((g', rng'), total, ok) ∧
      (ok = true →
        (total : ℚ) + g'.f = (carryGenerator.generationRate : ℚ) *
          (([((0 : ℚ), (1 / 2 : ℚ), ([] : List PoolCall)), (1 / 2, 1 / 2, [])]).map
            (fun c => c.2.1)).sum ∧
        0 ≤ (carryGenerator.generationRate : ℚ) *
          (([((0 : ℚ), (1 / 2 : ℚ), ([] : List PoolCall)), (1 / 2, 1 / 2, [])]).map
            (fun c => c.2.1)).sum - total ∧
        (carryGenerator.generationRate : ℚ) *
          (([((0 : ℚ), (1 / 2 : ℚ), ([] : List PoolCall)), (1 / 2, 1 / 2, [])]).map
            (fun c => c.2.1)).sum - total ≤ 1 ∧
        |(carryGenerator.generationRate : ℚ) *
          (([((0 : ℚ), (1 / 2 : ℚ), ([] : List PoolCall)), (1 / 2, 1 / 2, [])]).map
            (fun c => c.2.1)).sum - total| ≤ 1) := by
  have hs : ∀ c ∈ [((0 : ℚ), (1 / 2 : ℚ), ([] : List PoolCall)), (1 / 2, 1 / 2, [])],
      carryGenerator.shouldGenerate c.1 = true ∧ 0 ≤ c.2.1 := by
    intro c hc
    simp only [List.mem_cons, List.mem_singleton, List.not_mem_nil, or_false] at hc
    rcases hc with rfl | rfl
    · exact ⟨shouldGenerate_first _ _ (by norm_num [carryGenerator])
        (by norm_num [carryGenerator]) (by norm_num [carryGenerator]), by norm_num⟩
    · exact ⟨shouldGenerate_first _ _ (by norm_num [carryGenerator])
        (by norm_num [carryGenerator]) (by norm_num [carryGenerator]), by norm_num⟩
  exact ⟨ParticleList.demoPool_inv, constRng_valid 0 (le_refl 0) (by norm_num), rfl,
    by decide, hs,
    emission_conservation flatLibm carryGenerator (constRng 0) ParticleList.demoPool_inv
      (constRng_valid 0 (le_refl 0) (by norm_num)) rfl (by decide) _ hs⟩

theorem demoGenerator_on : demoGenerator.shouldGenerate 1 = true :=
  shouldGenerate_first _ _ (by norm_num [demoGenerator]) (by norm_num [demoGenerator])
    (by norm_num [demoGenerator])

theorem spawn_rule_witness :
    demoGenerator.shouldGenerate 1 = true ∧ ParticleList.PoolInv demoGenerator.pl ∧
    (constRng 0).Valid ∧ ParticleGenerator.CountInRange demoGenerator.generationRate (1 / 100) ∧
    ∃ g' rng', demoGenerator.generateParticles flatLibm 1 (1 / 100) (constRng 0) =
        some (g', rng') ∧
      (-2147483648 ≤ (ParticleGenerator.emissionCount demoGenerator.generationRate (1 / 100)
          demoGenerator.f).1 ∧
        (ParticleGenerator.emissionCount demoGenerator.generationRate (1 / 100)
          demoGenerator.f).1 ≤ 2147483647) ∧
      g'.pl.activeCount = demoGenerator.pl.activeCount +
        min (ParticleGenerator.emissionCount demoGenerator.generationRate (1 / 100)
          demoGenerator.f).1.toNat demoGenerator.pl.inactiveCount.toNat ∧
      g'.pl.inactiveCount = demoGenerator.pl.inactiveCount -
        (min (ParticleGenerator.emissionCount demoGenerator.generationRate (1 / 100)
          demoGenerator.f).1.toNat demoGenerator.pl.inactiveCount.toNat : Nat) ∧
      rng'.draw = (constRng 0).draw ∧
      rng'.next = (constRng 0).next +
        4 * min (ParticleGenerator.emissionCount demoGenerator.generationRate (1 / 100)
          demoGenerator.f).1.toNat demoGenerator.pl.inactiveCount.toNat ∧
      (∀ j : Nat,
        j < min (ParticleGenerator.emissionCount demoGenerator.generationRate (1 / 100)
          demoGenerator.f).1.toNat demoGenerator.pl.inactiveCount.toNat →
        ∃ idx s l p p',
          readAt demoGenerator.pl.inactiveStack (demoGenerator.pl.inactiveCount - 1 - j)
            = some idx ∧
          ParticleGenerator.gaussOf demoGenerator.meanInitSpeed (demoGenerator.speedRange / 3)
            ((constRng 0).draw ((constRng 0).next + 4 * j)) = some s ∧
          ParticleGenerator.gaussOf demoGenerator.meanLifespan
            (demoGenerator.lifespanRange / 3)
            ((constRng 0).draw ((constRng 0).next + 4 * j + 3)) = some l ∧
          readAt demoGenerator.pl.particles idx = some p ∧ p.isActive = false ∧
          readAt g'.pl.particles idx = some p' ∧ p'.isActive = true ∧
          p'.timestamp = 1 ∧
          p'.velocity = |s| * ParticleGenerator.sphereOf flatLibm
            ((constRng 0).draw ((constRng 0).next + 4 * j + 1))
            ((constRng 0).draw ((constRng 0).next + 4 * j + 2)) ∧
          p'.position = demoGenerator.position + demoGenerator.radius *
            ParticleGenerator.sphereOf flatLibm
              ((constRng 0).draw ((constRng 0).next + 4 * j + 1))
              ((constRng 0).draw ((constRng 0).next + 4 * j + 2)) ∧
          p'.lifespan = l ∧
          p'.prev_position = p.prev_position ∧ p'.acceleration = p.acceleration ∧
          p'.mass = p.mass) ∧
      (∀ i : Int,
        (∀ j : Nat,
          j < min (ParticleGenerator.emissionCount demoGenerator.generationRate (1 / 100)
            demoGenerator.f).1.toNat demoGenerator.pl.inactiveCount.toNat →
          readAt demoGenerator.pl.inactiveStack (demoGenerator.pl.inactiveCount - 1 - j)
            ≠ some i) →
        readAt g'.pl.particles i = readAt demoGenerator.pl.particles i) :=
  ⟨demoGenerator_on, ParticleList.demoPool_inv, constRng_valid 0 (le_refl 0) (by norm_num),
    demoGenerator_inRange,
    spawn_rule flatLibm 1 (1 / 100) demoGenerator (constRng 0) demoGenerator_on
      ParticleList.demoPool_inv (constRng_valid 0 (le_refl 0) (by norm_num))
      demoGenerator_inRange⟩

/-! ## Model: the stopped step; pool reset; particle construction -/

/-- C15 (stopped step is a no-op).  On a model with `running = false`, `timeStep()`
returns the model and the random stream exactly as they were: `t`, `n`, `running`,
every generator with its carry and its pool.  `startSimulation()` sets `running` to
true and changes no other member. -/
theorem stopped_step_noop (lm : Libm) (md : Model) (rng : Rng) (hstop : md.running = false) :
    Model.timeStep lm (md, rng) = some (md, rng) ∧
    md.startSimulation.running = true ∧
    md.startSimulation.t = md.t ∧ md.startSimulation.n = md.n ∧
    md.startSimulation.h = md.h ∧ md.startSimulation.drag = md.drag ∧
    md.startSimulation.numParticles = md.numParticles ∧
    md.startSimulation.numGenerators = md.numGenerators ∧
    md.startSimulation.generators = md.generators := by
  refine ⟨?_, rfl, rfl, rfl, rfl, rfl, rfl, rfl, rfl⟩
  unfold Model.timeStep
  rw [if_neg (by rw [hstop]; exact Bool.false_ne_true)]

theorem stopped_step_noop_witness :
    (Model.single demoGenerator (1 / 100) (2 / 10)).running = false ∧
    (Model.timeStep flatLibm (Model.single demoGenerator (1 / 100) (2 / 10), constRng 0) =
      some (Model.single demoGenerator (1 / 100) (2 / 10), constRng 0) ∧
    (Model.single demoGenerator (1 / 100) (2 / 10)).startSimulation.running = true ∧
    (Model.single demoGenerator (1 / 100) (2 / 10)).startSimulation.t =
      (Model.single demoGenerator (1 / 100) (2 / 10)).t ∧
    (Model.single demoGenerator (1 / 100) (2 / 10)).startSimulation.n =
      (Model.single demoGenerator (1 / 100) (2 / 10)).n ∧
    (Model.single demoGenerator (1 / 100) (2 / 10)).startSimulation.h =
      (Model.single demoGenerator (1 / 100) (2 / 10)).h ∧
    (Model.single demoGenerator (1 / 100) (2 / 10)).startSimulation.drag =
      (Model.single demoGenerator (1 / 100) (2 / 10)).drag ∧
    (Model.single demoGenerator (1 / 100) (2 / 10)).startSimulation.numParticles =
      (Model.single demoGenerator (1 / 100) (2 / 10)).numParticles ∧
    (Model.single demoGenerator (1 / 100) (2 / 10)).startSimulation.numGenerators =
      (Model.single demoGenerator (1 / 100) (2 / 10)).numGenerators ∧
    (Model.single demoGenerator (1 / 100) (2 / 10)).startSimulation.generators =
      (Model.single demoGenerator (1 / 100) (2 / 10)).generators) :=
  ⟨rfl, stopped_step_noop flatLibm (Model.single demoGenerator (1 / 100) (2 / 10))
    (constRng 0) rfl⟩

/-- C18 (`clear` restores the initial allocation state).  On every allocated pool,
whether or not it satisfies the pool invariant, `clear()` returns a pool in which
every slot is inactive, `inactiveStack[i] = i` for every `i` in `0 .. numParticles - 1`,
`inactiveCount = numParticles` and `numParticles` is unchanged.  The pool that
`ParticleList(np)` constructs has the same four properties. -/
theorem clear_restores_allocation :
    (∀ pl : ParticleList, ParticleList.Allocated pl →
      ∃ pl', pl.clear = some pl' ∧
        pl'.particles.length = pl.particles.length ∧
        (∀ p ∈ pl'.particles, p.isActive = false) ∧
        pl'.inactiveStack = (List.range pl.numParticles.toNat).map Int.ofNat ∧
        (∀ i : Nat, (i : Int) < pl.numParticles →
          readAt pl'.inactiveStack (i : Int) = some (i : Int)) ∧
        pl'.inactiveCount = pl.numParticles ∧ pl'.numParticles = pl.numParticles) ∧
    (∀ np : Int, 0 ≤ np →
      ∃ pl', ParticleList.new np = some pl' ∧
        (pl'.particles.length : Int) = np ∧
        (∀ p ∈ pl'.particles, p.isActive = false) ∧
        pl'.inactiveStack = (List.range np.toNat).map Int.ofNat ∧
        (∀ i : Nat, (i : Int) < np → readAt pl'.inactiveStack (i : Int) = some (i : Int)) ∧
        pl'.inactiveCount = np ∧ pl'.numParticles = np) := by
  have hstack : ∀ (n : Int) (i : Nat), (i : Int) < n →
      readAt ((List.range n.toNat).map Int.ofNat) (i : Int) = some (i : Int) := by
    intro n i hi
    rw [readAt_natCast, List.getElem?_map, List.getElem?_range (by omega)]
    rfl
  constructor
  · intro pl ha
    refine ⟨_, ParticleList.clear_eq pl ha, by simp, ?_, rfl, hstack _, rfl, rfl⟩
    intro p hp
    simp only [List.mem_map] at hp
    obtain ⟨q, _, rfl⟩ := hp
    rfl
  · intro np hnp
    refine ⟨_, ParticleList.new_eq np hnp, by simp; omega, ?_, rfl, hstack _, rfl, rfl⟩
    intro p hp
    rw [List.eq_of_mem_replicate hp]
    rfl

theorem clear_restores_allocation_witness :
    ParticleList.Allocated brokenPool ∧ ¬ ParticleList.PoolInv brokenPool ∧
    (∃ pl', brokenPool.clear = some pl' ∧
      pl'.particles.length = brokenPool.particles.length ∧
      (∀ p ∈ pl'.particles, p.isActive = false) ∧
      pl'.inactiveStack = (List.range brokenPool.numParticles.toNat).map Int.ofNat ∧
      (∀ i : Nat, (i : Int) < brokenPool.numParticles →
        readAt pl'.inactiveStack (i : Int) = some (i : Int)) ∧
      pl'.inactiveCount = brokenPool.numParticles ∧
      pl'.numParticles = brokenPool.numParticles) ∧
    (0 : Int) ≤ 2 ∧
    (∃ pl', ParticleList.new 2 = some pl' ∧
      (pl'.particles.length : Int) = 2 ∧
      (∀ p ∈ pl'.particles, p.isActive = false) ∧
      pl'.inactiveStack = (List.range (2 : Int).toNat).map Int.ofNat ∧
      (∀ i : Nat, (i : Int) < 2 → readAt pl'.inactiveStack (i : Int) = some (i : Int)) ∧
      pl'.inactiveCount = 2 ∧ pl'.numParticles = 2) :=
  ⟨⟨rfl, rfl⟩, fun inv => by
      have h := inv.nodup
      simp [ParticleList.freeList, brokenPool] at h,
    clear_restores_allocation.1 brokenPool ⟨rfl, rfl⟩, by decide,
    clear_restores_allocation.2 2 (by decide)⟩

/-- C19, as stated, fails.  The pool `livePool` has capacity 2 and slot 1 holds a
particle at `(1, 2, 3)`.  After `clear()` slot 1 is inactive but still records the
position `(1, 2, 3)`, whereas the freshly constructed `ParticleList(2)` records
`(0, 0, 0)` there: the two states differ. -/
theorem clear_differs_from_fresh :
    ∃ a b pa pb, livePool.clear = some a ∧ resetSpec livePool = some b ∧
      readAt a.particles 1 = some pa ∧ readAt b.particles 1 = some pb ∧
      pa.position = ⟨1, 2, 3⟩ ∧ pb.position = ⟨0, 0, 0⟩ ∧ a ≠ b := by
  refine ⟨_, _, { liveParticle with isActive := false }, Particle.default,
    ParticleList.clear_eq livePool ⟨rfl, rfl⟩, ParticleList.new_eq 2 (by decide), rfl, rfl,
    rfl, rfl, ?_⟩
  intro h
  have h2 := congrArg (fun q => (readAt q.particles 1).map (fun p => p.position.x)) h
  simp [readAt, livePool, liveParticle, Particle.default, Vector3d.set] at h2

/-- C19 (amended).  On every allocated pool of capacity `c`, `clear()` and a fresh
`ParticleList(c)` both return, and the two states coincide in `numParticles`, in the
`isActive` flag of every slot (all false), in the free stack and in `inactiveCount`.
The other fields of the records are not reset by `clear()`: each slot keeps the record
it held, with `isActive` set to false. -/
theorem clear_matches_fresh_allocation (pl : ParticleList) (ha : ParticleList.Allocated pl) :
    ∃ a b, pl.clear = some a ∧ resetSpec pl = some b ∧
      a.numParticles = b.numParticles ∧
      a.particles.length = b.particles.length ∧
      a.particles.map (fun p => p.isActive) = b.particles.map (fun p => p.isActive) ∧
      a.inactiveStack = b.inactiveStack ∧ a.inactiveCount = b.inactiveCount ∧
      a.particles = pl.particles.map (fun p => { p with isActive := false }) := by
  have hn : 0 ≤ pl.numParticles := by
    have := ha.1
    omega
  have hlen : pl.particles.length = pl.numParticles.toNat := by
    have := ha.1
    omega
  refine ⟨_, _, ParticleList.clear_eq pl ha, ParticleList.new_eq pl.numParticles hn, rfl,
    by simp [hlen], ?_, rfl, rfl, rfl⟩
  simp only [List.map_map, List.map_replicate]
  rw [List.eq_replicate_iff]
  constructor
  · simp [hlen]
  · intro b hb
    simp only [List.mem_map] at hb
    obtain ⟨p, _, rfl⟩ := hb
    rfl

theorem clear_matches_fresh_allocation_witness :
    ParticleList.Allocated livePool ∧
    ∃ a b, livePool.clear = some a ∧ resetSpec livePool = some b ∧
      a.numParticles = b.numParticles ∧
      a.particles.length = b.particles.length ∧
      a.particles.map (fun p => p.isActive) = b.particles.map (fun p => p.isActive) ∧
      a.inactiveStack = b.inactiveStack ∧ a.inactiveCount = b.inactiveCount ∧
      a.particles = livePool.particles.map (fun p => { p with isActive := false }) :=
  ⟨⟨rfl, rfl⟩, clear_matches_fresh_allocation livePool ⟨rfl, rfl⟩⟩

/-- C20 (particle construction coerces signs).  For every position `x`, velocity `v`,
mass `m` and lifespan `ls`, negative ones included, `Particle(x, v, m, ls)` is a
record with `mass = |m|`, `lifespan = |ls|`, `position = prev_position = x`,
`velocity = v`, `timestamp = 0` and `isActive = false`; mass and lifespan are
therefore never negative.  The constructor is a total function: it has a value for
every input. -/
theorem particle_construction (dflt x v : Vector3d) (m ls : ℚ) :
    (Particle.new dflt x v m ls).mass = |m| ∧
    (Particle.new dflt x v m ls).lifespan = |ls| ∧
    (Particle.new dflt x v m ls).position = x ∧
    (Particle.new dflt x v m ls).prev_position = x ∧
    (Particle.new dflt x v m ls).velocity = v ∧
    (Particle.new dflt x v m ls).timestamp = 0 ∧
    (Particle.new dflt x v m ls).isActive = false ∧
    0 ≤ (Particle.new dflt x v m ls).mass ∧ 0 ≤ (Particle.new dflt x v m ls).lifespan ∧
    (Particle.new dflt x v (-m) (-ls)).mass = (Particle.new dflt x v m ls).mass ∧
    (Particle.new dflt x v (-m) (-ls)).lifespan = (Particle.new dflt x v m ls).lifespan :=
  ⟨rfl, rfl, rfl, rfl, rfl, rfl, rfl, abs_nonneg m, abs_nonneg ls, abs_neg m, abs_neg ls⟩

/-! ## Model: one step -/

theorem mem_iff_readAt {α : Type} (xs : List α) (a : α) :
    a ∈ xs ↔ ∃ i : Int, readAt xs i = some a := by
  rw [List.mem_iff_getElem?]
  constructor
  · rintro ⟨n, hn⟩
    exact ⟨(n : Int), by rw [readAt_natCast]; exact hn⟩
  · rintro ⟨i, hi⟩
    exact ⟨i.toNat, (readAt_eq_some hi).2.2⟩

theorem roundSlot_isActive (drag h : ℚ) (p : Particle) :
    (roundSlot drag h p).isActive = p.isActive := by
  unfold roundSlot
  rw [ParticleList.integrateSlot_isActive, ParticleList.computeAccelerationsSlot_isActive]

theorem roundSlot_lifespan (drag h : ℚ) (p : Particle) :
    (roundSlot drag h p).lifespan = p.lifespan ∧
    (roundSlot drag h p).timestamp = p.timestamp := by
  unfold roundSlot ParticleList.integrateSlot ParticleList.computeAccelerationsSlot
  by_cases ha : p.isActive = true
  · simp [ha]
  · simp [ha]

namespace Model

/-- The body of `timeStep` is the pass over generator `i` at the current clock value,
followed by the update of the counter and of the clock. -/
theorem timeStepBody_eq (lm : Libm) (i : Nat) (md : Model) (rng : Rng)
    (g : ParticleGenerator) (hg : md.generators[i]? = some g) :
    timeStepBody lm i (md, rng) =
      (emitterPass lm md.t md.h md.drag g rng).map fun r =>
        ({ md with generators := md.generators.set i r.1, n := md.n + 1,
                   t := ((md.n + 1 : Int) : ℚ) * md.h }, r.2) := by
  unfold timeStepBody emitterPass
  simp only [hg]
  cases g.generateParticles lm md.t md.h rng with
  | none => rfl
  | some gr =>
    simp only
    cases gr.1.pl.testAndDeactivate md.h md.t with
    | none => rfl
    | some pl1 =>
      simp only
      cases pl1.computeAccelerations md.drag with
      | none => rfl
      | some pl2 =>
        simp only
        cases pl2.integrate md.h with
        | none => rfl
        | some pl3 => rfl

/-- The pass over one generator whose pool satisfies the invariant returns: it is
the spawn pass, then the cull at time `t` and one round of forces and integration
on every slot. -/
theorem emitterPass_spec (lm : Libm) (t h drag : ℚ) (g : ParticleGenerator) (rng : Rng)
    (inv : ParticleList.PoolInv g.pl) (hv : rng.Valid) :
    ∃ g1 rng1 pl3, g.generateParticles lm t h rng = some (g1, rng1) ∧
      emitterPass lm t h drag g rng = some ({ g1 with pl := pl3 }, rng1) ∧
      ParticleList.PoolInv g1.pl ∧ ParticleList.PoolInv pl3 ∧ rng1.Valid ∧
      pl3.numParticles = g.pl.numParticles ∧
      pl3.particles = (g1.pl.particles.map (ParticleList.cullSlot t)).map (roundSlot drag h) := by
  obtain ⟨g1, rng1, a1, a2, a3, a4, _⟩ :=
    ParticleGenerator.generateParticles_returns lm t h g rng inv hv
  obtain ⟨pl1, b1, b2, b3, _, _, b6⟩ := ParticleList.testAndDeactivate_spec h t g1.pl a2
  have c1 := ParticleList.computeAccelerations_eq drag pl1 b6.alloc.1
  have inv2 := ParticleList.poolInv_map _ (ParticleList.computeAccelerationsSlot_isActive drag)
    pl1 b6
  have d1 := ParticleList.integrate_eq h _ inv2.alloc.1
  have inv3 := ParticleList.poolInv_map _ (ParticleList.integrateSlot_isActive h) _ inv2
  refine ⟨g1, rng1, _, a1, ?_, a2, inv3, a3, ?_, ?_⟩
  · unfold emitterPass
    simp only [a1, b1, c1, d1]
  · show pl1.numParticles = _
    rw [b2, a4]
  · show List.map _ (List.map _ pl1.particles) = _
    rw [b3]
    simp only [List.map_map]
    rfl

/-- One call of `timeStep` on a running model with a single generator. -/
theorem timeStep_single (lm : Libm) (md : Model) (rng : Rng) (g : ParticleGenerator)
    (hrun : md.running = true) (hn : md.numGenerators = 1) (hg : md.generators = [g]) :
    timeStep lm (md, rng) =
      (emitterPass lm md.t md.h md.drag g rng).map fun r =>
        ({ md with generators := [r.1], n := md.n + 1,
                   t := ((md.n + 1 : Int) : ℚ) * md.h }, r.2) := by
  unfold timeStep
  simp only [hrun, if_true, hn]
  show timeStepLoop lm 1 0 (md, rng) = _
  simp only [timeStepLoop]
  rw [timeStepBody_eq lm 0 md rng g (by rw [hg]; rfl)]
  cases emitterPass lm md.t md.h md.drag g rng with
  | none => rfl
  | some r => simp [hg, timeStepLoop, hrun, hn]

/-- One call of `timeStep` on a running model with three generators: the second
generator is passed the clock value `(n + 1) * h` and the third `(n + 2) * h`, and
the counter ends at `n + 3`. -/
theorem timeStep_three (lm : Libm) (md : Model) (rng : Rng) (g0 g1 g2 : ParticleGenerator)
    (hrun : md.running = true) (hn : md.numGenerators = 3) (hg : md.generators = [g0, g1, g2]) :
    timeStep lm (md, rng) =
      (emitterPass lm md.t md.h md.drag g0 rng).bind fun r0 =>
        (emitterPass lm (((md.n + 1 : Int) : ℚ) * md.h) md.h md.drag g1 r0.2).bind fun r1 =>
          (emitterPass lm (((md.n + 1 + 1 : Int) : ℚ) * md.h) md.h md.drag g2 r1.2).map fun r2 =>
            ({ md with generators := [r0.1, r1.1, r2.1], n := md.n + 1 + 1 + 1,
                       t := ((md.n + 1 + 1 + 1 : Int) : ℚ) * md.h }, r2.2) := by
  unfold timeStep
  simp only [hrun, if_true, hn]
  show timeStepLoop lm 3 0 (md, rng) = _
  simp only [timeStepLoop]
  rw [timeStepBody_eq lm 0 md rng g0 (by rw [hg]; rfl)]
  cases emitterPass lm md.t md.h md.drag g0 rng with
  | none => rfl
  | some r0 =>
    simp only [Option.map_some', Option.some_bind]
    rw [timeStepBody_eq lm 1 _ r0.2 g1 (by simp [hg])]
    simp only
    cases emitterPass lm (((md.n + 1 : Int) : ℚ) * md.h) md.h md.drag g1 r0.2 with
    | none => rfl
    | some r1 =>
      simp only [Option.map_some', Option.some_bind]
      rw [timeStepBody_eq lm 2 _ r1.2 g2 (by simp [hg])]
      simp only
      cases emitterPass lm (((md.n + 1 + 1 : Int) : ℚ) * md.h) md.h md.drag g2 r1.2 with
      | none => rfl
      | some r2 => simp [hg, hrun, hn]

end Model

namespace Model

/-- A generator of `initSimulation` is constructed: its pool is fresh and satisfies
the invariant, its carry is 0 and its window and rate are the ones passed in. -/
theorem initGenerator_spec (np : Int) (hnp : 0 ≤ np) (x : Vector3d) (start_t stop_t : ℚ)
    (gen_r : Int) (mean_s s_range mean_ls ls_range rad : ℚ) :
    ∃ g, initGenerator np x start_t stop_t gen_r mean_s s_range mean_ls ls_range rad = some g ∧
      ParticleList.PoolInv g.pl ∧ g.pl.numParticles = np ∧ g.pl.inactiveCount = np ∧
      g.timeStart = start_t ∧ g.timeStop = stop_t ∧ g.generationRate = gen_r ∧ g.f = 0 ∧
      g.meanLifespan = mean_ls ∧ g.lifespanRange = ls_range := by
  obtain ⟨pl, h1, h2, _, _, h5⟩ := ParticleList.new_poolInv np hnp
  obtain ⟨pl', c1, c2, c3, _, c5⟩ := ParticleList.clear_poolInv pl h5.alloc
  refine ⟨{ pl := pl', position := x, radius := rad, timeStart := start_t,
            timeStop := stop_t, generationRate := gen_r, f := 0, meanInitSpeed := mean_s,
            speedRange := s_range, meanLifespan := mean_ls, lifespanRange := ls_range },
    ?_, c5, by rw [c2, h2], by rw [c3, h2], rfl, rfl, rfl, rfl, rfl, rfl⟩
  unfold initGenerator ParticleGenerator.new
  simp only [h1, Option.map_some', ParticleGenerator.setRadius,
    ParticleGenerator.setLifespanParams, ParticleGenerator.setSpeedParams, c1]

/-- The model that `initSimulation` builds: three generators with valid pools, the
clock and the counter at 0, step `0.01`, not running. -/
theorem initSimulationWith_spec (np : Int) (hnp : 0 ≤ np) :
    ∃ g0 g1 g2, initSimulationWith np =
        some { h := 1 / 100, drag := 2 / 10, numParticles := np, running := false,
               t := 0, n := 0, numGenerators := 3, generators := [g0, g1, g2] } ∧
      ParticleList.PoolInv g0.pl ∧ ParticleList.PoolInv g1.pl ∧ ParticleList.PoolInv g2.pl := by
  obtain ⟨g0, a0, b0, _⟩ := initGenerator_spec np hnp (Vector3d.set 0 10 0) 0
    (45 / 10) 5000 5 1 (15 / 10) (5 / 10) 12
  obtain ⟨g1, a1, b1, _⟩ := initGenerator_spec np hnp (Vector3d.set 10 0 0) 0
    (35 / 10) 4000 20 8 1 (5 / 10) 6
  obtain ⟨g2, a2, b2, _⟩ := initGenerator_spec np hnp (Vector3d.set (-18) (-5) 4) 0
    (25 / 10) 3000 12 3 (8 / 10) (2 / 10) 3
  refine ⟨g0, g1, g2, ?_, b0, b1, b2⟩
  unfold initSimulationWith
  simp only [a0, a1, a2, Option.some_bind]

theorem initSimulation_spec :
    ∃ g0 g1 g2, initSimulation =
        some { h := 1 / 100, drag := 2 / 10, numParticles := 50000, running := false,
               t := 0, n := 0, numGenerators := 3, generators := [g0, g1, g2] } ∧
      ParticleList.PoolInv g0.pl ∧ ParticleList.PoolInv g1.pl ∧ ParticleList.PoolInv g2.pl :=
  initSimulationWith_spec 50000 (by norm_num)

end Model

/-! ## Model: the clock inside one step -/

/-- C16: what the code does on the model of `initSimulation`.  After `initSimulation()`
and `startSimulation()` the counter is 0 and the step is `0.01`; one call of
`timeStep()` returns with `n = 3` and `t = 0.03`, because the update `n = n + 1;
t = n * h` sits inside the loop over the three generators.  The claim expects `n = 1`
and `t = 0.01`. -/
theorem clock_advances_per_emitter (lm : Libm) (rng : Rng) (hv : rng.Valid) :
    ∃ md0 md' rng', Model.initSimulation = some md0 ∧
      md0.n = 0 ∧ md0.t = 0 ∧ md0.h = 1 / 100 ∧ md0.numGenerators = 3 ∧
      Model.timeStep lm (md0.startSimulation, rng) = some (md', rng') ∧
      md'.n = 3 ∧ md'.t = 3 / 100 ∧ md'.n ≠ md0.n + 1 := by
  obtain ⟨g0, g1, g2, hinit, i0, i1, i2⟩ := Model.initSimulation_spec
  obtain ⟨a0, r0, p0, _, e0, _, _, v0, _⟩ :=
    Model.emitterPass_spec lm 0 (1 / 100) (2 / 10) g0 rng i0 hv
  obtain ⟨a1, r1, p1, _, e1, _, _, v1, _⟩ :=
    Model.emitterPass_spec lm ((((0 : Int) + 1 : Int) : ℚ) * (1 / 100)) (1 / 100) (2 / 10)
      g1 r0 i1 v0
  obtain ⟨a2, r2, p2, _, e2, _, _, _, _⟩ :=
    Model.emitterPass_spec lm ((((0 : Int) + 1 + 1 : Int) : ℚ) * (1 / 100)) (1 / 100) (2 / 10)
      g2 r1 i2 v1
  have hstep := Model.timeStep_three lm
    (Model.startSimulation (Model.mk (1 / 100) (2 / 10) 50000 false 0 0 3 [g0, g1, g2]))
    rng g0 g1 g2 rfl rfl rfl
  simp only [Model.startSimulation, e0, Option.some_bind, e1, e2, Option.map_some'] at hstep
  refine ⟨_, _, r2, hinit, rfl, rfl, rfl, rfl, hstep, ?_, ?_, ?_⟩
  · simp
  · simp only
    norm_num
  · simp

theorem clock_advances_per_emitter_witness :
    (constRng 0).Valid ∧
    ∃ md0 md' rng', Model.initSimulation = some md0 ∧
      md0.n = 0 ∧ md0.t = 0 ∧ md0.h = 1 / 100 ∧ md0.numGenerators = 3 ∧
      Model.timeStep flatLibm (md0.startSimulation, constRng 0) = some (md', rng') ∧
      md'.n = 3 ∧ md'.t = 3 / 100 ∧ md'.n ≠ md0.n + 1 :=
  ⟨constRng_valid 0 (le_refl 0) (by norm_num),
    clock_advances_per_emitter flatLibm (constRng 0)
      (constRng_valid 0 (le_refl 0) (by norm_num))⟩

/-- C17: what the code does on the model of `initSimulation`.  Within the first
`timeStep()` after `initSimulation()` and `startSimulation()`, the first generator
runs its four passes with the clock value 0, the second with `0.01` and the third
with `0.02`: each generator's `generateParticles` and `testAndDeactivate` receive a
different time.  The claim expects all three to receive 0. -/
theorem emitters_get_different_times (lm : Libm) (rng : Rng) :
    ∃ md0 g0 g1 g2, Model.initSimulation = some md0 ∧ md0.generators = [g0, g1, g2] ∧
      md0.t = 0 ∧
      Model.timeStep lm (md0.startSimulation, rng) =
        ((Model.emitterPass lm 0 (1 / 100) (2 / 10) g0 rng).bind fun r0 =>
          (Model.emitterPass lm (1 / 100) (1 / 100) (2 / 10) g1 r0.2).bind fun r1 =>
            (Model.emitterPass lm (2 / 100) (1 / 100) (2 / 10) g2 r1.2).map fun r2 =>
              ({ md0 with running := true, generators := [r0.1, r1.1, r2.1], n := 3,
                          t := 3 / 100 }, r2.2)) ∧
      (1 / 100 : ℚ) ≠ 0 ∧ (2 / 100 : ℚ) ≠ 0 := by
  obtain ⟨g0, g1, g2, hinit, _, _, _⟩ := Model.initSimulation_spec
  refine ⟨_, g0, g1, g2, hinit, rfl, rfl, ?_, by norm_num, by norm_num⟩
  rw [Model.timeStep_three lm _ rng g0 g1 g2 rfl rfl rfl]
  simp only [Model.startSimulation]
  have t1 : ((((0 : Int) + 1 : Int) : ℚ) * (1 / 100)) = 1 / 100 := by norm_num
  have t2 : ((((0 : Int) + 1 + 1 : Int) : ℚ) * (1 / 100)) = 2 / 100 := by norm_num
  have t3 : ((((0 : Int) + 1 + 1 + 1 : Int) : ℚ) * (1 / 100)) = 3 / 100 := by norm_num
  rw [t1, t2, t3]
  rfl

namespace ParticleGenerator

/-- What a pass of `generateParticles` inside the window does to the slots of a pool
that satisfies the invariant: active slots are untouched; every slot afterwards is
either as before or a fresh spawn stamped `t`, the `j`-th of the pass, with the lifespan
that `gauss` samples from draw `4 j + 3` of the pass; and when at least one particle is
due and one slot is free, the first spawn is there. -/
theorem generateParticles_slots (m : Libm) (t h : ℚ) (g : ParticleGenerator) (rng : Rng)
    (hon : g.shouldGenerate t = true) (inv : ParticleList.PoolInv g.pl) (hv : rng.Valid) :
    ∃ pl', g.generateParticles m t h rng =
        some ({ g with f := (emissionCount g.generationRate h g.f).2, pl := pl' },
          Rng.mk rng.draw (rng.next +
            4 * min (emissionCount g.generationRate h g.f).1.toNat g.pl.inactiveCount.toNat)) ∧
      ParticleList.PoolInv pl' ∧ pl'.numParticles = g.pl.numParticles ∧
      pl'.activeCount = g.pl.activeCount +
        min (emissionCount g.generationRate h g.f).1.toNat g.pl.inactiveCount.toNat ∧
      (∀ (i : Int) (p : Particle), readAt g.pl.particles i = some p → p.isActive = true →
        readAt pl'.particles i = some p) ∧
      (∀ p' ∈ pl'.particles, p' ∈ g.pl.particles ∨
        (p'.isActive = true ∧ p'.timestamp = t ∧
          ∃ (j : Nat) (l : ℚ),
            j < min (emissionCount g.generationRate h g.f).1.toNat g.pl.inactiveCount.toNat ∧
            gaussOf g.meanLifespan (g.lifespanRange / 3) (rng.draw (rng.next + 4 * j + 3))
              = some l ∧
            p'.lifespan = l)) ∧
      (0 < min (emissionCount g.generationRate h g.f).1.toNat g.pl.inactiveCount.toNat →
        ∃ i p' l, readAt pl'.particles i = some p' ∧ p'.isActive = true ∧ p'.timestamp = t ∧
          gaussOf g.meanLifespan (g.lifespanRange / 3) (rng.draw (rng.next + 3)) = some l ∧
          p'.lifespan = l) := by
  obtain ⟨pl', h1, h2, h3, h4, h5, h6, h7⟩ :=
    spawnLoop_spec m g t (emissionCount g.generationRate h g.f).1.toNat g.pl rng inv hv
  have hfree : ∀ j : Nat,
      j < min (emissionCount g.generationRate h g.f).1.toNat g.pl.inactiveCount.toNat →
      ∀ idx, readAt g.pl.inactiveStack (g.pl.inactiveCount - 1 - j) = some idx →
        idx ∈ g.pl.freeList := by
    intro j hj idx a1
    obtain ⟨c0, _, cget⟩ := readAt_eq_some a1
    unfold ParticleList.freeList
    rw [List.mem_iff_getElem?]
    refine ⟨(g.pl.inactiveCount - 1 - j).toNat, ?_⟩
    rw [List.getElem?_take_of_lt (by omega)]
    exact cget
  refine ⟨pl', ?_, h2, h3, ?_, ?_, ?_, ?_⟩
  · rw [generateParticles_on m t h g rng hon, h1]
    rfl
  · have c1 := inv.count_eq
    have c2 := h2.count_eq
    rw [h3, h5] at c2
    omega
  · intro i p hp hact
    rw [h7 i, hp]
    intro j hj hcontra
    obtain ⟨q, hq, hqa⟩ := (inv.mem_iff i).mp (hfree j hj i hcontra)
    rw [hp] at hq
    cases hq
    rw [hact] at hqa
    cases hqa
  · intro p' hp'
    obtain ⟨i, hi⟩ := (mem_iff_readAt _ _).mp hp'
    by_cases hex : ∃ j : Nat,
        j < min (emissionCount g.generationRate h g.f).1.toNat g.pl.inactiveCount.toNat ∧
        readAt g.pl.inactiveStack (g.pl.inactiveCount - 1 - j) = some i
    · obtain ⟨j, hj, hji⟩ := hex
      obtain ⟨idx, s, l, p, a1, _, a3, _, a5⟩ := h6 j hj
      rw [hji] at a1
      cases a1
      rw [hi] at a5
      cases a5
      exact Or.inr ⟨rfl, rfl, j, l, hj, a3, rfl⟩
    · left
      rw [mem_iff_readAt]
      refine ⟨i, ?_⟩
      rw [← h7 i (fun j hj hc => hex ⟨j, hj, hc⟩)]
      exact hi
  · intro hpos
    obtain ⟨idx, s, l, p, _, _, a3, _, a5⟩ := h6 0 hpos
    exact ⟨idx, _, l, a5, rfl, rfl, by simpa using a3, rfl⟩

end ParticleGenerator

theorem countP_cull_le (t : ℚ) (ps : List Particle) :
    List.countP (fun p => p.isActive) (ps.map (ParticleList.cullSlot t)) ≤
      List.countP (fun p => p.isActive) ps := by
  rw [List.countP_map]
  apply List.countP_mono_left
  intro p _ hp
  exact ((ParticleList.cullSlot_isActive t p).mp hp).1

theorem countP_cull_lt (t : ℚ) (ps : List Particle) (p : Particle) (hp : p ∈ ps)
    (hact : p.isActive = true) (hdead : p.lifespan ≤ t - p.timestamp) :
    List.countP (fun p => p.isActive) (ps.map (ParticleList.cullSlot t)) + 1 ≤
      List.countP (fun p => p.isActive) ps := by
  induction ps with
  | nil => cases hp
  | cons q qs ih =>
    simp only [List.map_cons, List.countP_cons]
    rcases List.mem_cons.mp hp with rfl | hin
    · have hk : (ParticleList.cullSlot t p).isActive = false := by
        rw [ParticleList.cullSlot_inactive]
        exact Or.inr ⟨hact, (ParticleList.shouldKill_iff p t).mpr hdead⟩
      have := countP_cull_le t qs
      simp only [hk, hact, if_true, Bool.false_eq_true, if_false]
      omega
    · have h1 := ih hin
      have h2 : (if (ParticleList.cullSlot t q).isActive = true then 1 else 0) ≤
          (if q.isActive = true then 1 else 0) := by
        by_cases hq : (ParticleList.cullSlot t q).isActive = true
        · have := ((ParticleList.cullSlot_isActive t q).mp hq).1
          simp [hq, this]
        · simp [hq]
      omega

theorem countP_round (drag h : ℚ) (ps : List Particle) :
    List.countP (fun p => p.isActive) (ps.map (roundSlot drag h)) =
      List.countP (fun p => p.isActive) ps := by
  rw [List.countP_map]
  congr 1
  funext p
  exact roundSlot_isActive drag h p

theorem cullSlot_keep (t : ℚ) (p : Particle) (h : p.isActive = true → t - p.timestamp < p.lifespan) :
    ParticleList.cullSlot t p = p := by
  unfold ParticleList.cullSlot
  rw [if_neg]
  rintro ⟨ha, hk⟩
  have := (ParticleList.shouldKill_iff p t).mp hk
  exact absurd (h ha) (not_lt.mpr this)

theorem emissionCount_thousand :
    ParticleGenerator.emissionCount 1000 (1 / 100) 0 = (10, 0) := by
  have hfloor : ⌊((1000 : Int) : ℚ) * (1 / 100)⌋ = 10 := by
    rw [Int.floor_eq_iff]
    norm_num
  unfold ParticleGenerator.emissionCount
  simp only [hfloor]
  norm_num

/-- One `timeStep` of the end-to-end run: a running model with the single emitter of
rate 1000 and window `[0, 1)`, step `0.01`, at step `k < 100`, with at most `10 k`
active slots in a pool of capacity 2000.  The step returns; it spawns exactly 10
particles stamped `k / 100`, culls at `k / 100`, makes one round of forces and
integration, and leaves the carry at 0. -/
theorem endToEnd_step (lm : Libm) (k : Nat) (hk : k < 100) (md : Model) (rng : Rng)
    (g : ParticleGenerator) (hrun : md.running = true) (hn1 : md.numGenerators = 1)
    (hg : md.generators = [g]) (hh : md.h = 1 / 100) (hn : md.n = k)
    (ht : md.t = (k : ℚ) / 100) (hrate : g.generationRate = 1000) (hs : g.timeStart = 0)
    (he : g.timeStop = 1) (hf : g.f = 0) (inv : ParticleList.PoolInv g.pl)
    (hcap : g.pl.numParticles = 2000) (hact : g.pl.activeCount ≤ 10 * k) (hv : rng.Valid) :
    ∃ plS pl3,
      Model.timeStep lm (md, rng) =
        some ({ md with generators := [{ g with f := 0, pl := pl3 }], n := ((k + 1 : Nat) : Int),
                        t := ((k + 1 : Nat) : ℚ) / 100 },
          Rng.mk rng.draw (rng.next + 40)) ∧
      ParticleList.PoolInv plS ∧ ParticleList.PoolInv pl3 ∧ pl3.numParticles = 2000 ∧
      plS.activeCount = g.pl.activeCount + 10 ∧
      pl3.particles =
        (plS.particles.map (ParticleList.cullSlot ((k : ℚ) / 100))).map
          (roundSlot md.drag (1 / 100)) ∧
      (∀ (i : Int) (p : Particle), readAt g.pl.particles i = some p → p.isActive = true →
        readAt plS.particles i = some p) ∧
      (∀ p' ∈ plS.particles, p' ∈ g.pl.particles ∨
        (p'.isActive = true ∧ p'.timestamp = (k : ℚ) / 100 ∧
          ∃ (i : Nat) (l : ℚ), i < 10 ∧
            ParticleGenerator.gaussOf g.meanLifespan (g.lifespanRange / 3)
              (rng.draw (rng.next + 4 * i + 3)) = some l ∧ p'.lifespan = l)) ∧
      (∃ i p' l, readAt plS.particles i = some p' ∧ p'.isActive = true ∧
        p'.timestamp = (k : ℚ) / 100 ∧
        ParticleGenerator.gaussOf g.meanLifespan (g.lifespanRange / 3)
          (rng.draw (rng.next + 3)) = some l ∧ p'.lifespan = l) := by
  have hon : g.shouldGenerate ((k : ℚ) / 100) = true := by
    have hk' : (k : ℚ) < 100 := by exact_mod_cast hk
    have hk0 : (0 : ℚ) ≤ (k : ℚ) := Nat.cast_nonneg k
    apply shouldGenerate_first
    · rw [hs, he]; linarith
    · rw [hs]; positivity
    · rw [he]; linarith
  have hcount : ParticleGenerator.emissionCount g.generationRate (1 / 100) g.f = (10, 0) := by
    rw [hrate, hf]
    exact emissionCount_thousand
  have hic : (10 : Nat) ≤ g.pl.inactiveCount.toNat := by
    have := inv.count_eq
    have := inv.count_nonneg
    omega
  have hmin : min (ParticleGenerator.emissionCount g.generationRate (1 / 100) g.f).1.toNat
      g.pl.inactiveCount.toNat = 10 := by
    rw [hcount]
    show min 10 g.pl.inactiveCount.toNat = 10
    omega
  obtain ⟨plS, s1, s2, s3, s4, s5, s6, s7⟩ :=
    ParticleGenerator.generateParticles_slots lm ((k : ℚ) / 100) (1 / 100) g rng hon inv hv
  rw [hmin] at s1 s4 s6 s7
  rw [hcount] at s1
  obtain ⟨g1, rng1, pl3, e1, e2, _, e4, _, e6, e7⟩ :=
    Model.emitterPass_spec lm ((k : ℚ) / 100) (1 / 100) md.drag g rng inv hv
  rw [s1] at e1
  have hg1 : g1 = { g with f := 0, pl := plS } := by
    have := Option.some.inj e1
    exact (congrArg Prod.fst this).symm
  have hr1 : rng1 = Rng.mk rng.draw (rng.next + 40) := by
    have := Option.some.inj e1
    exact (congrArg Prod.snd this).symm
  subst hg1 hr1
  refine ⟨plS, pl3, ?_, s2, e4, by rw [e6, hcap], s4, e7, s5, s6, s7 (by norm_num)⟩
  rw [Model.timeStep_single lm md rng g hrun hn1 hg, ht, hh, e2, hn]
  simp only [Option.map_some']
  congr 3
  push_cast
  ring

namespace Model

/-- The end-to-end run advances by one step: from the state after `j < 100` steps
`timeStep` returns the state after `j + 1` steps.  The intermediate pool `plS` (after
the spawn pass, before the cull) has 10 more active slots than before, keeps every
slot that was active, and holds otherwise only fresh spawns stamped `j / 100`, whose
lifespans are sampled from the draws `40 j + 4 i + 3`, `i < 10`, of the stream. -/
theorem endToEnd_next (lm : Libm) (g : ParticleGenerator) (rng : Rng) (hv : rng.Valid)
    (hrate : g.generationRate = 1000) (hs : g.timeStart = 0) (he : g.timeStop = 1)
    (j : Nat) (hj : j < 100) (pl : ParticleList) (s : Model × Rng)
    (hst : EndToEndState g rng j pl s) :
    ∃ (plS pl3 : ParticleList) (s' : Model × Rng), timeStep lm s = some s' ∧
      EndToEndState g rng (j + 1) pl3 s' ∧
      plS.activeCount = pl.activeCount + 10 ∧
      pl3.particles =
        (plS.particles.map (ParticleList.cullSlot ((j : ℚ) / 100))).map
          (roundSlot s.1.drag (1 / 100)) ∧
      (∀ (i : Int) (p : Particle), readAt pl.particles i = some p → p.isActive = true →
        readAt plS.particles i = some p) ∧
      (∀ p' ∈ plS.particles, p' ∈ pl.particles ∨
        (p'.isActive = true ∧ p'.timestamp = (j : ℚ) / 100 ∧
          ∃ (i : Nat) (l : ℚ), i < 10 ∧
            ParticleGenerator.gaussOf g.meanLifespan (g.lifespanRange / 3)
              (rng.draw (rng.next + 40 * j + 4 * i + 3)) = some l ∧ p'.lifespan = l)) ∧
      (∃ i p' l, readAt plS.particles i = some p' ∧ p'.isActive = true ∧
        p'.timestamp = (j : ℚ) / 100 ∧
        ParticleGenerator.gaussOf g.meanLifespan (g.lifespanRange / 3)
          (rng.draw (rng.next + 40 * j + 3)) = some l ∧ p'.lifespan = l) := by
  obtain ⟨md, r⟩ := s
  obtain ⟨a1, a2, a3, a4, a5, a6, a7, a8, a9, a10⟩ := hst
  simp only at a1 a2 a3 a4 a5 a6 a7
  subst a7
  obtain ⟨plS, pl3, b1, b2, b3, b4, b5, b6, b7, b8, b9⟩ :=
    endToEnd_step lm j hj md (Rng.mk rng.draw (rng.next + 40 * j))
      { g with f := 0, pl := pl } a1 a2 a6 a3 a4 a5 hrate hs he rfl a8 a9 a10 hv
  refine ⟨plS, pl3, _, b1, ⟨a1, a2, a3, rfl, rfl, rfl, ?_, b3, b4, ?_⟩, b5, b6, b7, b8, b9⟩
  · show Rng.mk rng.draw (rng.next + 40 * j + 40) = Rng.mk rng.draw (rng.next + 40 * (j + 1))
    congr 1
  · show List.countP _ pl3.particles ≤ _
    rw [b6, countP_round]
    have h1 := countP_cull_le ((j : ℚ) / 100) plS.particles
    have h2 : List.countP (fun p => p.isActive) plS.particles = pl.activeCount + 10 := b5
    have h3 : pl.activeCount ≤ 10 * j := a10
    omega

theorem timeSteps_succ (lm : Libm) (k : Nat) (s : Model × Rng) :
    timeSteps lm (k + 1) s = (timeStep lm s).bind (timeSteps lm k) := rfl

/-- The end-to-end run for every stream of draws: from the state after `j` steps the
next `k` steps (`j + k ≤ 100`) all return and reach the state after `j + k` steps.
When each of the 1000 lifespans of the run, sampled by `gauss` from the draws
`4 i + 3` (`i < 1000`) of the stream, exceeds `0.99` and so far no particle was culled,
none is culled in these steps either. -/
theorem endToEnd_run (lm : Libm) (g : ParticleGenerator) (rng : Rng) (hv : rng.Valid)
    (hrate : g.generationRate = 1000) (hs : g.timeStart = 0) (he : g.timeStop = 1)
    (k : Nat) :
    ∀ (j : Nat) (pl : ParticleList) (s : Model × Rng), j + k ≤ 100 →
      EndToEndState g rng j pl s →
      ∃ pl' s', timeSteps lm k s = some s' ∧ EndToEndState g rng (j + k) pl' s' ∧
        ((∀ (i : Nat) (l : ℚ), i < 1000 →
            ParticleGenerator.gaussOf g.meanLifespan (g.lifespanRange / 3)
              (rng.draw (rng.next + 4 * i + 3)) = some l → 99 / 100 < l) →
          (pl.activeCount = 10 * j ∧
            ∀ p ∈ pl.particles, p.isActive = true → 99 / 100 < p.lifespan ∧ 0 ≤ p.timestamp) →
          (pl'.activeCount = 10 * (j + k) ∧
            ∀ p ∈ pl'.particles, p.isActive = true →
              99 / 100 < p.lifespan ∧ 0 ≤ p.timestamp)) := by
  induction k with
  | zero =>
    intro j pl s _ hst
    exact ⟨pl, s, rfl, hst, fun _ h => h⟩
  | succ k ih =>
    intro j pl s hjk hst
    obtain ⟨plS, pl3, s1, c1, c2, c3, c4, c5, c6, _⟩ :=
      endToEnd_next lm g rng hv hrate hs he j (by omega) pl s hst
    obtain ⟨pl', s', d1, d2, d3⟩ := ih (j + 1) pl3 s1 (by omega) c2
    have e : j + 1 + k = j + (k + 1) := by omega
    rw [e] at d2 d3
    refine ⟨pl', s', ?_, d2, ?_⟩
    · rw [timeSteps_succ, c1]
      exact d1
    · intro hL hpl
      apply d3 hL
      obtain ⟨hcnt, hslots⟩ := hpl
      have hj' : (j : ℚ) ≤ 99 := by
        have : j ≤ 99 := by omega
        exact_mod_cast this
      have hj0 : (0 : ℚ) ≤ (j : ℚ) := Nat.cast_nonneg j
      -- every active slot after the spawn pass lives long enough
      have hS : ∀ p ∈ plS.particles, p.isActive = true →
          99 / 100 < p.lifespan ∧ 0 ≤ p.timestamp := by
        intro p hp hact
        rcases c6 p hp with hold | ⟨_, hts, i, l, hi, hl, hpl⟩
        · exact hslots p hold hact
        · have hidx : rng.next + 40 * j + 4 * i + 3 = rng.next + 4 * (10 * j + i) + 3 := by
            omega
          rw [hidx] at hl
          refine ⟨by rw [hpl]; exact hL (10 * j + i) l (by omega) hl, ?_⟩
          rw [hts]
          positivity
      have hkeep : plS.particles.map (ParticleList.cullSlot ((j : ℚ) / 100)) = plS.particles := by
        conv_rhs => rw [← List.map_id plS.particles]
        apply List.map_congr_left
        intro p hp
        apply cullSlot_keep
        intro hact
        obtain ⟨h1, h2⟩ := hS p hp hact
        linarith
      rw [hkeep] at c4
      constructor
      · show List.countP _ pl3.particles = _
        rw [c4, countP_round]
        have : List.countP (fun p => p.isActive) plS.particles = pl.activeCount + 10 := c3
        omega
      · intro p hp hact
        rw [c4, List.mem_map] at hp
        obtain ⟨q, hq, rfl⟩ := hp
        rw [roundSlot_isActive] at hact
        obtain ⟨h1, h2⟩ := roundSlot_lifespan s.1.drag (1 / 100) q
        rw [h1, h2]
        exact hS q hq hact

end Model

theorem endToEndGenerator_new :
    ParticleGenerator.new 2000 ⟨0, 0, 0⟩ 0 1 1000 = some endToEndGenerator := by
  unfold ParticleGenerator.new
  rw [ParticleList.new_eq 2000 (by norm_num)]
  rfl

theorem endToEndPool_inv : ParticleList.PoolInv endToEndPool := by
  apply ParticleList.poolInv_reset 2000 (by norm_num)
  · rw [List.length_replicate]
    exact Int.toNat_of_nonneg (by norm_num)
  · intro p hp
    rw [List.eq_of_mem_replicate hp]
    rfl

theorem gaussOf_short_life :
    ParticleGenerator.gaussOf 1 (3 / 10 / 3) (49 / 100) = some (3447 / 5000) := by
  have hu : (if (49 / 100 : ℚ) ≥ 1 / 2 then (49 / 100 : ℚ) - 1 / 2 else 49 / 100) = 49 / 100 :=
    if_neg (by norm_num)
  have hm : (if (49 / 100 : ℚ) ≥ 1 / 2 then false else true) = true := if_neg (by norm_num)
  have hidx : truncQ (40 * (49 / 100)) = 19 := by
    unfold truncQ
    rw [if_pos (by norm_num), Int.floor_eq_iff]
    norm_num
  unfold ParticleGenerator.gaussOf
  simp only [hu, hm, hidx]
  rw [if_neg (by decide)]
  simp [readAt, gaussTbl]
  norm_num

theorem gaussOf_mean_life :
    ParticleGenerator.gaussOf 1 (3 / 10 / 3) (1 / 2) = some 1 := by
  have hu : (if (1 / 2 : ℚ) ≥ 1 / 2 then (1 / 2 : ℚ) - 1 / 2 else 1 / 2) = 0 := by
    rw [if_pos (le_refl _)]
    norm_num
  have hm : (if (1 / 2 : ℚ) ≥ 1 / 2 then false else true) = false := if_pos (le_refl _)
  have hidx : truncQ (40 * 0) = 0 := by
    unfold truncQ
    rw [if_pos (by norm_num), Int.floor_eq_iff]
    norm_num
  unfold ParticleGenerator.gaussOf
  simp only [hu, hm, hidx]
  rw [if_neg (by decide)]
  simp [readAt, gaussTbl]

namespace Model

/-- The end-to-end run when every sampled lifespan is the same `L` with
`0.68 < L ≤ 0.69`: a particle spawned in step 0 is still active after each of the
steps 0 .. 68 and is culled in step 69, so from step 70 on the pool has fewer than
`10 j` active slots. -/
theorem endToEnd_culls_run (lm : Libm) (g : ParticleGenerator) (rng : Rng) (hv : rng.Valid)
    (hrate : g.generationRate = 1000) (hs : g.timeStart = 0) (he : g.timeStop = 1)
    (L : ℚ) (hL1 : 68 / 100 < L) (hL2 : L ≤ 69 / 100)
    (hlife : ∀ d, ParticleGenerator.gaussOf g.meanLifespan (g.lifespanRange / 3) (rng.draw d)
      = some L)
    (k : Nat) :
    ∀ (j : Nat) (pl : ParticleList) (s : Model × Rng), j + k ≤ 100 →
      EndToEndState g rng j pl s →
      (1 ≤ j → j ≤ 69 → ∃ (i : Int) (p : Particle), readAt pl.particles i = some p ∧
        p.isActive = true ∧ p.timestamp = 0 ∧ p.lifespan = L) →
      (70 ≤ j → pl.activeCount + 1 ≤ 10 * j) →
      ∃ pl' s', timeSteps lm k s = some s' ∧ EndToEndState g rng (j + k) pl' s' ∧
        (1 ≤ j + k → j + k ≤ 69 → ∃ (i : Int) (p : Particle),
          readAt pl'.particles i = some p ∧
          p.isActive = true ∧ p.timestamp = 0 ∧ p.lifespan = L) ∧
        (70 ≤ j + k → pl'.activeCount + 1 ≤ 10 * (j + k)) := by
  induction k with
  | zero =>
    intro j pl s _ hst h1 h2
    exact ⟨pl, s, rfl, hst, h1, h2⟩
  | succ k ih =>
    intro j pl s hjk hst h1 h2
    obtain ⟨plS, pl3, s1, c1, c2, c3, c4, c5, c6, c7⟩ :=
      endToEnd_next lm g rng hv hrate hs he j (by omega) pl s hst
    have hcntS : List.countP (fun p => p.isActive) plS.particles = pl.activeCount + 10 := c3
    have hbound : pl.activeCount ≤ 10 * j := hst.2.2.2.2.2.2.2.2.2
    -- a slot that survives the cull at `j / 100` is still there after the step
    have hsurvive : ∀ (i : Int) (p : Particle), readAt plS.particles i = some p →
        p.isActive = true → (j : ℚ) / 100 - p.timestamp < p.lifespan →
        ∃ q, readAt pl3.particles i = some q ∧ q.isActive = true ∧
          q.timestamp = p.timestamp ∧ q.lifespan = p.lifespan := by
      intro i p hp hact hlt
      refine ⟨roundSlot s.1.drag (1 / 100) p, ?_, ?_, (roundSlot_lifespan _ _ p).2,
        (roundSlot_lifespan _ _ p).1⟩
      · rw [c4, ParticleList.readAt_map, ParticleList.readAt_map, hp]
        simp only [Option.map_some']
        rw [cullSlot_keep _ p (fun _ => hlt)]
      · rw [roundSlot_isActive]
        exact hact
    have hnext1 : 1 ≤ j + 1 → j + 1 ≤ 69 → ∃ (i : Int) (p : Particle),
        readAt pl3.particles i = some p ∧
        p.isActive = true ∧ p.timestamp = 0 ∧ p.lifespan = L := by
      intro _ hle
      by_cases hj0 : j = 0
      · -- step 0 spawns the particle
        subst hj0
        obtain ⟨i, p', l, d1, d2, d3, d4, d5⟩ := c7
        rw [hlife] at d4
        cases d4
        have hts : p'.timestamp = 0 := by rw [d3]; norm_num
        obtain ⟨q, e1, e2, e3, e4⟩ := hsurvive i p' d1 d2 (by rw [hts, d5]; norm_num; linarith)
        exact ⟨i, q, e1, e2, by rw [e3, hts], by rw [e4, d5]⟩
      · -- steps 1 .. 68 keep it
        obtain ⟨i, p, d1, d2, d3, d4⟩ := h1 (by omega) (by omega)
        have hjq : (j : ℚ) ≤ 68 := by
          have : j ≤ 68 := by omega
          exact_mod_cast this
        obtain ⟨q, e1, e2, e3, e4⟩ := hsurvive i p (c5 i p d1 d2) d2
          (by rw [d3, d4]; linarith)
        exact ⟨i, q, e1, e2, by rw [e3, d3], by rw [e4, d4]⟩
    have hnext2 : 70 ≤ j + 1 → pl3.activeCount + 1 ≤ 10 * (j + 1) := by
      intro hge
      show List.countP _ pl3.particles + 1 ≤ _
      rw [c4, countP_round]
      by_cases hj69 : j = 69
      · -- step 69 culls the particle of step 0
        subst hj69
        obtain ⟨i, p, d1, d2, d3, d4⟩ := h1 (by omega) (by omega)
        have hin : p ∈ plS.particles := (mem_iff_readAt _ _).mpr ⟨i, c5 i p d1 d2⟩
        have := countP_cull_lt (((69 : Nat) : ℚ) / 100) plS.particles p hin d2
          (by rw [d3, d4]; norm_num; linarith)
        omega
      · have := countP_cull_le ((j : ℚ) / 100) plS.particles
        have := h2 (by omega)
        omega
    obtain ⟨pl', s', d1, d2, d3, d4⟩ := ih (j + 1) pl3 s1 (by omega) c2 hnext1 hnext2
    have e : j + 1 + k = j + (k + 1) := by omega
    rw [e] at d2 d3 d4
    exact ⟨pl', s', by rw [timeSteps_succ, c1]; exact d1, d2, d3, d4⟩

/-- The start of the end-to-end run is the state after 0 steps. -/
theorem endToEnd_start (g : ParticleGenerator) (rng : Rng) (drag : ℚ) (hf : g.f = 0)
    (inv : ParticleList.PoolInv g.pl) (hcap : g.pl.numParticles = 2000)
    (hfree : g.pl.inactiveCount = 2000) :
    EndToEndState g rng 0 g.pl ((single g (1 / 100) drag).startSimulation, rng) ∧
      g.pl.activeCount = 0 := by
  have hzero : g.pl.activeCount = 0 := by
    have := inv.count_eq
    omega
  have hg : g = { g with f := 0, pl := g.pl } := by
    cases g
    simp only at hf
    subst hf
    rfl
  refine ⟨⟨rfl, rfl, rfl, rfl, by norm_num [startSimulation, single], ?_, rfl, inv, hcap,
    by omega⟩, hzero⟩
  show [g] = _
  rw [← hg]

end Model

/-! ## Model: the end-to-end run -/

/-- C14, as stated, fails.  The emitter is the one `ParticleGenerator(2000, (0,0,0), 0,
1, 1000)` constructs (rate 1000, window `[0, 1)`, capacity 2000, `f = 0`), in a model
of its own, started and stepped 100 times with `h = 0.01`.  With every draw of the
random stream equal to `0.49`, every sampled lifespan is `0.6894`, so the particles
spawned in step 0 are culled in step 69: the run ends with fewer than 1000 active
particles and with `inactiveCount` different from 1000. -/
theorem end_to_end_culls :
    ParticleGenerator.new 2000 ⟨0, 0, 0⟩ 0 1 1000 = some endToEndGenerator ∧
    (constRng (49 / 100)).Valid ∧
    ∃ md rng' g', Model.timeSteps flatLibm 100
        ((Model.single endToEndGenerator (1 / 100) (2 / 10)).startSimulation,
          constRng (49 / 100)) = some (md, rng') ∧
      md.generators = [g'] ∧ g'.pl.activeCount < 1000 ∧ g'.pl.inactiveCount ≠ 1000 := by
  have hv : (constRng (49 / 100)).Valid := constRng_valid _ (by norm_num) (by norm_num)
  refine ⟨endToEndGenerator_new, hv, ?_⟩
  obtain ⟨hst, _⟩ := Model.endToEnd_start endToEndGenerator (constRng (49 / 100)) (2 / 10) rfl
    endToEndPool_inv rfl rfl
  obtain ⟨pl', s', h1, h2, _, h4⟩ :=
    Model.endToEnd_culls_run flatLibm endToEndGenerator (constRng (49 / 100)) hv rfl rfl rfl
      (3447 / 5000) (by norm_num) (by norm_num) (fun _ => gaussOf_short_life) 100 0
      endToEndGenerator.pl _ (by omega) hst (fun h _ => absurd h (by omega))
      (fun h => absurd h (by omega))
  obtain ⟨_, _, _, _, _, a6, _, a8, a9, _⟩ := h2
  have hlt := h4 (by omega)
  have hcnt := a8.count_eq
  refine ⟨s'.1, s'.2, _, h1, a6, ?_, ?_⟩
  · show pl'.activeCount < 1000
    omega
  · show pl'.inactiveCount ≠ 1000
    omega

/-- C14 (amended).  A simulation holding one emitter with `generationRate = 1000`,
window `[0, 1)`, pool capacity 2000 (all slots free) and `f = 0`, started and stepped
100 times with `h = 0.01`, returns for every stream of draws in `[0, 1)` and ends
with `n = 100`, `t = 1`, `f = 0`, exactly 1000 spawns made (4000 draws consumed, none
dropped), the number of active slots plus `inactiveCount` equal to 2000 and at most
1000 active particles.  It ends with exactly 1000 active particles and
`inactiveCount = 1000` when every sampled lifespan exceeds `0.99`, that is each of the
1000 values that `gauss(meanLifespan, lifespanRange/3)` returns for the draws
`4 i + 3` (`i < 1000`) of the run, the fourth draw of each spawn; a particle whose
lifespan has elapsed is culled before the end. -/
theorem end_to_end (lm : Libm) (g : ParticleGenerator) (rng : Rng) (drag : ℚ)
    (hv : rng.Valid) (hrate : g.generationRate = 1000) (hs : g.timeStart = 0)
    (he : g.timeStop = 1) (hf : g.f = 0) (inv : ParticleList.PoolInv g.pl)
    (hcap : g.pl.numParticles = 2000) (hfree : g.pl.inactiveCount = 2000) :
    ∃ md rng' g', Model.timeSteps lm 100
        ((Model.single g (1 / 100) drag).startSimulation, rng) = some (md, rng') ∧
      md.generators = [g'] ∧ md.n = 100 ∧ md.t = 1 ∧ g'.f = 0 ∧
      rng'.draw = rng.draw ∧ rng'.next = rng.next + 4000 ∧
      (g'.pl.activeCount : Int) + g'.pl.inactiveCount = 2000 ∧
      g'.pl.activeCount ≤ 1000 ∧
      ((∀ (i : Nat) (l : ℚ), i < 1000 →
          ParticleGenerator.gaussOf g.meanLifespan (g.lifespanRange / 3)
            (rng.draw (rng.next + 4 * i + 3)) = some l → 99 / 100 < l) →
        g'.pl.activeCount = 1000 ∧ g'.pl.inactiveCount = 1000) := by
  obtain ⟨hst, hzero⟩ := Model.endToEnd_start g rng drag hf inv hcap hfree
  obtain ⟨pl', s', h1, h2, h3⟩ :=
    Model.endToEnd_run lm g rng hv hrate hs he 100 0 g.pl _ (by omega) hst
  obtain ⟨_, _, _, a4, a5, a6, a7, a8, a9, a10⟩ := h2
  have hcnt := a8.count_eq
  refine ⟨s'.1, s'.2, { g with f := 0, pl := pl' }, h1, a6, ?_, ?_, rfl, ?_, ?_, ?_, ?_, ?_⟩
  · rw [a4]; rfl
  · rw [a5]; norm_num
  · rw [a7]
  · rw [a7]
  · show (pl'.activeCount : Int) + pl'.inactiveCount = 2000
    omega
  · show pl'.activeCount ≤ 1000
    omega
  · intro hL
    have hinit : g.pl.activeCount = 10 * 0 ∧
        ∀ p ∈ g.pl.particles, p.isActive = true → 99 / 100 < p.lifespan ∧ 0 ≤ p.timestamp := by
      refine ⟨by omega, ?_⟩
      intro p hp hact
      have hz : List.countP (fun p => p.isActive) g.pl.particles = 0 := hzero
      rw [List.countP_eq_zero] at hz
      exact absurd hact (hz p hp)
    obtain ⟨b1, _⟩ := h3 hL hinit
    constructor
    · show pl'.activeCount = 1000
      omega
    · show pl'.inactiveCount = 1000
      omega

theorem mixedRng_valid : mixedRng.Valid := by
  intro k
  show (0 : ℚ) ≤ (if k % 4 = 3 then (1 / 2 : ℚ) else 3 / 10) ∧
    (if k % 4 = 3 then (1 / 2 : ℚ) else 3 / 10) < 1
  split <;> constructor <;> norm_num

theorem mixedRng_lifespans :
    ∀ (i : Nat) (l : ℚ), i < 1000 →
      ParticleGenerator.gaussOf endToEndGenerator.meanLifespan
        (endToEndGenerator.lifespanRange / 3) (mixedRng.draw (mixedRng.next + 4 * i + 3))
        = some l → 99 / 100 < l := by
  intro i l _ hl
  have hd : mixedRng.draw (mixedRng.next + 4 * i + 3) = 1 / 2 := by
    show (if (0 + 4 * i + 3) % 4 = 3 then (1 / 2 : ℚ) else 3 / 10) = 1 / 2
    rw [if_pos (by omega)]
  rw [hd] at hl
  have e : ParticleGenerator.gaussOf endToEndGenerator.meanLifespan
      (endToEndGenerator.lifespanRange / 3) (1 / 2) = some 1 := gaussOf_mean_life
  rw [e] at hl
  cases hl
  norm_num

theorem end_to_end_witness :
    mixedRng.Valid ∧ endToEndGenerator.generationRate = 1000 ∧
    endToEndGenerator.timeStart = 0 ∧ endToEndGenerator.timeStop = 1 ∧
    endToEndGenerator.f = 0 ∧ ParticleList.PoolInv endToEndGenerator.pl ∧
    endToEndGenerator.pl.numParticles = 2000 ∧ endToEndGenerator.pl.inactiveCount = 2000 ∧
    (∀ (i : Nat) (l : ℚ), i < 1000 →
      ParticleGenerator.gaussOf endToEndGenerator.meanLifespan
        (endToEndGenerator.lifespanRange / 3) (mixedRng.draw (mixedRng.next + 4 * i + 3))
        = some l → 99 / 100 < l) ∧
    ∃ md rng' g', Model.timeSteps flatLibm 100
        ((Model.single endToEndGenerator (1 / 100) (2 / 10)).startSimulation,
          mixedRng) = some (md, rng') ∧
      md.generators = [g'] ∧ md.n = 100 ∧ md.t = 1 ∧ g'.f = 0 ∧
      rng'.draw = mixedRng.draw ∧ rng'.next = mixedRng.next + 4000 ∧
      (g'.pl.activeCount : Int) + g'.pl.inactiveCount = 2000 ∧
      g'.pl.activeCount ≤ 1000 ∧
      ((∀ (i : Nat) (l : ℚ), i < 1000 →
          ParticleGenerator.gaussOf endToEndGenerator.meanLifespan
            (endToEndGenerator.lifespanRange / 3)
            (mixedRng.draw (mixedRng.next + 4 * i + 3)) = some l → 99 / 100 < l) →
        g'.pl.activeCount = 1000 ∧ g'.pl.inactiveCount = 1000) :=
  ⟨mixedRng_valid, rfl, rfl, rfl, rfl, endToEndPool_inv, rfl, rfl, mixedRng_lifespans,
    end_to_end flatLibm endToEndGenerator mixedRng (2 / 10) mixedRng_valid rfl rfl rfl rfl
      endToEndPool_inv rfl rfl⟩

/-! ## The uniform sampler -/

theorem tinyPool_inv : ParticleList.PoolInv tinyPool :=
  (ParticleList.fresh_poolInv tinyPool (Or.inl ⟨1, rfl⟩)).1

theorem gaussOf_negative_life :
    ParticleGenerator.gaussOf wideGenerator.meanLifespan (wideGenerator.lifespanRange / 3)
      (1 / 4) = some (-(674375 / 1000000)) := by
  have hidx : truncQ (40 * (1 / 4 : ℚ)) = 10 := by
    unfold truncQ
    rw [if_pos (by norm_num)]
    rw [Int.floor_eq_iff]
    norm_num
  have hu : ¬ ((1 / 4 : ℚ) ≥ 1 / 2) := by norm_num
  unfold ParticleGenerator.gaussOf
  simp only [hu, if_false, hidx]
  rw [if_neg (by decide)]
  simp [readAt, gaussTbl, wideGenerator, ParticleGenerator.setLifespanParams, demoGenerator]
  norm_num

namespace ParticleGenerator

theorem uniform_spec (min max : ℚ) (rng : Rng) :
    uniform min max rng =
      ((max - min) * rng.draw rng.next + min, Rng.mk rng.draw (rng.next + 1)) := rfl

theorem uniform_bounds (min max d : ℚ) (hlt : min < max) (h0 : 0 ≤ d) (h1 : d < 1) :
    min ≤ (max - min) * d + min ∧ (max - min) * d + min < max := by
  have hpos : 0 < max - min := by linarith
  constructor
  · have := mul_nonneg (le_of_lt hpos) h0
    linarith
  · have := mul_lt_mul_of_pos_left h1 hpos
    linarith

end ParticleGenerator

/-- C22 (uniform range).  For `min < max` and a draw `d` of `drand48` in `[0, 1)`,
`uniform(min, max)` consumes that one draw and returns `(max - min) * d + min`, which
lies in `[min, max)`. -/
theorem uniform_range (min max : ℚ) (rng : Rng) (hlt : min < max)
    (h0 : 0 ≤ rng.draw rng.next) (h1 : rng.draw rng.next < 1) :
    (ParticleGenerator.uniform min max rng).1 = (max - min) * rng.draw rng.next + min ∧
    (ParticleGenerator.uniform min max rng).2 = Rng.mk rng.draw (rng.next + 1) ∧
    min ≤ (ParticleGenerator.uniform min max rng).1 ∧
    (ParticleGenerator.uniform min max rng).1 < max := by
  rw [ParticleGenerator.uniform_spec]
  exact ⟨rfl, rfl, ParticleGenerator.uniform_bounds min max _ hlt h0 h1⟩

theorem uniform_range_witness :
    (ParticleGenerator.uniform (-1) 1 (constRng (3 / 4))).1 = (1 - (-1)) * (3 / 4) + (-1) ∧
    (ParticleGenerator.uniform (-1) 1 (constRng (3 / 4))).2 = Rng.mk (constRng (3 / 4)).draw 1 ∧
    (-1 : ℚ) ≤ (ParticleGenerator.uniform (-1) 1 (constRng (3 / 4))).1 ∧
    (ParticleGenerator.uniform (-1) 1 (constRng (3 / 4))).1 < 1 :=
  uniform_range (-1) 1 (constRng (3 / 4)) (by norm_num)
    (by show (0 : ℚ) ≤ 3 / 4; norm_num) (by show (3 / 4 : ℚ) < 1; norm_num)

/-! ## The sphere direction -/

namespace ParticleGenerator

theorem randSphereVec_spec (m : Libm) (rng : Rng) :
    randSphereVec m rng =
      (sphereOf m (rng.draw rng.next) (rng.draw (rng.next + 1)),
        Rng.mk rng.draw (rng.next + 2)) := rfl

/-- Over the rationals, with the functions of a `Libm`, the generic arithmetic of
`randSphereVec` is `sphereOf`. -/
theorem sphereOf_eq_sphereOfIn (m : Libm) (d1 d2 : ℚ) :
    sphereOf m d1 d2 =
      Vector3d.mk (sphereOfIn m.PI m.cos m.sin m.sqrt d1 d2).1
        (sphereOfIn m.PI m.cos m.sin m.sqrt d1 d2).2.1
        (sphereOfIn m.PI m.cos m.sin m.sqrt d1 d2).2.2 := rfl

end ParticleGenerator

/-- C23 (sphere direction).  The rational model of `randSphereVec` is the generic
arithmetic `sphereOfIn` at the two draws of the stream.  Over the reals, with the real
`cos`, `sin`, `sqrt` and `PI = π`, for every pair of draws `d1`, `d2` in `[0, 1)`: the
azimuth `theta = uniform(-π, π)` lies in `[-π, π)`, the height `y = uniform(-1, 1)` lies
in `[-1, 1)`, the vector is `(r cos theta, y, -r sin theta)` with `r = sqrt(1 - y^2)`,
its Euclidean length is exactly 1, and the spawn position `origin + radius * u` lies at
distance `|radius|` from the origin. -/
theorem sphere_direction (m : Libm) (rng : Rng) (d1 d2 theta y ox oy oz radius : ℝ)
    (h1 : 0 ≤ d1) (h1' : d1 < 1) (h2 : 0 ≤ d2) (h2' : d2 < 1)
    (htheta : theta = (Real.pi - (-Real.pi)) * d1 + (-Real.pi))
    (hy : y = (1 - (-1)) * d2 + (-1)) :
    (ParticleGenerator.randSphereVec m rng).1 =
      Vector3d.mk
        (ParticleGenerator.sphereOfIn m.PI m.cos m.sin m.sqrt (rng.draw rng.next)
          (rng.draw (rng.next + 1))).1
        (ParticleGenerator.sphereOfIn m.PI m.cos m.sin m.sqrt (rng.draw rng.next)
          (rng.draw (rng.next + 1))).2.1
        (ParticleGenerator.sphereOfIn m.PI m.cos m.sin m.sqrt (rng.draw rng.next)
          (rng.draw (rng.next + 1))).2.2 ∧
    -Real.pi ≤ theta ∧ theta < Real.pi ∧ -1 ≤ y ∧ y < 1 ∧
    ParticleGenerator.sphereOfIn Real.pi Real.cos Real.sin Real.sqrt d1 d2 =
      (Real.sqrt (1 - y ^ 2) * Real.cos theta, y, -Real.sqrt (1 - y ^ 2) * Real.sin theta) ∧
    Real.sqrt
      ((ParticleGenerator.sphereOfIn Real.pi Real.cos Real.sin Real.sqrt d1 d2).1 ^ 2 +
        (ParticleGenerator.sphereOfIn Real.pi Real.cos Real.sin Real.sqrt d1 d2).2.1 ^ 2 +
        (ParticleGenerator.sphereOfIn Real.pi Real.cos Real.sin Real.sqrt d1 d2).2.2 ^ 2) = 1 ∧
    Real.sqrt
      ((ox + radius *
          (ParticleGenerator.sphereOfIn Real.pi Real.cos Real.sin Real.sqrt d1 d2).1 - ox) ^ 2 +
        (oy + radius *
          (ParticleGenerator.sphereOfIn Real.pi Real.cos Real.sin Real.sqrt d1 d2).2.1 - oy) ^ 2 +
        (oz + radius *
          (ParticleGenerator.sphereOfIn Real.pi Real.cos Real.sin Real.sqrt d1 d2).2.2 - oz) ^ 2)
      = |radius| := by
  have hpi := Real.pi_pos
  have hret : ParticleGenerator.sphereOfIn Real.pi Real.cos Real.sin Real.sqrt d1 d2 =
      (Real.sqrt (1 - y ^ 2) * Real.cos theta, y, -Real.sqrt (1 - y ^ 2) * Real.sin theta) := by
    rw [htheta, hy]
    rfl
  have hy0 : -1 ≤ y := by rw [hy]; linarith
  have hy1 : y < 1 := by rw [hy]; linarith
  have hrad : 0 ≤ 1 - y ^ 2 := by nlinarith
  have hsq : Real.sqrt (1 - y ^ 2) ^ 2 = 1 - y ^ 2 := Real.sq_sqrt hrad
  have hcs : Real.cos theta ^ 2 + Real.sin theta ^ 2 = 1 := Real.cos_sq_add_sin_sq theta
  have hnorm : (Real.sqrt (1 - y ^ 2) * Real.cos theta) ^ 2 + y ^ 2 +
      (-Real.sqrt (1 - y ^ 2) * Real.sin theta) ^ 2 = 1 := by
    have e : (Real.sqrt (1 - y ^ 2) * Real.cos theta) ^ 2 + y ^ 2 +
        (-Real.sqrt (1 - y ^ 2) * Real.sin theta) ^ 2 =
        Real.sqrt (1 - y ^ 2) ^ 2 * (Real.cos theta ^ 2 + Real.sin theta ^ 2) + y ^ 2 := by ring
    rw [e, hcs, hsq]
    ring
  refine ⟨ParticleGenerator.randSphereVec_spec m rng ▸ ParticleGenerator.sphereOf_eq_sphereOfIn m _ _,
    ?_, ?_, hy0, hy1, hret, ?_, ?_⟩
  · rw [htheta]
    nlinarith
  · rw [htheta]
    nlinarith
  · rw [hret]
    simp only
    rw [hnorm, Real.sqrt_one]
  · rw [hret]
    simp only
    have e : (ox + radius * (Real.sqrt (1 - y ^ 2) * Real.cos theta) - ox) ^ 2 +
        (oy + radius * y - oy) ^ 2 +
        (oz + radius * (-Real.sqrt (1 - y ^ 2) * Real.sin theta) - oz) ^ 2 =
        radius ^ 2 * ((Real.sqrt (1 - y ^ 2) * Real.cos theta) ^ 2 + y ^ 2 +
          (-Real.sqrt (1 - y ^ 2) * Real.sin theta) ^ 2) := by ring
    rw [e, hnorm, mul_one, Real.sqrt_sq_eq_abs]

theorem sphere_direction_witness :
    (ParticleGenerator.randSphereVec flatLibm (constRng (1 / 2))).1 =
      Vector3d.mk
        (ParticleGenerator.sphereOfIn flatLibm.PI flatLibm.cos flatLibm.sin flatLibm.sqrt
          ((constRng (1 / 2)).draw (constRng (1 / 2)).next)
          ((constRng (1 / 2)).draw ((constRng (1 / 2)).next + 1))).1
        (ParticleGenerator.sphereOfIn flatLibm.PI flatLibm.cos flatLibm.sin flatLibm.sqrt
          ((constRng (1 / 2)).draw (constRng (1 / 2)).next)
          ((constRng (1 / 2)).draw ((constRng (1 / 2)).next + 1))).2.1
        (ParticleGenerator.sphereOfIn flatLibm.PI flatLibm.cos flatLibm.sin flatLibm.sqrt
          ((constRng (1 / 2)).draw (constRng (1 / 2)).next)
          ((constRng (1 / 2)).draw ((constRng (1 / 2)).next + 1))).2.2 ∧
    -Real.pi ≤ -(Real.pi / 2) ∧ -(Real.pi / 2) < Real.pi ∧ -1 ≤ (1 / 2 : ℝ) ∧ (1 / 2 : ℝ) < 1 ∧
    ParticleGenerator.sphereOfIn Real.pi Real.cos Real.sin Real.sqrt (1 / 4) (3 / 4) =
      (Real.sqrt (1 - (1 / 2 : ℝ) ^ 2) * Real.cos (-(Real.pi / 2)), 1 / 2,
        -Real.sqrt (1 - (1 / 2 : ℝ) ^ 2) * Real.sin (-(Real.pi / 2))) ∧
    Real.sqrt
      ((ParticleGenerator.sphereOfIn Real.pi Real.cos Real.sin Real.sqrt (1 / 4) (3 / 4)).1 ^ 2 +
        (ParticleGenerator.sphereOfIn Real.pi Real.cos Real.sin Real.sqrt (1 / 4) (3 / 4)).2.1 ^ 2 +
        (ParticleGenerator.sphereOfIn Real.pi Real.cos Real.sin Real.sqrt (1 / 4) (3 / 4)).2.2 ^ 2)
      = 1 ∧
    Real.sqrt
      ((0 + 12 *
          (ParticleGenerator.sphereOfIn Real.pi Real.cos Real.sin Real.sqrt (1 / 4) (3 / 4)).1
            - 0) ^ 2 +
        (10 + 12 *
          (ParticleGenerator.sphereOfIn Real.pi Real.cos Real.sin Real.sqrt (1 / 4) (3 / 4)).2.1
            - 10) ^ 2 +
        (0 + 12 *
          (ParticleGenerator.sphereOfIn Real.pi Real.cos Real.sin Real.sqrt (1 / 4) (3 / 4)).2.2
            - 0) ^ 2)
      = |(12 : ℝ)| :=
  sphere_direction flatLibm (constRng (1 / 2)) (1 / 4) (3 / 4) (-(Real.pi / 2)) (1 / 2) 0 10 0 12
    (by norm_num) (by norm_num) (by norm_num) (by norm_num) (by ring) (by norm_num)

/-! ## The Gaussian sampler -/

/-- The table of `gauss` starts at 0, increases strictly and ends at 3.87. -/
theorem gaussTbl_increasing (i : Nat) (hi : i < 20) :
    0 ≤ gaussTbl.getD i 0 ∧ gaussTbl.getD i 0 < gaussTbl.getD (i + 1) 0 ∧
      gaussTbl.getD (i + 1) 0 ≤ 387 / 100 := by
  interval_cases i <;> norm_num [gaussTbl]

theorem readAt_getD (xs : List ℚ) (i : Int) (h0 : 0 ≤ i) (hlt : i.toNat < xs.length) :
    readAt xs i = some (xs.getD i.toNat 0) := by
  rw [readAt_of_lt xs i h0 hlt, List.getD_eq_getElem _ _ hlt]

namespace ParticleGenerator

/-- The half-interval position of a draw `u` in `[0, 1)` lies in `[0, 20)`, so the
table index of `gauss` is its floor and is at most 19. -/
theorem gauss_index (u : ℚ) (h0 : 0 ≤ u) (h1 : u < 1) :
    0 ≤ 40 * (if u < 1 / 2 then u else u - 1 / 2) ∧
    40 * (if u < 1 / 2 then u else u - 1 / 2) < 20 ∧
    0 ≤ ⌊40 * (if u < 1 / 2 then u else u - 1 / 2)⌋ ∧
    ⌊40 * (if u < 1 / 2 then u else u - 1 / 2)⌋ < 20 := by
  have hp : 0 ≤ 40 * (if u < 1 / 2 then u else u - 1 / 2) ∧
      40 * (if u < 1 / 2 then u else u - 1 / 2) < 20 := by
    split
    · constructor <;> linarith
    · rename_i hge
      have := not_lt.mp hge
      constructor <;> linarith
  refine ⟨hp.1, hp.2, Int.floor_nonneg.mpr hp.1, ?_⟩
  have : (⌊40 * (if u < 1 / 2 then u else u - 1 / 2)⌋ : ℚ) < 20 :=
    lt_of_le_of_lt (Int.floor_le _) hp.2
  exact_mod_cast this

/-- The interpolated table value of `gauss` for a draw in `[0, 1)` lies in `[0, 3.87)`. -/
theorem interpolate_bounds (p : ℚ) (h0 : 0 ≤ p) (h1 : p < 20) :
    0 ≤ interpolate gaussTbl p ∧ interpolate gaussTbl p < 387 / 100 := by
  have hf0 : 0 ≤ ⌊p⌋ := Int.floor_nonneg.mpr h0
  have hf1 : ⌊p⌋ < 20 := by
    have : (⌊p⌋ : ℚ) < 20 := lt_of_le_of_lt (Int.floor_le _) h1
    exact_mod_cast this
  obtain ⟨ta, tb, tc⟩ := gaussTbl_increasing ⌊p⌋.toNat (by omega)
  have hfr0 : 0 ≤ p - (⌊p⌋ : ℚ) := by linarith [Int.floor_le p]
  have hfr1 : p - (⌊p⌋ : ℚ) < 1 := by linarith [Int.lt_floor_add_one p]
  unfold interpolate
  have hd : 0 < gaussTbl.getD (⌊p⌋.toNat + 1) 0 - gaussTbl.getD ⌊p⌋.toNat 0 := by linarith
  constructor
  · have := mul_nonneg (le_of_lt hd) hfr0
    linarith
  · have := mul_lt_mul_of_pos_left hfr1 hd
    linarith

/-- The value of `gaussOf` for a draw in `[0, 1)`: the mean plus or minus `std` times
the interpolated table value. -/
theorem gaussOf_eq (mean std u : ℚ) (h0 : 0 ≤ u) (h1 : u < 1) :
    gaussOf mean std u = some (mean + (if u < 1 / 2 then -1 else 1) * std *
      interpolate gaussTbl (40 * (if u < 1 / 2 then u else u - 1 / 2))) := by
  obtain ⟨hp0, hp1, hi0, hi1⟩ := gauss_index u h0 h1
  have hsw : (if u ≥ 1 / 2 then u - 1 / 2 else u) = (if u < 1 / 2 then u else u - 1 / 2) := by
    by_cases hlt : u < 1 / 2
    · rw [if_pos hlt, if_neg (not_le.mpr hlt)]
    · rw [if_neg hlt, if_pos (not_lt.mp hlt)]
  have htr : truncQ (40 * (if u < 1 / 2 then u else u - 1 / 2)) =
      ⌊40 * (if u < 1 / 2 then u else u - 1 / 2)⌋ := by
    unfold truncQ
    rw [if_pos hp0]
  unfold gaussOf
  simp only [hsw, htr]
  generalize 40 * (if u < 1 / 2 then u else u - 1 / 2) = p at hp0 hp1 hi0 hi1
  have hne : ¬ (⌊p⌋ = 20) := by omega
  rw [if_neg hne, readAt_getD gaussTbl ⌊p⌋ hi0 (by rw [gaussTbl_length]; omega),
    readAt_getD gaussTbl (⌊p⌋ + 1) (by omega) (by rw [gaussTbl_length]; omega)]
  have e : (⌊p⌋ + 1).toNat = ⌊p⌋.toNat + 1 := by omega
  rw [e]
  simp only [Option.map_some']
  unfold interpolate
  by_cases hlt : u < 1 / 2
  · have hge : ¬ (u ≥ 1 / 2) := not_le.mpr hlt
    simp only [hlt, hge, if_true, if_false]
    congr 1
    simp
    ring
  · have hge : u ≥ 1 / 2 := not_lt.mp hlt
    simp only [hlt, hge, if_true, if_false]
    congr 1
    simp

/-- A negated spread mirrors the value of `gaussOf` about the mean. -/
theorem gaussOf_neg (mean std u : ℚ) :
    gaussOf mean (-std) u = (gaussOf mean std u).map fun a => 2 * mean - a := by
  unfold gaussOf
  simp only [Option.map_map]
  congr 1
  funext d
  simp only [Function.comp]
  ring

end ParticleGenerator

/-- C24 (structure of `gauss`).  Let `std >= 0` and let the draw `u` that `gauss` takes
from `drand48` be in `[0, 1)`.  Then `gauss(mean, std)` consumes that one draw and
returns `mean + sign * std * delta`, where `sign` is `-1` for `u < 0.5` and `+1` for
`u >= 0.5`, and `delta` is the piecewise-linear interpolation of the 21-entry table at
position `40 * (u if u < 0.5 else u - 0.5)`; `delta` lies in `[0, 3.87)` and the result
in `[mean - 3.87 std, mean + 3.87 std]`. -/
theorem gauss_structure (mean std u : ℚ) (rng : Rng) (hu : u = (drand48 rng).1)
    (hstd : 0 ≤ std) (h0 : 0 ≤ u) (h1 : u < 1) :
    ∃ delta v : ℚ,
      delta = interpolate gaussTbl (40 * (if u < 1 / 2 then u else u - 1 / 2)) ∧
      v = mean + (if u < 1 / 2 then -1 else 1) * std * delta ∧
      ParticleGenerator.gauss mean std rng = some (v, Rng.mk rng.draw (rng.next + 1)) ∧
      0 ≤ delta ∧ delta < 387 / 100 ∧
      mean - 387 / 100 * std ≤ v ∧ v ≤ mean + 387 / 100 * std := by
  obtain ⟨hp0, hp1, _, _⟩ := ParticleGenerator.gauss_index u h0 h1
  obtain ⟨d0, d1⟩ := ParticleGenerator.interpolate_bounds _ hp0 hp1
  have hg := ParticleGenerator.gaussOf_eq mean std u h0 h1
  have key : ∀ s d : ℚ, (s = -1 ∨ s = 1) → 0 ≤ d → d < 387 / 100 →
      mean - 387 / 100 * std ≤ mean + s * std * d ∧
      mean + s * std * d ≤ mean + 387 / 100 * std := by
    intro s d hs hd0 hd1
    have k1 := mul_le_mul_of_nonneg_left (le_of_lt hd1) hstd
    have k2 := mul_nonneg hstd hd0
    rcases hs with hs | hs <;> subst hs <;> constructor <;> linarith
  have hsign : (if u < 1 / 2 then (-1 : ℚ) else 1) = -1 ∨
      (if u < 1 / 2 then (-1 : ℚ) else 1) = 1 := by
    split
    · exact Or.inl rfl
    · exact Or.inr rfl
  obtain ⟨k1, k2⟩ := key _ _ hsign d0 d1
  refine ⟨_, _, rfl, rfl, ?_, d0, d1, k1, k2⟩
  unfold ParticleGenerator.gauss
  rw [← hu, hg]
  rfl

theorem gauss_structure_witness :
    ∃ delta v : ℚ,
      delta = interpolate gaussTbl
        (40 * (if (49 / 100 : ℚ) < 1 / 2 then (49 / 100 : ℚ) else 49 / 100 - 1 / 2)) ∧
      v = 1 + (if (49 / 100 : ℚ) < 1 / 2 then -1 else 1) * (1 / 10) * delta ∧
      ParticleGenerator.gauss 1 (1 / 10) (constRng (49 / 100)) =
        some (v, Rng.mk (constRng (49 / 100)).draw ((constRng (49 / 100)).next + 1)) ∧
      0 ≤ delta ∧ delta < 387 / 100 ∧
      1 - 387 / 100 * (1 / 10) ≤ v ∧ v ≤ 1 + 387 / 100 * (1 / 10) :=
  gauss_structure 1 (1 / 10) (49 / 100) (constRng (49 / 100)) rfl (by norm_num) (by norm_num)
    (by norm_num)

/-- C25 (negative spread).  For every mean, every `std` and every draw of `drand48` in
`[0, 1)`, `gauss(mean, std)` and `gauss(mean, -std)` from the same draw both return, and
the second value is `2 * mean` minus the first. -/
theorem gauss_negative_spread (mean std : ℚ) (rng : Rng)
    (h0 : 0 ≤ (drand48 rng).1) (h1 : (drand48 rng).1 < 1) :
    ∃ a : ℚ, ParticleGenerator.gauss mean std rng = some (a, (drand48 rng).2) ∧
      ParticleGenerator.gauss mean (-std) rng = some (2 * mean - a, (drand48 rng).2) := by
  obtain ⟨a, ha⟩ := ParticleGenerator.gaussOf_isSome mean std (drand48 rng).1 h0 (le_of_lt h1)
  refine ⟨a, ?_, ?_⟩
  · unfold ParticleGenerator.gauss
    rw [ha]
    rfl
  · unfold ParticleGenerator.gauss
    rw [ParticleGenerator.gaussOf_neg, ha]
    rfl

theorem gauss_negative_spread_witness :
    ∃ a : ℚ, ParticleGenerator.gauss 1 (1 / 10) (constRng (49 / 100)) =
        some (a, (drand48 (constRng (49 / 100))).2) ∧
      ParticleGenerator.gauss 1 (-(1 / 10)) (constRng (49 / 100)) =
        some (2 * 1 - a, (drand48 (constRng (49 / 100))).2) :=
  gauss_negative_spread 1 (1 / 10) (constRng (49 / 100))
    (by show (0 : ℚ) ≤ 49 / 100; norm_num) (by show (49 / 100 : ℚ) < 1; norm_num)

/-! ## Emission outside the window; draws and free slots -/

theorem demoGenerator_off : demoGenerator.shouldGenerate 5 = false := by
  have hq : truncQ ((5 : ℚ) / (9 / 2 - 0)) = 1 := by
    unfold truncQ
    rw [if_pos (by norm_num), Int.floor_eq_iff]
    norm_num
  unfold ParticleGenerator.shouldGenerate fmod
  simp only [demoGenerator, hq]
  norm_num

/-- C26 (emission outside the window).  When `shouldGenerate(t)` is false,
`generateParticles(t, h)` returns with the generator and the random stream exactly as
they were: the carry `f`, every pool slot, the free stack and `inactiveCount` are
unchanged and no draw is consumed. -/
theorem emission_outside_window (m : Libm) (t h : ℚ) (g : ParticleGenerator) (rng : Rng)
    (hoff : g.shouldGenerate t = false) :
    ∃ g' rng', g.generateParticles m t h rng = some (g', rng') ∧
      g'.f = g.f ∧ g'.pl.particles = g.pl.particles ∧
      g'.pl.inactiveStack = g.pl.inactiveStack ∧
      g'.pl.inactiveCount = g.pl.inactiveCount ∧
      rng'.next = rng.next ∧ g' = g ∧ rng' = rng :=
  ⟨g, rng, ParticleGenerator.generateParticles_off m t h g rng hoff,
    rfl, rfl, rfl, rfl, rfl, rfl, rfl⟩

theorem emission_outside_window_witness :
    ∃ g' rng', demoGenerator.generateParticles flatLibm 5 (1 / 100) (constRng (1 / 2)) =
        some (g', rng') ∧
      g'.f = demoGenerator.f ∧ g'.pl.particles = demoGenerator.pl.particles ∧
      g'.pl.inactiveStack = demoGenerator.pl.inactiveStack ∧
      g'.pl.inactiveCount = demoGenerator.pl.inactiveCount ∧
      rng'.next = (constRng (1 / 2)).next ∧ g' = demoGenerator ∧ rng' = constRng (1 / 2) :=
  emission_outside_window flatLibm 5 (1 / 100) demoGenerator (constRng (1 / 2))
    demoGenerator_off

theorem emissionCount_demo :
    ParticleGenerator.emissionCount 5000 (1 / 100) 0 = (50, 0) := by
  have hfl : ⌊((5000 : Int) : ℚ) * (1 / 100)⌋ = 50 := by
    rw [Int.floor_eq_iff]
    norm_num
  unfold ParticleGenerator.emissionCount
  simp only [hfl]
  norm_num

theorem tinyGenerator_on : tinyGenerator.shouldGenerate 1 = true :=
  (shouldGenerate_congr demoGenerator tinyGenerator 1 rfl rfl).trans demoGenerator_on

/-- C28, counterexample.  The first generator of `initSimulation` at `t = 1` with
`h = 0.01` is due to emit 50 particles.  On a pool of capacity 2 the pass consumes 8
draws, on a pool of capacity 1 it consumes 4, and in neither case the 200 draws of 50
full spawns: the runs differ only in the pool and consume different numbers of draws. -/
theorem draws_depend_on_free_slots :
    (ParticleGenerator.emissionCount demoGenerator.generationRate (1 / 100)
      demoGenerator.f).1 = 50 ∧
    tinyGenerator = { demoGenerator with pl := tinyPool } ∧
    ∃ s1 s2 : ParticleGenerator × Rng,
      demoGenerator.generateParticles flatLibm 1 (1 / 100) (constRng (1 / 2)) = some s1 ∧
      tinyGenerator.generateParticles flatLibm 1 (1 / 100) (constRng (1 / 2)) = some s2 ∧
      s1.2.next = (constRng (1 / 2)).next + 8 ∧ s2.2.next = (constRng (1 / 2)).next + 4 := by
  have e : ParticleGenerator.emissionCount demoGenerator.generationRate (1 / 100)
      demoGenerator.f = (50, 0) := emissionCount_demo
  have e2 : ParticleGenerator.emissionCount tinyGenerator.generationRate (1 / 100)
      tinyGenerator.f = (50, 0) := emissionCount_demo
  have hv := constRng_valid (1 / 2) (by norm_num) (by norm_num)
  obtain ⟨pl1, a1, _⟩ := ParticleGenerator.generateParticles_slots flatLibm 1 (1 / 100)
    demoGenerator (constRng (1 / 2)) demoGenerator_on ParticleList.demoPool_inv hv
  obtain ⟨pl2, b1, _⟩ := ParticleGenerator.generateParticles_slots flatLibm 1 (1 / 100)
    tinyGenerator (constRng (1 / 2)) tinyGenerator_on tinyPool_inv hv
  refine ⟨by rw [e], rfl, _, _, a1, b1, ?_, ?_⟩
  · show (constRng (1 / 2)).next + 4 * min _ _ = _
    rw [e]
    rfl
  · show (constRng (1 / 2)).next + 4 * min _ _ = _
    rw [e2]
    rfl

/-- C28 (draws and free slots).  On two generators that differ only in their pools,
both pools satisfying the invariant, a pass of `generateParticles(t, h)` inside the
window with emission count `n`, the floor of `generationRate * h` being in the range of
`int` (so that `n` is the value of the C++ variable), returns on both; on a pool with
`c` free slots it
consumes `4 * min(n, c)` draws, four for each spawn that finds a free slot and none for
the others; when both pools have at least `n` free slots the two passes consume the same
`4 n` draws and leave the same stream. -/
theorem draws_follow_free_slots (m : Libm) (t h : ℚ) (g : ParticleGenerator)
    (pl2 : ParticleList) (rng : Rng) (hon : g.shouldGenerate t = true)
    (inv : ParticleList.PoolInv g.pl) (inv2 : ParticleList.PoolInv pl2) (hv : rng.Valid)
    (hrange : ParticleGenerator.CountInRange g.generationRate h) :
    ∃ s1 s2 : ParticleGenerator × Rng,
      g.generateParticles m t h rng = some s1 ∧
      ({ g with pl := pl2 }).generateParticles m t h rng = some s2 ∧
      (-2147483648 ≤ (ParticleGenerator.emissionCount g.generationRate h g.f).1 ∧
        (ParticleGenerator.emissionCount g.generationRate h g.f).1 ≤ 2147483647) ∧
      s1.2.draw = rng.draw ∧ s2.2.draw = rng.draw ∧
      s1.2.next = rng.next +
        4 * min (ParticleGenerator.emissionCount g.generationRate h g.f).1.toNat
          g.pl.inactiveCount.toNat ∧
      s2.2.next = rng.next +
        4 * min (ParticleGenerator.emissionCount g.generationRate h g.f).1.toNat
          pl2.inactiveCount.toNat ∧
      ((ParticleGenerator.emissionCount g.generationRate h g.f).1 ≤ g.pl.inactiveCount →
        (ParticleGenerator.emissionCount g.generationRate h g.f).1 ≤ pl2.inactiveCount →
        s1.2 = s2.2 ∧
        s1.2.next = rng.next +
          4 * (ParticleGenerator.emissionCount g.generationRate h g.f).1.toNat) := by
  obtain ⟨pl1', a1, _⟩ := ParticleGenerator.generateParticles_slots m t h g rng hon inv hv
  have hon2 : ({ g with pl := pl2 } : ParticleGenerator).shouldGenerate t = true :=
    (shouldGenerate_congr g { g with pl := pl2 } t rfl rfl).trans hon
  obtain ⟨pl2', b1, _⟩ := ParticleGenerator.generateParticles_slots m t h { g with pl := pl2 }
    rng hon2 inv2 hv
  refine ⟨_, _, a1, b1, ParticleGenerator.emissionCount_inRange _ _ _ hrange,
    rfl, rfl, rfl, rfl, ?_⟩
  intro h1 h2
  have m1 : min (ParticleGenerator.emissionCount g.generationRate h g.f).1.toNat
      g.pl.inactiveCount.toNat =
      (ParticleGenerator.emissionCount g.generationRate h g.f).1.toNat :=
    Nat.min_eq_left (Int.toNat_le_toNat h1)
  have m2 : min (ParticleGenerator.emissionCount g.generationRate h g.f).1.toNat
      pl2.inactiveCount.toNat =
      (ParticleGenerator.emissionCount g.generationRate h g.f).1.toNat :=
    Nat.min_eq_left (Int.toNat_le_toNat h2)
  constructor
  · show Rng.mk rng.draw (rng.next + 4 * min _ g.pl.inactiveCount.toNat) =
      Rng.mk rng.draw (rng.next + 4 * min _ pl2.inactiveCount.toNat)
    rw [m1, m2]
  · show rng.next + 4 * min _ g.pl.inactiveCount.toNat = _
    rw [m1]

theorem draws_follow_free_slots_witness :
    ∃ s1 s2 : ParticleGenerator × Rng,
      demoGenerator.generateParticles flatLibm 1 (1 / 100) (constRng (1 / 2)) = some s1 ∧
      ({ demoGenerator with pl := tinyPool }).generateParticles flatLibm 1 (1 / 100)
        (constRng (1 / 2)) = some s2 ∧
      (-2147483648 ≤ (ParticleGenerator.emissionCount demoGenerator.generationRate (1 / 100)
          demoGenerator.f).1 ∧
        (ParticleGenerator.emissionCount demoGenerator.generationRate (1 / 100)
          demoGenerator.f).1 ≤ 2147483647) ∧
      s1.2.draw = (constRng (1 / 2)).draw ∧ s2.2.draw = (constRng (1 / 2)).draw ∧
      s1.2.next = (constRng (1 / 2)).next +
        4 * min (ParticleGenerator.emissionCount demoGenerator.generationRate (1 / 100)
          demoGenerator.f).1.toNat demoGenerator.pl.inactiveCount.toNat ∧
      s2.2.next = (constRng (1 / 2)).next +
        4 * min (ParticleGenerator.emissionCount demoGenerator.generationRate (1 / 100)
          demoGenerator.f).1.toNat tinyPool.inactiveCount.toNat ∧
      ((ParticleGenerator.emissionCount demoGenerator.generationRate (1 / 100)
          demoGenerator.f).1 ≤ demoGenerator.pl.inactiveCount →
        (ParticleGenerator.emissionCount demoGenerator.generationRate (1 / 100)
          demoGenerator.f).1 ≤ tinyPool.inactiveCount →
        s1.2 = s2.2 ∧
        s1.2.next = (constRng (1 / 2)).next +
          4 * (ParticleGenerator.emissionCount demoGenerator.generationRate (1 / 100)
            demoGenerator.f).1.toNat) :=
  draws_follow_free_slots flatLibm 1 (1 / 100) demoGenerator tinyPool (constRng (1 / 2))
    demoGenerator_on ParticleList.demoPool_inv tinyPool_inv
    (constRng_valid (1 / 2) (by norm_num) (by norm_num)) demoGenerator_inRange

/-! ## The top of the inactive stack; the frame of the physics passes -/

/-- C29 (top of the inactive stack).  On a pool that satisfies the invariant,
`topInactiveStack` reads the entry at position `inactiveCount`, one place above the top
entry `inactiveStack[inactiveCount - 1]` that the next `activateTopParticle` takes.
When no slot is active the read is outside the array; when every slot is active
(`inactiveCount = 0` on a pool of positive capacity) it returns the entry
`inactiveStack[0]` and not the value of the branch that returns -1, which the invariant
makes unreachable. -/
theorem top_reads_above_stack (pl : ParticleList) (inv : ParticleList.PoolInv pl) :
    pl.topInactiveStack = readAt pl.inactiveStack pl.inactiveCount ∧
    (pl.inactiveCount = pl.numParticles → pl.topInactiveStack = none) ∧
    (pl.inactiveCount < pl.numParticles →
      ∃ i, pl.inactiveStack[pl.inactiveCount.toNat]? = some i ∧
        pl.topInactiveStack = some i) := by
  obtain ⟨⟨_, hsl⟩, hc, _, _, _⟩ := inv
  have h1 : pl.topInactiveStack = readAt pl.inactiveStack pl.inactiveCount := by
    unfold ParticleList.topInactiveStack
    rw [if_pos hc]
  refine ⟨h1, ?_, ?_⟩
  · intro he
    rw [h1]
    unfold readAt
    rw [if_pos hc, List.getElem?_eq_none]
    omega
  · intro hlt
    have hb : pl.inactiveCount.toNat < pl.inactiveStack.length := by omega
    refine ⟨pl.inactiveStack[pl.inactiveCount.toNat], List.getElem?_eq_getElem hb, ?_⟩
    rw [h1, readAt_of_lt _ _ hc hb]

theorem top_reads_above_stack_witness :
    (livePool.topInactiveStack = readAt livePool.inactiveStack livePool.inactiveCount ∧
      (livePool.inactiveCount = livePool.numParticles → livePool.topInactiveStack = none) ∧
      (livePool.inactiveCount < livePool.numParticles →
        ∃ i, livePool.inactiveStack[livePool.inactiveCount.toNat]? = some i ∧
          livePool.topInactiveStack = some i)) ∧
    livePool.topInactiveStack = some 1 ∧
    readAt livePool.inactiveStack (livePool.inactiveCount - 1) = some 0 ∧
    demoPool.topInactiveStack = none ∧
    fullPool.topInactiveStack = some 0 :=
  ⟨top_reads_above_stack livePool ParticleList.livePool_inv, rfl, rfl, rfl, rfl⟩

/-- C30 (frame of the physics passes).  On an allocated pool `computeAccelerations(drag)`
and `integrate(h)` return; both leave `numParticles`, the free stack, `inactiveCount`
and the number of slots unchanged; every inactive slot keeps its whole record under
both; `computeAccelerations` changes at most the `acceleration` field of a slot; and
`integrate` leaves `isActive`, `timestamp`, `lifespan`, `mass` and `acceleration` of
every slot unchanged. -/
theorem physics_frame (drag h : ℚ) (pl : ParticleList) (ha : ParticleList.Allocated pl) :
    ∃ pa pi : ParticleList,
      pl.computeAccelerations drag = some pa ∧ pl.integrate h = some pi ∧
      pa.numParticles = pl.numParticles ∧ pa.inactiveStack = pl.inactiveStack ∧
      pa.inactiveCount = pl.inactiveCount ∧ pa.particles.length = pl.particles.length ∧
      pi.numParticles = pl.numParticles ∧ pi.inactiveStack = pl.inactiveStack ∧
      pi.inactiveCount = pl.inactiveCount ∧ pi.particles.length = pl.particles.length ∧
      ∀ (i : Int) (p : Particle), readAt pl.particles i = some p →
        ∃ qa qi : Particle,
          readAt pa.particles i = some qa ∧ readAt pi.particles i = some qi ∧
          (p.isActive = false → qa = p ∧ qi = p) ∧
          qa = { p with acceleration := qa.acceleration } ∧
          qa.isActive = p.isActive ∧ qa.timestamp = p.timestamp ∧
          qa.lifespan = p.lifespan ∧ qa.mass = p.mass ∧
          qi.isActive = p.isActive ∧ qi.timestamp = p.timestamp ∧
          qi.lifespan = p.lifespan ∧ qi.mass = p.mass ∧
          qi.acceleration = p.acceleration := by
  refine ⟨_, _, ParticleList.computeAccelerations_eq drag pl ha.1,
    ParticleList.integrate_eq h pl ha.1, rfl, rfl, rfl, ?_, rfl, rfl, rfl, ?_, ?_⟩
  · exact List.length_map _ _
  · exact List.length_map _ _
  · intro i p hp
    refine ⟨ParticleList.computeAccelerationsSlot drag p, ParticleList.integrateSlot h p,
      ?_, ?_, ?_⟩
    · show readAt (pl.particles.map _) i = _
      rw [ParticleList.readAt_map, hp]
      rfl
    · show readAt (pl.particles.map _) i = _
      rw [ParticleList.readAt_map, hp]
      rfl
    · unfold ParticleList.computeAccelerationsSlot ParticleList.integrateSlot
      by_cases hact : p.isActive = true
      · simp [hact]
      · have hf : p.isActive = false := by simpa using hact
        obtain ⟨x0, x1, v0, a0, m0, t0, act, l0⟩ := p
        simp only at hf
        subst hf
        simp

theorem physics_frame_witness :
    ∃ pa pi : ParticleList,
      livePool.computeAccelerations (2 / 10) = some pa ∧
      livePool.integrate (1 / 100) = some pi ∧
      pa.numParticles = livePool.numParticles ∧ pa.inactiveStack = livePool.inactiveStack ∧
      pa.inactiveCount = livePool.inactiveCount ∧
      pa.particles.length = livePool.particles.length ∧
      pi.numParticles = livePool.numParticles ∧ pi.inactiveStack = livePool.inactiveStack ∧
      pi.inactiveCount = livePool.inactiveCount ∧
      pi.particles.length = livePool.particles.length ∧
      ∀ (i : Int) (p : Particle), readAt livePool.particles i = some p →
        ∃ qa qi : Particle,
          readAt pa.particles i = some qa ∧ readAt pi.particles i = some qi ∧
          (p.isActive = false → qa = p ∧ qi = p) ∧
          qa = { p with acceleration := qa.acceleration } ∧
          qa.isActive = p.isActive ∧ qa.timestamp = p.timestamp ∧
          qa.lifespan = p.lifespan ∧ qa.mass = p.mass ∧
          qi.isActive = p.isActive ∧ qi.timestamp = p.timestamp ∧
          qi.lifespan = p.lifespan ∧ qi.mass = p.mass ∧
          qi.acceleration = p.acceleration :=
  physics_frame (2 / 10) (1 / 100) livePool ParticleList.livePool_inv.alloc

/-! ## The order of the passes of one emitter -/

namespace ParticleGenerator

/-- A slot that `generateParticles(t, h)` turns from inactive to active on a pool that
satisfies the invariant carries the timestamp `t`. -/
theorem generateParticles_spawned (m : Libm) (t h : ℚ) (g : ParticleGenerator) (rng : Rng)
    (inv : ParticleList.PoolInv g.pl) (hv : rng.Valid) :
    ∃ g1 rng1, g.generateParticles m t h rng = some (g1, rng1) ∧
      ParticleList.PoolInv g1.pl ∧ rng1.Valid ∧
      ∀ (k : Int) (p0 p : Particle), readAt g.pl.particles k = some p0 →
        p0.isActive = false → readAt g1.pl.particles k = some p → p.isActive = true →
        p.timestamp = t := by
  by_cases hon : g.shouldGenerate t = true
  · obtain ⟨pl', h1, h2, _, _, _, h6, h7⟩ :=
      spawnLoop_spec m g t (emissionCount g.generationRate h g.f).1.toNat g.pl rng inv hv
    refine ⟨{ g with f := (emissionCount g.generationRate h g.f).2, pl := pl' },
      Rng.mk rng.draw (rng.next +
        4 * min (emissionCount g.generationRate h g.f).1.toNat g.pl.inactiveCount.toNat),
      ?_, h2, hv, ?_⟩
    · rw [generateParticles_on m t h g rng hon, h1]
      rfl
    · intro k p0 p hp0 hin hp hact
      by_cases hex : ∃ j : Nat,
          j < min (emissionCount g.generationRate h g.f).1.toNat g.pl.inactiveCount.toNat ∧
          readAt g.pl.inactiveStack (g.pl.inactiveCount - 1 - j) = some k
      · obtain ⟨j, hj, hjk⟩ := hex
        obtain ⟨idx, sp, l, q, e1, _, _, e4, e5⟩ := h6 j hj
        rw [hjk] at e1
        cases e1
        have hp' : readAt pl'.particles k = some p := hp
        rw [e5] at hp'
        cases hp'
        rfl
      · have hno : ∀ j : Nat,
            j < min (emissionCount g.generationRate h g.f).1.toNat g.pl.inactiveCount.toNat →
            readAt g.pl.inactiveStack (g.pl.inactiveCount - 1 - j) ≠ some k := by
          intro j hj hjk
          exact hex ⟨j, hj, hjk⟩
        have hsame := h7 k hno
        have hp' : readAt pl'.particles k = some p := hp
        rw [hsame, hp0] at hp'
        cases hp'
        rw [hin] at hact
        exact absurd hact (by decide)
  · have hoff : g.shouldGenerate t = false := by simpa using hon
    refine ⟨g, rng, generateParticles_off m t h g rng hoff, inv, hv, ?_⟩
    intro k p0 p hp0 hin hp hact
    rw [hp0] at hp
    cases hp
    rw [hin] at hact
    exact absurd hact (by decide)

end ParticleGenerator

/-- C27 (order of the passes).  Let generator `i` of a model have a pool that satisfies
the invariant and let the draws be in `[0, 1)`.  The body of `Model::timeStep` for that
generator returns; it is `generateParticles(t, h)`, then `testAndDeactivate(h, t)`,
`computeAccelerations(drag)` and `integrate(h)` on the resulting pool, all with the
clock value `t` the body started with, followed by the clock update.  A slot that the
emission turned from inactive to active is stamped `t`; if its lifespan is `<= 0` it is
inactive at the end of the body and on the free stack; if its lifespan is `> 0` it is
active at the end, with `prev_position` its spawn position and `position` its spawn
position plus `h` times its spawn velocity. -/
theorem pass_order (lm : Libm) (md : Model) (rng : Rng) (i : Nat) (g : ParticleGenerator)
    (hg : md.generators[i]? = some g) (inv : ParticleList.PoolInv g.pl) (hv : rng.Valid) :
    ∃ (g1 : ParticleGenerator) (rng1 : Rng) (pl3 : ParticleList),
      g.generateParticles lm md.t md.h rng = some (g1, rng1) ∧
      runCalls [.testAndDeactivate md.h md.t, .computeAccelerations md.drag,
        .integrate md.h] g1.pl = some pl3 ∧
      Model.timeStepBody lm i (md, rng) =
        some ({ md with generators := md.generators.set i { g1 with pl := pl3 },
                        n := md.n + 1, t := ((md.n + 1 : Int) : ℚ) * md.h }, rng1) ∧
      ∀ (k : Int) (p0 p : Particle), readAt g.pl.particles k = some p0 →
        p0.isActive = false → readAt g1.pl.particles k = some p → p.isActive = true →
        p.timestamp = md.t ∧
        (p.lifespan ≤ 0 →
          (∃ q, readAt pl3.particles k = some q ∧ q.isActive = false) ∧
          k ∈ pl3.freeList) ∧
        (0 < p.lifespan →
          ∃ q, readAt pl3.particles k = some q ∧ q.isActive = true ∧
            q.prev_position = p.position ∧
            q.position = p.position + md.h * p.velocity) := by
  obtain ⟨g1, rng1, a1, a2, _, a4⟩ :=
    ParticleGenerator.generateParticles_spawned lm md.t md.h g rng inv hv
  obtain ⟨pl1, b1, _, b3, _, _, b6⟩ := ParticleList.testAndDeactivate_spec md.h md.t g1.pl a2
  have c1 := ParticleList.computeAccelerations_eq md.drag pl1 b6.alloc.1
  have inv2 := ParticleList.poolInv_map _
    (ParticleList.computeAccelerationsSlot_isActive md.drag) pl1 b6
  have d1 := ParticleList.integrate_eq md.h _ inv2.alloc.1
  have inv3 := ParticleList.poolInv_map _ (ParticleList.integrateSlot_isActive md.h) _ inv2
  obtain ⟨pl3, hpl3, d1, inv3⟩ : ∃ pl3 : ParticleList,
      pl3.particles = (pl1.particles.map (ParticleList.computeAccelerationsSlot md.drag)).map
        (ParticleList.integrateSlot md.h) ∧
      ParticleList.integrate md.h
        { pl1 with particles :=
            pl1.particles.map (ParticleList.computeAccelerationsSlot md.drag) } = some pl3 ∧
      ParticleList.PoolInv pl3 := ⟨_, rfl, d1, inv3⟩
  have hpass : Model.emitterPass lm md.t md.h md.drag g rng =
      some ({ g1 with pl := pl3 }, rng1) := by
    unfold Model.emitterPass
    simp only [a1, b1, c1, d1]
  have hread : ∀ (k : Int) (p : Particle), readAt g1.pl.particles k = some p →
      readAt pl3.particles k = some (ParticleList.integrateSlot md.h
        (ParticleList.computeAccelerationsSlot md.drag (ParticleList.cullSlot md.t p))) := by
    intro k p hp
    rw [hpl3, b3, ParticleList.readAt_map, ParticleList.readAt_map, ParticleList.readAt_map, hp]
    rfl
  refine ⟨g1, rng1, pl3, a1, ?_, ?_, ?_⟩
  · simp only [runCalls, PoolCall.run, b1, c1, d1, Option.some_bind]
  · rw [Model.timeStepBody_eq lm i md rng g hg, hpass]
    rfl
  · intro k p0 p hp0 hin hp hact
    have hts := a4 k p0 p hp0 hin hp hact
    refine ⟨hts, ?_, ?_⟩
    · intro hls
      have hcull : ParticleList.cullSlot md.t p = { p with isActive := false } := by
        unfold ParticleList.cullSlot
        rw [if_pos]
        refine ⟨hact, (ParticleList.shouldKill_iff p md.t).mpr ?_⟩
        rw [hts]
        linarith
      have hq : readAt pl3.particles k = some { p with isActive := false } := by
        rw [hread k p hp, hcull]
        rfl
      refine ⟨⟨_, hq, rfl⟩, ?_⟩
      exact (inv3.mem_iff k).mpr ⟨_, hq, rfl⟩
    · intro hls
      have hcull : ParticleList.cullSlot md.t p = p := by
        apply cullSlot_keep
        intro _
        rw [hts]
        linarith
      refine ⟨_, hread k p hp, ?_, ?_, ?_⟩
      · rw [ParticleList.integrateSlot_isActive, ParticleList.computeAccelerationsSlot_isActive,
          hcull]
        exact hact
      · rw [hcull]
        unfold ParticleList.integrateSlot ParticleList.computeAccelerationsSlot
        simp [hact]
      · rw [hcull]
        unfold ParticleList.integrateSlot ParticleList.computeAccelerationsSlot
        simp [hact]

theorem pass_order_witness :
    ∃ (g1 : ParticleGenerator) (rng1 : Rng) (pl3 : ParticleList),
      demoGenerator.generateParticles flatLibm demoModel.t demoModel.h (constRng (1 / 2)) =
        some (g1, rng1) ∧
      runCalls [.testAndDeactivate demoModel.h demoModel.t,
        .computeAccelerations demoModel.drag, .integrate demoModel.h] g1.pl = some pl3 ∧
      Model.timeStepBody flatLibm 0 (demoModel, constRng (1 / 2)) =
        some ({ demoModel with
                  generators := demoModel.generators.set 0 { g1 with pl := pl3 },
                  n := demoModel.n + 1,
                  t := ((demoModel.n + 1 : Int) : ℚ) * demoModel.h }, rng1) ∧
      ∀ (k : Int) (p0 p : Particle), readAt demoGenerator.pl.particles k = some p0 →
        p0.isActive = false → readAt g1.pl.particles k = some p → p.isActive = true →
        p.timestamp = demoModel.t ∧
        (p.lifespan ≤ 0 →
          (∃ q, readAt pl3.particles k = some q ∧ q.isActive = false) ∧
          k ∈ pl3.freeList) ∧
        (0 < p.lifespan →
          ∃ q, readAt pl3.particles k = some q ∧ q.isActive = true ∧
            q.prev_position = p.position ∧
            q.position = p.position + demoModel.h * p.velocity) :=
  pass_order flatLibm demoModel (constRng (1 / 2)) 0 demoGenerator rfl
    ParticleList.demoPool_inv (constRng_valid (1 / 2) (by norm_num) (by norm_num))

/-! ## Exact carry accounting -/

/-- The accounting of a sequence of passes, all made while the generator is on: the
run returns, and the sum of the emission counts plus the final carry is the initial
carry plus the rate times the sum of the steps. -/
theorem runCounts_spec (m : Libm) (calls : List (ℚ × ℚ)) :
    ∀ (g : ParticleGenerator) (rng : Rng), ParticleList.PoolInv g.pl → rng.Valid →
      (∀ c ∈ calls, g.shouldGenerate c.1 = true) →
      ∃ g' rng' total, runCounts m calls (g, rng) = some ((g', rng'), total) ∧
        runGenerate m calls (g, rng) = some (g', rng') ∧
        ParticleList.PoolInv g'.pl ∧ rng'.Valid ∧
        (total : ℚ) + g'.f = g.f + (g.generationRate : ℚ) * (calls.map (fun c => c.2)).sum := by
  induction calls with
  | nil =>
    intro g rng inv hv _
    refine ⟨g, rng, 0, rfl, rfl, inv, hv, ?_⟩
    simp
  | cons c cs ih =>
    intro g rng inv hv hon
    have hc : g.shouldGenerate c.1 = true := hon c (List.mem_cons_self _ _)
    obtain ⟨g1, rng1, a1, a2, a3, _, a5, a6, a7, a8, _⟩ :=
      ParticleGenerator.generateParticles_returns m c.1 c.2 g rng inv hv
    rw [if_pos hc] at a8
    have hon1 : ∀ d ∈ cs, g1.shouldGenerate d.1 = true := by
      intro d hd
      rw [shouldGenerate_congr g g1 d.1 a5 a6]
      exact hon d (List.mem_cons_of_mem _ hd)
    obtain ⟨g', rng', total, b1, b2, b3, b4, b5⟩ := ih g1 rng1 a2 a3 hon1
    refine ⟨g', rng', (ParticleGenerator.emissionCount g.generationRate c.2 g.f).1 + total,
      ?_, ?_, b3, b4, ?_⟩
    · simp only [runCounts, a1, b1, hc, if_true]
    · simp only [runGenerate, a1, Option.some_bind, b2]
    · have hs := ParticleGenerator.emissionCount_sum g.generationRate c.2 g.f
      rw [a8, a7] at b5
      simp only [List.map_cons, List.sum_cons]
      push_cast
      linarith

theorem carryGenerator_on :
    ∀ c ∈ [((0 : ℚ), (1 / 2 : ℚ)), (1 / 2, 1 / 2)], carryGenerator.shouldGenerate c.1 = true := by
  intro c hc
  simp only [List.mem_cons, List.mem_singleton, List.not_mem_nil, or_false] at hc
  rcases hc with rfl | rfl
  · exact shouldGenerate_first _ _ (by norm_num [carryGenerator])
      (by norm_num [carryGenerator]) (by norm_num [carryGenerator])
  · exact shouldGenerate_first _ _ (by norm_num [carryGenerator])
      (by norm_num [carryGenerator]) (by norm_num [carryGenerator])

/-- C31 (exact carry accounting).  Let an emitter with any carry `f0`, any rate and a
pool that satisfies the invariant make a sequence of `generateParticles(t_j, h_j)`
passes, each at a time at which the emitter is on, with draws in `[0, 1)`.  The run
returns, and the sum of the emission counts `n` of the passes plus the final carry is
`f0` plus the sum of `generationRate * h_j`, exactly. -/
theorem carry_accounting (m : Libm) (g : ParticleGenerator) (rng : Rng)
    (calls : List (ℚ × ℚ)) (inv : ParticleList.PoolInv g.pl) (hv : rng.Valid)
    (hon : ∀ c ∈ calls, g.shouldGenerate c.1 = true) :
    ∃ g' rng' total, runCounts m calls (g, rng) = some ((g', rng'), total) ∧
      runGenerate m calls (g, rng) = some (g', rng') ∧
      (total : ℚ) + g'.f =
        g.f + (calls.map (fun c => (g.generationRate : ℚ) * c.2)).sum := by
  obtain ⟨g', rng', total, h1, h2, _, _, h5⟩ := runCounts_spec m calls g rng inv hv hon
  refine ⟨g', rng', total, h1, h2, ?_⟩
  rw [h5, List.sum_map_mul_left]

theorem carry_accounting_witness :
    ∃ g' rng' total,
      runCounts flatLibm [(0, 1 / 2), (1 / 2, 1 / 2)] (carryGenerator, constRng 0) =
        some ((g', rng'), total) ∧
      runGenerate flatLibm [(0, 1 / 2), (1 / 2, 1 / 2)] (carryGenerator, constRng 0) =
        some (g', rng') ∧
      (total : ℚ) + g'.f =
        carryGenerator.f +
          (([((0 : ℚ), (1 / 2 : ℚ)), (1 / 2, 1 / 2)]).map
            (fun c => (carryGenerator.generationRate : ℚ) * c.2)).sum :=
  carry_accounting flatLibm carryGenerator (constRng 0) [(0, 1 / 2), (1 / 2, 1 / 2)]
    ParticleList.demoPool_inv (constRng_valid 0 (le_refl 0) (by norm_num)) carryGenerator_on

/-! ## Symmetry of the Gaussian sampler; short windows; table bounds -/

theorem interpolate_gaussTbl_zero : interpolate gaussTbl 0 = 0 := by
  unfold interpolate
  simp [gaussTbl]

/-- C36 (symmetry of `gauss`).  For every mean and `std` and every draw `u` in
`[0, 0.5)`, the call of `gauss(mean, std)` that draws `u` and the call that draws
`u + 0.5` both return, and their values sum to `2 * mean`; for `u = 0`, that is for the
draws 0 and 0.5, both values are `mean`. -/
theorem gauss_symmetric (mean std : ℚ) (rng rng2 : Rng)
    (h0 : 0 ≤ (drand48 rng).1) (h1 : (drand48 rng).1 < 1 / 2)
    (h2 : (drand48 rng2).1 = (drand48 rng).1 + 1 / 2) :
    ∃ a b : ℚ, ParticleGenerator.gauss mean std rng = some (a, (drand48 rng).2) ∧
      ParticleGenerator.gauss mean std rng2 = some (b, (drand48 rng2).2) ∧
      a + b = 2 * mean ∧
      ((drand48 rng).1 = 0 → a = mean ∧ b = mean) := by
  have e1 := ParticleGenerator.gaussOf_eq mean std (drand48 rng).1 h0 (by linarith)
  have e2 := ParticleGenerator.gaussOf_eq mean std (drand48 rng2).1 (by rw [h2]; linarith)
    (by rw [h2]; linarith)
  rw [if_pos h1, if_pos h1] at e1
  have hge : ¬ ((drand48 rng2).1 < 1 / 2) := by rw [h2]; linarith
  rw [if_neg hge, if_neg hge, h2] at e2
  have hcancel : (drand48 rng).1 + 1 / 2 - 1 / 2 = (drand48 rng).1 := by ring
  rw [hcancel] at e2
  refine ⟨mean + -1 * std * interpolate gaussTbl (40 * (drand48 rng).1),
    mean + 1 * std * interpolate gaussTbl (40 * (drand48 rng).1), ?_, ?_, ?_, ?_⟩
  · unfold ParticleGenerator.gauss
    rw [e1]
    rfl
  · unfold ParticleGenerator.gauss
    rw [h2, e2]
    rfl
  · ring
  · intro hz
    rw [hz, mul_zero, interpolate_gaussTbl_zero]
    constructor <;> ring

theorem gauss_symmetric_witness :
    ∃ a b : ℚ, ParticleGenerator.gauss 1 (1 / 10) (constRng 0) =
        some (a, (drand48 (constRng 0)).2) ∧
      ParticleGenerator.gauss 1 (1 / 10) (constRng (1 / 2)) =
        some (b, (drand48 (constRng (1 / 2))).2) ∧
      a + b = 2 * 1 ∧
      ((drand48 (constRng 0)).1 = 0 → a = 1 ∧ b = 1) :=
  gauss_symmetric 1 (1 / 10) (constRng 0) (constRng (1 / 2))
    (by show (0 : ℚ) ≤ 0; norm_num) (by show (0 : ℚ) < 1 / 2; norm_num)
    (by show (1 / 2 : ℚ) = 0 + 1 / 2; norm_num)

/-- C37 (short windows never re-emit).  For an emitter with
`0 < timeStop - timeStart <= timeStart + 2`, in particular for every such emitter with
`timeStart >= 0`, `shouldGenerate(t)` is false for every `t > timeStop - timeStart`: the
emitter emits only during its first cycle. -/
theorem short_window_no_restart (g : ParticleGenerator) (t : ℚ)
    (hd0 : 0 < g.timeStop - g.timeStart) (hd1 : g.timeStop - g.timeStart ≤ g.timeStart + 2)
    (ht : g.timeStop - g.timeStart < t) : g.shouldGenerate t = false := by
  obtain ⟨n, r, hr, _, _, _, hlt⟩ := fmod_pos t (g.timeStop - g.timeStart) hd0 ht
  unfold ParticleGenerator.shouldGenerate
  simp only
  rw [if_neg (not_le.mpr ht), hr]
  simp only
  rw [if_neg]
  rintro ⟨h1, _⟩
  linarith

theorem short_window_no_restart_witness :
    ({ demoGenerator with timeStart := 1, timeStop := 3 } : ParticleGenerator).shouldGenerate 7
      = false :=
  short_window_no_restart { demoGenerator with timeStart := 1, timeStop := 3 } 7
    (by norm_num) (by norm_num) (by norm_num)

/-- C38 (table lookups of `gauss`).  For every draw `u` in `[0, 1]`, the value 1
included, the table index of `gauss` lies in `0..20`; when it is not 20 it is at most
19, so that the entry `index + 1` is inside the 21-entry table; both reads that `gauss`
makes are inside the table and the call returns; and the interpolation fraction
`di - index` lies in `[0, 1)`. -/
theorem gauss_lookup_in_bounds (mean std u : ℚ) (h0 : 0 ≤ u) (h1 : u ≤ 1) :
    0 ≤ truncQ (40 * (if u ≥ 1 / 2 then u - 1 / 2 else u)) ∧
    truncQ (40 * (if u ≥ 1 / 2 then u - 1 / 2 else u)) ≤ 20 ∧
    (∃ a, readAt gaussTbl (truncQ (40 * (if u ≥ 1 / 2 then u - 1 / 2 else u))) = some a) ∧
    (truncQ (40 * (if u ≥ 1 / 2 then u - 1 / 2 else u)) ≠ 20 →
      truncQ (40 * (if u ≥ 1 / 2 then u - 1 / 2 else u)) ≤ 19 ∧
      ∃ b, readAt gaussTbl (truncQ (40 * (if u ≥ 1 / 2 then u - 1 / 2 else u)) + 1) = some b) ∧
    0 ≤ 40 * (if u ≥ 1 / 2 then u - 1 / 2 else u) -
      (truncQ (40 * (if u ≥ 1 / 2 then u - 1 / 2 else u)) : ℚ) ∧
    40 * (if u ≥ 1 / 2 then u - 1 / 2 else u) -
      (truncQ (40 * (if u ≥ 1 / 2 then u - 1 / 2 else u)) : ℚ) < 1 ∧
    ∃ v, ParticleGenerator.gaussOf mean std u = some v := by
  have hu : 0 ≤ (if u ≥ 1 / 2 then u - 1 / 2 else u) ∧
      (if u ≥ 1 / 2 then u - 1 / 2 else u) ≤ 1 / 2 := by
    split
    · constructor <;> linarith
    · rename_i hlt
      exact ⟨h0, by linarith [not_le.mp hlt]⟩
  have hp0 : (0 : ℚ) ≤ 40 * (if u ≥ 1 / 2 then u - 1 / 2 else u) := by linarith [hu.1]
  have hp1 : 40 * (if u ≥ 1 / 2 then u - 1 / 2 else u) ≤ 20 := by linarith [hu.2]
  have htr : truncQ (40 * (if u ≥ 1 / 2 then u - 1 / 2 else u)) =
      ⌊40 * (if u ≥ 1 / 2 then u - 1 / 2 else u)⌋ := by
    unfold truncQ
    rw [if_pos hp0]
  rw [htr]
  generalize 40 * (if u ≥ 1 / 2 then u - 1 / 2 else u) = p at hp0 hp1
  have hi0 : 0 ≤ ⌊p⌋ := Int.floor_nonneg.mpr hp0
  have hi1 : ⌊p⌋ ≤ 20 := by
    have : (⌊p⌋ : ℚ) ≤ 20 := le_trans (Int.floor_le _) hp1
    exact_mod_cast this
  refine ⟨hi0, hi1, ⟨_, readAt_of_lt gaussTbl ⌊p⌋ hi0 (by rw [ParticleGenerator.gaussTbl_length]; omega)⟩, ?_,
    by linarith [Int.floor_le p], by linarith [Int.lt_floor_add_one p],
    ParticleGenerator.gaussOf_isSome mean std u h0 h1⟩
  intro hne
  exact ⟨by omega,
    ⟨_, readAt_of_lt gaussTbl (⌊p⌋ + 1) (by omega) (by rw [ParticleGenerator.gaussTbl_length]; omega)⟩⟩

theorem gauss_lookup_in_bounds_witness :
    0 ≤ truncQ (40 * (if (1 : ℚ) ≥ 1 / 2 then (1 : ℚ) - 1 / 2 else 1)) ∧
    truncQ (40 * (if (1 : ℚ) ≥ 1 / 2 then (1 : ℚ) - 1 / 2 else 1)) ≤ 20 ∧
    (∃ a, readAt gaussTbl (truncQ (40 * (if (1 : ℚ) ≥ 1 / 2 then (1 : ℚ) - 1 / 2 else 1)))
      = some a) ∧
    (truncQ (40 * (if (1 : ℚ) ≥ 1 / 2 then (1 : ℚ) - 1 / 2 else 1)) ≠ 20 →
      truncQ (40 * (if (1 : ℚ) ≥ 1 / 2 then (1 : ℚ) - 1 / 2 else 1)) ≤ 19 ∧
      ∃ b, readAt gaussTbl
        (truncQ (40 * (if (1 : ℚ) ≥ 1 / 2 then (1 : ℚ) - 1 / 2 else 1)) + 1) = some b) ∧
    0 ≤ 40 * (if (1 : ℚ) ≥ 1 / 2 then (1 : ℚ) - 1 / 2 else 1) -
      (truncQ (40 * (if (1 : ℚ) ≥ 1 / 2 then (1 : ℚ) - 1 / 2 else 1)) : ℚ) ∧
    40 * (if (1 : ℚ) ≥ 1 / 2 then (1 : ℚ) - 1 / 2 else 1) -
      (truncQ (40 * (if (1 : ℚ) ≥ 1 / 2 then (1 : ℚ) - 1 / 2 else 1)) : ℚ) < 1 ∧
    ∃ v, ParticleGenerator.gaussOf 1 (1 / 10) 1 = some v :=
  gauss_lookup_in_bounds 1 (1 / 10) 1 (by norm_num) (by norm_num)

/-! ## Trail consistency; constant mass -/

/-- After `integrate(h)` an active record satisfies
`position = prev_position + h * (velocity - h * acceleration)`. -/
theorem integrateSlot_trail (h : ℚ) (p : Particle)
    (hact : (ParticleList.integrateSlot h p).isActive = true) :
    (ParticleList.integrateSlot h p).position =
      (ParticleList.integrateSlot h p).prev_position +
        h * ((ParticleList.integrateSlot h p).velocity +
          (-h) * (ParticleList.integrateSlot h p).acceleration) := by
  have ha : p.isActive = true := by
    rw [ParticleList.integrateSlot_isActive] at hact
    exact hact
  unfold ParticleList.integrateSlot
  simp only [ha, if_true]
  simp only [Vector3d.smul_def, Vector3d.add_def, Vector3d.mk.injEq]
  refine ⟨?_, ?_, ?_⟩ <;> ring

/-- C35 (trail consistency).  On a generator whose pool satisfies the invariant, with
draws in `[0, 1)`, the pass `generateParticles(t, h); testAndDeactivate(h, t);
computeAccelerations(drag); integrate(h)` returns, and every slot that is active
afterwards satisfies `position = prev_position + h * (velocity - h * acceleration)`,
whatever `prev_position` the slot held before the pass. -/
theorem trail_consistency (lm : Libm) (t h drag : ℚ) (g : ParticleGenerator) (rng : Rng)
    (inv : ParticleList.PoolInv g.pl) (hv : rng.Valid) :
    ∃ g2 rng2, Model.emitterPass lm t h drag g rng = some (g2, rng2) ∧
      ∀ (i : Int) (q : Particle), readAt g2.pl.particles i = some q → q.isActive = true →
        q.position = q.prev_position + h * (q.velocity + (-h) * q.acceleration) := by
  obtain ⟨g1, rng1, pl3, _, a2, _, _, _, _, a7⟩ :=
    Model.emitterPass_spec lm t h drag g rng inv hv
  refine ⟨{ g1 with pl := pl3 }, rng1, a2, ?_⟩
  intro i q hq hact
  have hq' : readAt pl3.particles i = some q := hq
  rw [a7, ParticleList.readAt_map] at hq'
  cases hr : readAt (g1.pl.particles.map (ParticleList.cullSlot t)) i with
  | none => rw [hr] at hq'; cases hq'
  | some p =>
    rw [hr] at hq'
    simp only [Option.map_some', Option.some.injEq] at hq'
    subst hq'
    exact integrateSlot_trail h _ hact

theorem trail_consistency_witness :
    ∃ g2 rng2,
      Model.emitterPass flatLibm 1 (1 / 100) (2 / 10) demoGenerator (constRng (1 / 2)) =
        some (g2, rng2) ∧
      ∀ (i : Int) (q : Particle), readAt g2.pl.particles i = some q → q.isActive = true →
        q.position = q.prev_position + (1 / 100 : ℚ) * (q.velocity + (-(1 / 100 : ℚ)) * q.acceleration) :=
  trail_consistency flatLibm 1 (1 / 100) (2 / 10) demoGenerator (constRng (1 / 2))
    ParticleList.demoPool_inv (constRng_valid (1 / 2) (by norm_num) (by norm_num))

namespace ParticleList

/-- No call on a pool changes the mass of a slot: if every slot has mass `mv` before a
call on a pool that satisfies the invariant, every slot has mass `mv` after it. -/
theorem run_mass (mv : ℚ) (c : PoolCall) (pl : ParticleList) (inv : PoolInv pl)
    (hm : ∀ p ∈ pl.particles, p.mass = mv) :
    ∃ pl', c.run pl = some pl' ∧ PoolInv pl' ∧ ∀ p ∈ pl'.particles, p.mass = mv := by
  have hmap : ∀ f : Particle → Particle, (∀ p, (f p).mass = p.mass) →
      ∀ q ∈ pl.particles.map f, q.mass = mv := by
    intro f hf q hq
    rw [List.mem_map] at hq
    obtain ⟨p, hp, rfl⟩ := hq
    rw [hf, hm p hp]
  cases c with
  | clear =>
    obtain ⟨pl', h1, _, _, _, h3⟩ := clear_poolInv pl inv.alloc
    refine ⟨pl', h1, h3, ?_⟩
    rw [clear_eq pl inv.alloc] at h1
    cases h1
    exact hmap _ (fun _ => rfl)
  | activateTopParticle pos vel ls ts =>
    by_cases hpos : 0 < pl.inactiveCount
    · obtain ⟨idx, p0, _, hp0, _, pl', h1, h2, h3⟩ :=
        activateTopParticle_spec pos vel ls ts pl inv hpos
      refine ⟨pl', h1, h3, ?_⟩
      intro p hp
      rw [h2] at hp
      rcases List.mem_or_eq_of_mem_set hp with hin | heq
      · exact hm p hin
      · rw [heq]
        exact hm p0 ((mem_iff_readAt _ _).mpr ⟨idx, hp0⟩)
    · refine ⟨pl, ?_, inv, hm⟩
      show pl.activateTopParticle pos vel ls ts = some pl
      unfold activateTopParticle
      rw [if_neg (fun h => hpos h.1)]
  | testAndDeactivate h t =>
    obtain ⟨pl', h1, _, h2, _, _, h3⟩ := testAndDeactivate_spec h t pl inv
    refine ⟨pl', h1, h3, ?_⟩
    rw [h2]
    apply hmap
    intro p
    unfold cullSlot
    split <;> rfl
  | computeAccelerations drag =>
    refine ⟨_, computeAccelerations_eq drag pl inv.alloc.1,
      poolInv_map _ (computeAccelerationsSlot_isActive drag) pl inv, ?_⟩
    apply hmap
    intro p
    unfold computeAccelerationsSlot
    split <;> rfl
  | integrate h =>
    refine ⟨_, integrate_eq h pl inv.alloc.1,
      poolInv_map _ (integrateSlot_isActive h) pl inv, ?_⟩
    apply hmap
    intro p
    unfold integrateSlot
    split <;> rfl

theorem runCalls_mass (mv : ℚ) (cs : List PoolCall) :
    ∀ (pl : ParticleList), PoolInv pl → (∀ p ∈ pl.particles, p.mass = mv) →
      ∃ pl', runCalls cs pl = some pl' ∧ PoolInv pl' ∧ ∀ p ∈ pl'.particles, p.mass = mv := by
  induction cs with
  | nil => intro pl inv hm; exact ⟨pl, rfl, inv, hm⟩
  | cons c cs ih =>
    intro pl inv hm
    obtain ⟨pl1, h1, h2, h3⟩ := run_mass mv c pl inv hm
    obtain ⟨pl', h4, h5, h6⟩ := ih pl1 h2 h3
    exact ⟨pl', by simp only [runCalls, h1, Option.some_bind, h4], h5, h6⟩

end ParticleList

/-- C32 (constant mass).  For every pool built by `ParticleList(np)` and every sequence
of `clear`, `activateTopParticle`, `testAndDeactivate`, `computeAccelerations` and
`integrate` calls on it, the sequence returns and every slot has `mass = 0.5`, which is
not zero; a further `computeAccelerations(drag)` returns and gives every active slot the
acceleration `(mass * (0, -9.8, 0) + (-drag) * velocity) / mass`, which is
`(0, -9.8, 0) - 2 * drag * velocity`. -/
theorem mass_constant (np : Int) (pl0 : ParticleList) (calls : List PoolCall) (drag : ℚ)
    (h0 : ParticleList.new np = some pl0) :
    ∃ pl pa : ParticleList, runCalls calls pl0 = some pl ∧
      (∀ p ∈ pl.particles, p.mass = 1 / 2 ∧ p.mass ≠ 0) ∧
      pl.computeAccelerations drag = some pa ∧
      ∀ (i : Int) (p : Particle), readAt pl.particles i = some p → p.isActive = true →
        ∃ q, readAt pa.particles i = some q ∧
          q.acceleration =
            (p.mass * Vector3d.set 0 (-(98 / 10)) 0 + (-drag) * p.velocity) / p.mass ∧
          q.acceleration =
            ⟨0 - 2 * drag * p.velocity.x, -(98 / 10) - 2 * drag * p.velocity.y,
             0 - 2 * drag * p.velocity.z⟩ := by
  have hnp := ParticleList.new_nonneg h0
  have inv0 := (ParticleList.fresh_poolInv pl0 (Or.inl ⟨np, h0⟩)).1
  have hm0 : ∀ p ∈ pl0.particles, p.mass = 1 / 2 := by
    rw [ParticleList.new_eq np hnp] at h0
    cases h0
    intro p hp
    rw [List.eq_of_mem_replicate hp]
    rfl
  obtain ⟨pl, h1, inv, hm⟩ := ParticleList.runCalls_mass (1 / 2) calls pl0 inv0 hm0
  refine ⟨pl, _, h1, ?_, ParticleList.computeAccelerations_eq drag pl inv.alloc.1, ?_⟩
  · intro p hp
    rw [hm p hp]
    exact ⟨rfl, by norm_num⟩
  · intro i p hp hact
    have hmass : p.mass = 1 / 2 := hm p ((mem_iff_readAt _ _).mpr ⟨i, hp⟩)
    refine ⟨ParticleList.computeAccelerationsSlot drag p, ?_, ?_, ?_⟩
    · show readAt (pl.particles.map _) i = _
      rw [ParticleList.readAt_map, hp]
      rfl
    · unfold ParticleList.computeAccelerationsSlot
      simp only [hact, if_true]
    · unfold ParticleList.computeAccelerationsSlot
      simp only [hact, if_true, hmass, Vector3d.smul_def, Vector3d.add_def, Vector3d.sdiv_def,
        Vector3d.set, Vector3d.mk.injEq]
      refine ⟨?_, ?_, ?_⟩ <;> ring

theorem mass_constant_witness :
    ∃ pl pa : ParticleList, runCalls demoCalls demoPool = some pl ∧
      (∀ p ∈ pl.particles, p.mass = 1 / 2 ∧ p.mass ≠ 0) ∧
      pl.computeAccelerations (2 / 10) = some pa ∧
      ∀ (i : Int) (p : Particle), readAt pl.particles i = some p → p.isActive = true →
        ∃ q, readAt pa.particles i = some q ∧
          q.acceleration =
            (p.mass * Vector3d.set 0 (-(98 / 10)) 0 + (-(2 / 10 : ℚ)) * p.velocity) / p.mass ∧
          q.acceleration =
            ⟨0 - 2 * (2 / 10) * p.velocity.x, -(98 / 10) - 2 * (2 / 10) * p.velocity.y,
             0 - 2 * (2 / 10) * p.velocity.z⟩ :=
  mass_constant 2 demoPool demoCalls (2 / 10) rfl

/-! ## Bounds of the free-stack accesses -/

namespace ParticleList

/-- One iteration of the scan of `testAndDeactivate` on a pool whose arrays have the
same length and whose counters add up to at most that length: the iteration returns,
and when the slot it visits is active the stack pointer is a valid index of the stack,
so that the push it may make is inside the array. -/
theorem testAndDeactivateBody_inBounds (t : ℚ) (i : Nat) (q : ParticleList)
    (hi : i < q.particles.length) (hst : q.inactiveStack.length = q.particles.length)
    (hc : 0 ≤ q.inactiveCount)
    (hcnt : (activeCount q : Int) + q.inactiveCount ≤ q.particles.length) :
    ∃ (q' : ParticleList) (p : Particle), q.particles[i]? = some p ∧
      testAndDeactivateBody t i q = some q' ∧
      q'.numParticles = q.numParticles ∧
      q'.particles.length = q.particles.length ∧
      q'.inactiveStack.length = q.inactiveStack.length ∧
      0 ≤ q'.inactiveCount ∧
      (activeCount q' : Int) + q'.inactiveCount ≤ q'.particles.length ∧
      (0 < activeCount q → q.inactiveCount < q.particles.length) ∧
      (p.isActive = true → q.inactiveCount.toNat < q.inactiveStack.length) := by
  have hp : q.particles[i]? = some q.particles[i] := List.getElem?_eq_getElem hi
  have hfree : 0 < activeCount q → q.inactiveCount < q.particles.length := by
    intro h
    omega
  have hidx : q.particles[i].isActive = true → q.inactiveCount.toNat < q.inactiveStack.length := by
    intro ha
    have hpos : 0 < activeCount q :=
      List.countP_pos_iff.mpr ⟨q.particles[i], List.getElem_mem hi, ha⟩
    omega
  by_cases hkill : q.particles[i].isActive = true ∧ shouldKill q.particles[i] t = true
  · have hpos : 0 < activeCount q :=
      List.countP_pos_iff.mpr ⟨q.particles[i], List.getElem_mem hi, hkill.1⟩
    have hcl : q.inactiveCount.toNat < q.inactiveStack.length := hidx hkill.1
    have hbody : testAndDeactivateBody t i q =
        some { q with
          particles := q.particles.set i { q.particles[i] with isActive := false },
          inactiveStack := q.inactiveStack.set q.inactiveCount.toNat (i : Int),
          inactiveCount := q.inactiveCount + 1 } := by
      simp [testAndDeactivateBody, hp, hkill, writeAt, hc, hcl]
    have hact : activeCount (ParticleList.mk q.numParticles
        (q.particles.set i { q.particles[i] with isActive := false })
        (q.inactiveStack.set q.inactiveCount.toNat (i : Int)) (q.inactiveCount + 1)) + 1 =
        activeCount q := by
      simp only [activeCount]
      rw [List.countP_set _ _ _ _ hi]
      simp only [activeCount] at hpos
      simp [hkill.1]
      omega
    refine ⟨_, q.particles[i], hp, hbody, rfl, ?_, ?_, ?_, ?_, hfree, hidx⟩
    · simp
    · simp
    · show 0 ≤ q.inactiveCount + 1
      omega
    · show (activeCount (ParticleList.mk _ _ _ _) : Int) + (q.inactiveCount + 1) ≤
        ((q.particles.set i _).length : Int)
      rw [List.length_set]
      omega
  · have hbody : testAndDeactivateBody t i q = some q := by
      unfold testAndDeactivateBody
      simp only [hp]
      by_cases ha : q.particles[i].isActive = true
      · have hk : ¬ shouldKill q.particles[i] t = true := fun hk => hkill ⟨ha, hk⟩
        simp [ha, hk]
      · simp [ha]
    exact ⟨q, q.particles[i], hp, hbody, rfl, rfl, rfl, hc, hcnt, hfree, hidx⟩

/-- The first `k` iterations of the scan of `testAndDeactivate`, started at slot `i`,
return and keep the shape of the pool and the bound on its counters. -/
theorem testAndDeactivate_prefix (t : ℚ) :
    ∀ (k i : Nat) (q : ParticleList), i + k ≤ q.particles.length →
      q.inactiveStack.length = q.particles.length → 0 ≤ q.inactiveCount →
      (activeCount q : Int) + q.inactiveCount ≤ q.particles.length →
      ∃ q', forLoop (testAndDeactivateBody t) k i q = some q' ∧
        q'.numParticles = q.numParticles ∧
        q'.particles.length = q.particles.length ∧
        q'.inactiveStack.length = q.particles.length ∧
        0 ≤ q'.inactiveCount ∧
        (activeCount q' : Int) + q'.inactiveCount ≤ q'.particles.length := by
  intro k
  induction k with
  | zero =>
    intro i q _ hst hc hcnt
    exact ⟨q, rfl, rfl, rfl, hst, hc, hcnt⟩
  | succ k ih =>
    intro i q hik hst hc hcnt
    obtain ⟨q1, _, _, hb, e1, e2, e3, e4, e5, _, _⟩ :=
      testAndDeactivateBody_inBounds t i q (by omega) hst hc hcnt
    obtain ⟨q', h1, h2, h3, h4, h5, h6⟩ :=
      ih (i + 1) q1 (by omega) (by omega) e4 e5
    refine ⟨q', ?_, by rw [h2, e1], by omega, by omega, h5, h6⟩
    simp only [forLoop, hb, Option.some_bind, h1]

end ParticleList

/-- C33 (free-stack accesses stay in bounds).  On a pool that satisfies the invariant:
every iteration `k` of the scan of `testAndDeactivate(h, t)` starts from a state in which
the stack has `numParticles` entries and `0 <= inactiveCount`, with
`inactiveCount < numParticles` whenever an active slot exists, in particular when slot
`k` is active, so that the push of the iteration writes inside the array and the
iteration returns; the whole scan returns with `inactiveCount <= numParticles`;
`activateTopParticle` returns, and when `inactiveCount > 0` it reads the stack at
`inactiveCount - 1`, an index in `[0, numParticles)`, and obtains a slot index in
`[0, numParticles)`. -/
theorem stack_access_in_bounds (h t : ℚ) (pos vel : Vector3d) (ls ts : ℚ)
    (pl : ParticleList) (inv : ParticleList.PoolInv pl) :
    (∀ k : Nat, (k : Int) < pl.numParticles →
      ∃ (plk plk1 : ParticleList) (p : Particle),
        forLoop (ParticleList.testAndDeactivateBody t) k 0 pl = some plk ∧
        plk.particles[k]? = some p ∧
        ParticleList.testAndDeactivateBody t k plk = some plk1 ∧
        (plk.inactiveStack.length : Int) = pl.numParticles ∧
        0 ≤ plk.inactiveCount ∧
        (0 < plk.activeCount → plk.inactiveCount < pl.numParticles) ∧
        (p.isActive = true → plk.inactiveCount < pl.numParticles)) ∧
    (∃ pl', pl.testAndDeactivate h t = some pl' ∧ 0 ≤ pl'.inactiveCount ∧
      pl'.inactiveCount ≤ pl.numParticles) ∧
    (∃ pl'', pl.activateTopParticle pos vel ls ts = some pl'') ∧
    (0 < pl.inactiveCount →
      0 ≤ pl.inactiveCount - 1 ∧ pl.inactiveCount - 1 < pl.numParticles ∧
      ∃ idx, readAt pl.inactiveStack (pl.inactiveCount - 1) = some idx ∧
        0 ≤ idx ∧ idx < pl.numParticles) := by
  have hpl := inv.alloc.1
  have hsl := inv.alloc.2
  have hc := inv.count_nonneg
  have hcnt := inv.count_eq
  refine ⟨?_, ?_, ?_, ?_⟩
  · intro k hk
    obtain ⟨plk, a1, _, a3, a4, a5, a6⟩ :=
      ParticleList.testAndDeactivate_prefix t k 0 pl (by omega) (by omega) hc (by omega)
    obtain ⟨plk1, p, b1, b2, _, _, _, _, _, b8, b9⟩ :=
      ParticleList.testAndDeactivateBody_inBounds t k plk (by omega) (by omega) a5 a6
    refine ⟨plk, plk1, p, a1, b1, b2, by omega, a5, ?_, ?_⟩
    · intro hpos
      have := b8 hpos
      omega
    · intro hact
      have := b9 hact
      omega
  · obtain ⟨pl', h1, h2, _, _, _, inv'⟩ := ParticleList.testAndDeactivate_spec h t pl inv
    refine ⟨pl', h1, inv'.count_nonneg, ?_⟩
    have := inv'.count_eq
    omega
  · obtain ⟨pl'', h1, _⟩ := ParticleList.run_poolInv (.activateTopParticle pos vel ls ts) pl inv
    exact ⟨pl'', h1⟩
  · intro hpos
    obtain ⟨idx, p, h1, h2, _⟩ :=
      ParticleList.activateTopParticle_spec pos vel ls ts pl inv hpos
    obtain ⟨hi0, hilt, _⟩ := readAt_eq_some h2
    exact ⟨by omega, by omega, idx, h1, hi0, by omega⟩

theorem stack_access_in_bounds_witness :
    (∀ k : Nat, (k : Int) < livePool.numParticles →
      ∃ (plk plk1 : ParticleList) (p : Particle),
        forLoop (ParticleList.testAndDeactivateBody 5) k 0 livePool = some plk ∧
        plk.particles[k]? = some p ∧
        ParticleList.testAndDeactivateBody 5 k plk = some plk1 ∧
        (plk.inactiveStack.length : Int) = livePool.numParticles ∧
        0 ≤ plk.inactiveCount ∧
        (0 < plk.activeCount → plk.inactiveCount < livePool.numParticles) ∧
        (p.isActive = true → plk.inactiveCount < livePool.numParticles)) ∧
    (∃ pl', livePool.testAndDeactivate (1 / 100) 5 = some pl' ∧ 0 ≤ pl'.inactiveCount ∧
      pl'.inactiveCount ≤ livePool.numParticles) ∧
    (∃ pl'', livePool.activateTopParticle ⟨4, 5, 6⟩ ⟨0, 1, 0⟩ 2 5 = some pl'') ∧
    (0 < livePool.inactiveCount →
      0 ≤ livePool.inactiveCount - 1 ∧ livePool.inactiveCount - 1 < livePool.numParticles ∧
      ∃ idx, readAt livePool.inactiveStack (livePool.inactiveCount - 1) = some idx ∧
        0 ≤ idx ∧ idx < livePool.numParticles) :=
  stack_access_in_bounds (1 / 100) 5 ⟨4, 5, 6⟩ ⟨0, 1, 0⟩ 2 5 livePool ParticleList.livePool_inv

/-! ## Order of slot reuse -/

/-- In a strictly ascending list every entry is at most the last one. -/
theorem le_getLast_of_pairwise (l : List Int) (hl : l.Pairwise (· < ·)) (hne : l ≠ []) :
    ∀ e ∈ l, e ≤ l.getLast hne := by
  intro e he
  have hsplit := List.dropLast_append_getLast hne
  rw [← hsplit] at he hl
  rw [List.mem_append] at he
  rcases he with he | he
  · exact le_of_lt ((List.pairwise_append.mp hl).2.2 e he _ (List.mem_singleton_self _))
  · rw [List.mem_singleton] at he
    rw [he]

namespace ParticleList

/-- The list of dead indices is strictly ascending. -/
theorem pairwise_deadIndices (t : ℚ) (ps : List Particle) (i k : Nat) :
    (deadIndices t ps i k).Pairwise (· < ·) := by
  unfold deadIndices
  refine List.Pairwise.map _ ?_ (List.Pairwise.filter _ (List.pairwise_lt_range' i k))
  intro a b hab
  exact Int.ofNat_lt.mpr hab

/-- The entry on top of the live part of the stack is the last entry of the free list. -/
theorem top_eq_getLast (pl : ParticleList) (hc : 0 < pl.inactiveCount)
    (hle : pl.inactiveCount.toNat ≤ pl.inactiveStack.length) :
    readAt pl.inactiveStack (pl.inactiveCount - 1) = (freeList pl).getLast? := by
  have hlen : (freeList pl).length = pl.inactiveCount.toNat := by
    unfold freeList
    rw [List.length_take]
    omega
  rw [List.getLast?_eq_getElem?, hlen]
  unfold freeList readAt
  rw [if_pos (by omega), List.getElem?_take]
  have e : (pl.inactiveCount - 1).toNat = pl.inactiveCount.toNat - 1 := by omega
  rw [e, if_pos (by omega)]

/-- A run of activations on a pool with enough free slots leaves the stack array alone
and lowers the stack pointer by the number of activations. -/
theorem activations_stack (args : List (Vector3d × Vector3d × ℚ × ℚ)) :
    ∀ (pl : ParticleList), PoolInv pl → (args.length : Int) ≤ pl.inactiveCount →
      ∃ pl', runCalls (args.map activateCall) pl = some pl' ∧ PoolInv pl' ∧
        pl'.numParticles = pl.numParticles ∧ pl'.inactiveStack = pl.inactiveStack ∧
        pl'.inactiveCount = pl.inactiveCount - args.length := by
  induction args with
  | nil =>
    intro pl inv _
    exact ⟨pl, rfl, inv, rfl, rfl, by simp⟩
  | cons a args ih =>
    intro pl inv hlen
    simp only [List.length_cons] at hlen
    push_cast at hlen
    obtain ⟨_, _, _, _, _, pl1, h1, h2, h3⟩ :=
      activateTopParticle_spec a.1 a.2.1 a.2.2.1 a.2.2.2 pl inv (by omega)
    have e1 : pl1.numParticles = pl.numParticles := by rw [h2]
    have e2 : pl1.inactiveStack = pl.inactiveStack := by rw [h2]
    have e3 : pl1.inactiveCount = pl.inactiveCount - 1 := by rw [h2]
    obtain ⟨pl', b1, b2, b3, b4, b5⟩ := ih pl1 h3 (by omega)
    refine ⟨pl', ?_, b2, by rw [b3, e1], by rw [b4, e2], ?_⟩
    · simp only [List.map_cons, runCalls, activateCall, PoolCall.run, h1, Option.some_bind]
      exact b1
    · rw [b5, e3]
      simp only [List.length_cons]
      push_cast
      omega

/-- A freshly constructed or cleared pool has the stack `0, 1, .., numParticles - 1` and
all its slots free. -/
theorem fresh_stack (pl0 : ParticleList)
    (h0 : (∃ np, new np = some pl0) ∨ (∃ q, Allocated q ∧ q.clear = some pl0)) :
    0 ≤ pl0.numParticles ∧ pl0.inactiveCount = pl0.numParticles ∧
      pl0.inactiveStack = (List.range pl0.numParticles.toNat).map Int.ofNat := by
  rcases h0 with ⟨np, hnew⟩ | ⟨q, ha, hclear⟩
  · have hnp := new_nonneg hnew
    rw [new_eq np hnp] at hnew
    cases hnew
    exact ⟨hnp, rfl, rfl⟩
  · have hq : 0 ≤ q.numParticles := by
      have := ha.1
      omega
    rw [clear_eq q ha] at hclear
    cases hclear
    exact ⟨hq, rfl, rfl⟩

end ParticleList

theorem readAt_range (n : Nat) (j : Int) (h0 : 0 ≤ j) (h1 : j.toNat < n) :
    readAt ((List.range n).map Int.ofNat) j = some j := by
  unfold readAt
  rw [if_pos h0, List.getElem?_map, List.getElem?_range h1]
  simp only [Option.map_some', Option.some.injEq]
  exact Int.toNat_of_nonneg h0

/-- C34 (LIFO reuse).  On a freshly constructed or cleared pool of capacity `c`, after
`k - 1` activations with `k <= c` and no deactivation, the `k`-th activation returns and
occupies slot `c - k`, which was free, leaving every other slot as it was.  On a pool
that satisfies the invariant, a `testAndDeactivate(h, t)` pass that deactivates a
non-empty set of slots leaves the largest deactivated index `d` on top of the stack,
and the next `activateTopParticle` reuses slot `d`. -/
theorem lifo_reuse (pl0 pl : ParticleList) (args : List (Vector3d × Vector3d × ℚ × ℚ))
    (a : Vector3d × Vector3d × ℚ × ℚ) (h t : ℚ)
    (h0 : (∃ np, ParticleList.new np = some pl0) ∨
      (∃ q, ParticleList.Allocated q ∧ q.clear = some pl0))
    (hk : (args.length : Int) < pl0.numParticles)
    (inv : ParticleList.PoolInv pl)
    (hD : ∃ e p, readAt pl.particles e = some p ∧ p.isActive = true ∧
      ParticleList.shouldKill p t = true) :
    (∃ (plk plk1 : ParticleList) (p p' : Particle),
      runCalls (args.map activateCall) pl0 = some plk ∧
      (activateCall a).run plk = some plk1 ∧
      readAt plk.particles (pl0.numParticles - (args.length + 1)) = some p ∧
      p.isActive = false ∧
      readAt plk1.particles (pl0.numParticles - (args.length + 1)) = some p' ∧
      p'.isActive = true ∧ p'.position = a.1 ∧ p'.velocity = a.2.1 ∧
      p'.lifespan = a.2.2.1 ∧ p'.timestamp = a.2.2.2 ∧
      ∀ j : Int, j ≠ pl0.numParticles - (args.length + 1) →
        readAt plk1.particles j = readAt plk.particles j) ∧
    (∃ (d : Int) (pl1 pl2 : ParticleList) (p' : Particle),
      pl.testAndDeactivate h t = some pl1 ∧
      (∃ p, readAt pl.particles d = some p ∧ p.isActive = true ∧
        ParticleList.shouldKill p t = true) ∧
      (∀ (e : Int) (p : Particle), readAt pl.particles e = some p → p.isActive = true →
        ParticleList.shouldKill p t = true → e ≤ d) ∧
      readAt pl1.inactiveStack (pl1.inactiveCount - 1) = some d ∧
      pl1.activateTopParticle a.1 a.2.1 a.2.2.1 a.2.2.2 = some pl2 ∧
      readAt pl2.particles d = some p' ∧
      p'.isActive = true ∧ p'.position = a.1 ∧ p'.velocity = a.2.1 ∧
      p'.lifespan = a.2.2.1 ∧ p'.timestamp = a.2.2.2 ∧
      ∀ j : Int, j ≠ d → readAt pl2.particles j = readAt pl1.particles j) := by
  constructor
  · obtain ⟨hnp, hic, hstk⟩ := ParticleList.fresh_stack pl0 h0
    have inv0 := (ParticleList.fresh_poolInv pl0 h0).1
    obtain ⟨plk, a1, a2, a3, a4, a5⟩ :=
      ParticleList.activations_stack args pl0 inv0 (by omega)
    obtain ⟨idx, p, b1, b2, b3, plk1, b4, b5, _⟩ :=
      ParticleList.activateTopParticle_spec a.1 a.2.1 a.2.2.1 a.2.2.2 plk a2 (by omega)
    have hidx : idx = pl0.numParticles - (args.length + 1) := by
      have e : plk.inactiveCount - 1 = pl0.numParticles - (args.length + 1) := by omega
      rw [a4, hstk, e, readAt_range _ _ (by omega) (by omega)] at b1
      exact (Option.some.inj b1).symm
    subst hidx
    obtain ⟨hi0, hilt, _⟩ := readAt_eq_some b2
    have hnew : readAt plk1.particles (pl0.numParticles - (args.length + 1)) =
        some { p with position := a.1, velocity := a.2.1, lifespan := a.2.2.1,
                      timestamp := a.2.2.2, isActive := true } := by
      rw [b5]
      show readAt (plk.particles.set _ _) _ = some _
      rw [ParticleList.readAt_set _ _ hi0, if_pos rfl, if_pos hilt]
    refine ⟨plk, plk1, p, _, a1, b4, b2, b3, hnew, rfl, rfl, rfl, rfl, rfl, ?_⟩
    intro j hj
    rw [b5]
    show readAt (plk.particles.set _ _) j = _
    rw [ParticleList.readAt_set _ _ hi0, if_neg hj]
  · obtain ⟨e, pe, he1, he2, he3⟩ := hD
    obtain ⟨pl1, c1, _, _, c4, c5, inv1⟩ := ParticleList.testAndDeactivate_spec h t pl inv
    have hmem : e ∈ ParticleList.deadIndices t pl.particles 0 pl.particles.length :=
      (ParticleList.mem_deadIndices t pl.particles e).mpr ⟨pe, he1, he2, he3⟩
    have hne : ParticleList.deadIndices t pl.particles 0 pl.particles.length ≠ [] :=
      List.ne_nil_of_mem hmem
    have hlenpos : 0 < (ParticleList.deadIndices t pl.particles 0 pl.particles.length).length :=
      List.length_pos.mpr hne
    have hc := inv.count_nonneg
    have hpos1 : 0 < pl1.inactiveCount := by omega
    have hle1 : pl1.inactiveCount.toNat ≤ pl1.inactiveStack.length := by
      have := inv1.alloc.2
      have := inv1.count_eq
      omega
    have htop : readAt pl1.inactiveStack (pl1.inactiveCount - 1) =
        some ((ParticleList.deadIndices t pl.particles 0 pl.particles.length).getLast hne) := by
      rw [ParticleList.top_eq_getLast pl1 hpos1 hle1, c5,
        List.getLast?_append_of_ne_nil _ hne, List.getLast?_eq_getLast _ hne]
    obtain ⟨idx, p, b1, b2, _, pl2, b4, b5, _⟩ :=
      ParticleList.activateTopParticle_spec a.1 a.2.1 a.2.2.1 a.2.2.2 pl1 inv1 hpos1
    have hidx : idx =
        (ParticleList.deadIndices t pl.particles 0 pl.particles.length).getLast hne := by
      rw [htop] at b1
      exact (Option.some.inj b1).symm
    obtain ⟨hi0, hilt, _⟩ := readAt_eq_some b2
    have hnew : readAt pl2.particles idx =
        some { p with position := a.1, velocity := a.2.1, lifespan := a.2.2.1,
                      timestamp := a.2.2.2, isActive := true } := by
      rw [b5]
      show readAt (pl1.particles.set _ _) _ = some _
      rw [ParticleList.readAt_set _ _ hi0, if_pos rfl, if_pos hilt]
    refine ⟨idx, pl1, pl2, _, c1, ?_, ?_, ?_, b4, hnew, rfl, rfl, rfl, rfl, rfl, ?_⟩
    · apply (ParticleList.mem_deadIndices t pl.particles idx).mp
      rw [hidx]
      exact List.getLast_mem hne
    · intro e' p' q1 q2 q3
      rw [hidx]
      exact le_getLast_of_pairwise _ (ParticleList.pairwise_deadIndices t _ _ _) hne e'
        ((ParticleList.mem_deadIndices t pl.particles e').mpr ⟨p', q1, q2, q3⟩)
    · rw [hidx]
      exact htop
    · intro j hj
      rw [b5]
      show readAt (pl1.particles.set _ _) j = _
      rw [ParticleList.readAt_set _ _ hi0, if_neg hj]

theorem livePool_dies :
    ∃ e p, readAt livePool.particles e = some p ∧ p.isActive = true ∧
      ParticleList.shouldKill p 5 = true :=
  ⟨1, liveParticle, rfl, rfl,
    (ParticleList.shouldKill_iff liveParticle 5).mpr (by norm_num [liveParticle])⟩

theorem lifo_reuse_witness :
    (∃ (plk plk1 : ParticleList) (p p' : Particle),
      runCalls (([((⟨1, 2, 3⟩ : Vector3d), (⟨0, 0, 0⟩ : Vector3d), (1 : ℚ), (0 : ℚ))]).map
        activateCall) demoPool = some plk ∧
      (activateCall (⟨4, 5, 6⟩, ⟨0, 1, 0⟩, 2, 5)).run plk = some plk1 ∧
      readAt plk.particles (demoPool.numParticles -
        ((([((⟨1, 2, 3⟩ : Vector3d), (⟨0, 0, 0⟩ : Vector3d), (1 : ℚ), (0 : ℚ))]).length : Int)
          + 1)) = some p ∧
      p.isActive = false ∧
      readAt plk1.particles (demoPool.numParticles -
        ((([((⟨1, 2, 3⟩ : Vector3d), (⟨0, 0, 0⟩ : Vector3d), (1 : ℚ), (0 : ℚ))]).length : Int)
          + 1)) = some p' ∧
      p'.isActive = true ∧ p'.position = ⟨4, 5, 6⟩ ∧ p'.velocity = ⟨0, 1, 0⟩ ∧
      p'.lifespan = 2 ∧ p'.timestamp = 5 ∧
      ∀ j : Int, j ≠ demoPool.numParticles -
        ((([((⟨1, 2, 3⟩ : Vector3d), (⟨0, 0, 0⟩ : Vector3d), (1 : ℚ), (0 : ℚ))]).length : Int)
          + 1) →
        readAt plk1.particles j = readAt plk.particles j) ∧
    (∃ (d : Int) (pl1 pl2 : ParticleList) (p' : Particle),
      livePool.testAndDeactivate (1 / 100) 5 = some pl1 ∧
      (∃ p, readAt livePool.particles d = some p ∧ p.isActive = true ∧
        ParticleList.shouldKill p 5 = true) ∧
      (∀ (e : Int) (p : Particle), readAt livePool.particles e = some p → p.isActive = true →
        ParticleList.shouldKill p 5 = true → e ≤ d) ∧
      readAt pl1.inactiveStack (pl1.inactiveCount - 1) = some d ∧
      pl1.activateTopParticle ⟨4, 5, 6⟩ ⟨0, 1, 0⟩ 2 5 = some pl2 ∧
      readAt pl2.particles d = some p' ∧
      p'.isActive = true ∧ p'.position = ⟨4, 5, 6⟩ ∧ p'.velocity = ⟨0, 1, 0⟩ ∧
      p'.lifespan = 2 ∧ p'.timestamp = 5 ∧
      ∀ j : Int, j ≠ d → readAt pl2.particles j = readAt pl1.particles j) :=
  lifo_reuse demoPool livePool [(⟨1, 2, 3⟩, ⟨0, 0, 0⟩, 1, 0)] (⟨4, 5, 6⟩, ⟨0, 1, 0⟩, 2, 5)
    (1 / 100) 5 (Or.inl ⟨2, rfl⟩) (by decide) ParticleList.livePool_inv livePool_dies

/-! ## Lifespan of an activated record -/

namespace ParticleList

/-- The slot that `activateTopParticle(pos, vel, ls, ts)` activates on a pool that
satisfies the invariant and has a free slot holds `lifespan = ls` afterwards. -/
theorem activateTopParticle_lifespan (pos vel : Vector3d) (ls ts : ℚ) (pl : ParticleList)
    (inv : PoolInv pl) (hpos : 0 < pl.inactiveCount) :
    ∃ (idx : Int) (p : Particle) (pl' : ParticleList),
      readAt pl.inactiveStack (pl.inactiveCount - 1) = some idx ∧
      pl.activateTopParticle pos vel ls ts = some pl' ∧
      readAt pl'.particles idx = some p ∧ p.isActive = true ∧ p.lifespan = ls := by
  obtain ⟨idx, p0, h1, h2, _, pl', h4, h5, _⟩ :=
    activateTopParticle_spec pos vel ls ts pl inv hpos
  obtain ⟨hi0, hilt, _⟩ := readAt_eq_some h2
  refine ⟨idx, { p0 with position := pos, velocity := vel, lifespan := ls, timestamp := ts, isActive := true },
    pl', h1, h4, ?_, rfl, rfl⟩
  rw [h5]
  show readAt (pl.particles.set idx.toNat _) idx = some _
  rw [readAt_set _ _ hi0, if_pos rfl, if_pos hilt]

end ParticleList

namespace ParticleGenerator

/-- When the mean is at least `3.87` standard deviations and the standard deviation is
not negative, `gaussOf` returns a value that is not negative. -/
theorem gaussOf_nonneg (mean std u : ℚ) (hstd : 0 ≤ std) (hmean : 387 / 100 * std ≤ mean)
    (h0 : 0 ≤ u) (h1 : u < 1) : ∃ l, gaussOf mean std u = some l ∧ 0 ≤ l := by
  obtain ⟨hp0, hp1, _, _⟩ := gauss_index u h0 h1
  obtain ⟨d0, d1⟩ := interpolate_bounds _ hp0 hp1
  refine ⟨_, gaussOf_eq mean std u h0 h1, ?_⟩
  generalize interpolate gaussTbl (40 * (if u < 1 / 2 then u else u - 1 / 2)) = d at d0 d1
  have k1 := mul_le_mul_of_nonneg_left (le_of_lt d1) hstd
  have k2 := mul_nonneg hstd d0
  split <;> linarith

end ParticleGenerator

/-- C21, as stated, fails.  On a generator after `setLifespanParams(0, 3)` the call
`gauss(meanLifespan, lifespanRange/3)` returns `-0.674375` for the draw `0.25`.
`activateTopParticle` with that lifespan on the fresh pool of capacity 2 activates
slot 1 with `lifespan = -0.674375`: the stored value is negative and is not `|ls|`. -/
theorem activate_negative_lifespan :
    ParticleGenerator.gaussOf wideGenerator.meanLifespan (wideGenerator.lifespanRange / 3)
      (1 / 4) = some (-(674375 / 1000000)) ∧
    ∃ (pl' : ParticleList) (p : Particle),
      demoPool.activateTopParticle ⟨1, 2, 3⟩ ⟨0, 0, 0⟩ (-(674375 / 1000000)) 0 = some pl' ∧
      readAt pl'.particles 1 = some p ∧ p.isActive = true ∧
      p.lifespan = -(674375 / 1000000) ∧
      p.lifespan ≠ |(-(674375 / 1000000) : ℚ)| ∧ ¬ (0 ≤ p.lifespan) := by
  refine ⟨gaussOf_negative_life, _, _, rfl, rfl, rfl, rfl, ?_, ?_⟩
  · show (-(674375 / 1000000) : ℚ) ≠ |(-(674375 / 1000000) : ℚ)|
    rw [abs_neg, abs_of_pos (by norm_num)]
    norm_num
  · show ¬ ((0 : ℚ) ≤ -(674375 / 1000000))
    norm_num

/-- C21 (amended).  On a pool that satisfies the invariant and has a free slot,
`activateTopParticle(pos, vel, ls, ts)` returns and the slot it activates holds
`lifespan = ls`, the value as handed in, with no absolute value taken: for `ls >= 0`
this is `|ls|` and is not negative, for `ls < 0` it is negative.  For emitter parameters
with `lifespanRange >= 0` and `meanLifespan >= 3.87 * lifespanRange / 3`, every value
`gauss(meanLifespan, lifespanRange/3)` returns for a draw in `[0, 1)` is not negative,
so the record activated with it has `lifespan = |ls| >= 0`. -/
theorem activate_lifespan (pos vel : Vector3d) (ls ts u : ℚ) (pl : ParticleList)
    (g : ParticleGenerator) (inv : ParticleList.PoolInv pl) (hpos : 0 < pl.inactiveCount)
    (hu0 : 0 ≤ u) (hu1 : u < 1) (hrange : 0 ≤ g.lifespanRange)
    (hmean : 387 / 100 * (g.lifespanRange / 3) ≤ g.meanLifespan) :
    (∃ (idx : Int) (p : Particle) (pl' : ParticleList),
      readAt pl.inactiveStack (pl.inactiveCount - 1) = some idx ∧
      pl.activateTopParticle pos vel ls ts = some pl' ∧
      readAt pl'.particles idx = some p ∧ p.isActive = true ∧ p.lifespan = ls ∧
      (0 ≤ ls → p.lifespan = |ls| ∧ 0 ≤ p.lifespan) ∧ (ls < 0 → p.lifespan < 0)) ∧
    (∃ (l : ℚ) (idx : Int) (p : Particle) (pl' : ParticleList),
      ParticleGenerator.gaussOf g.meanLifespan (g.lifespanRange / 3) u = some l ∧ 0 ≤ l ∧
      readAt pl.inactiveStack (pl.inactiveCount - 1) = some idx ∧
      pl.activateTopParticle pos vel l ts = some pl' ∧
      readAt pl'.particles idx = some p ∧ p.isActive = true ∧
      p.lifespan = |l| ∧ 0 ≤ p.lifespan) := by
  constructor
  · obtain ⟨idx, p, pl', a1, a2, a3, a4, a5⟩ :=
      ParticleList.activateTopParticle_lifespan pos vel ls ts pl inv hpos
    refine ⟨idx, p, pl', a1, a2, a3, a4, a5, ?_, ?_⟩
    · intro h
      rw [a5, abs_of_nonneg h]
      exact ⟨rfl, h⟩
    · intro h
      rw [a5]
      exact h
  · obtain ⟨l, hl, hl0⟩ := ParticleGenerator.gaussOf_nonneg g.meanLifespan
      (g.lifespanRange / 3) u (by linarith) hmean hu0 hu1
    obtain ⟨idx, p, pl', a1, a2, a3, a4, a5⟩ :=
      ParticleList.activateTopParticle_lifespan pos vel l ts pl inv hpos
    refine ⟨l, idx, p, pl', hl, hl0, a1, a2, a3, a4, ?_, ?_⟩
    · rw [a5, abs_of_nonneg hl0]
    · rw [a5]
      exact hl0

theorem activate_lifespan_witness :
    (∃ (idx : Int) (p : Particle) (pl' : ParticleList),
      readAt demoPool.inactiveStack (demoPool.inactiveCount - 1) = some idx ∧
      demoPool.activateTopParticle ⟨1, 2, 3⟩ ⟨0, 0, 0⟩ 1 0 = some pl' ∧
      readAt pl'.particles idx = some p ∧ p.isActive = true ∧ p.lifespan = 1 ∧
      ((0 : ℚ) ≤ 1 → p.lifespan = |(1 : ℚ)| ∧ 0 ≤ p.lifespan) ∧
      ((1 : ℚ) < 0 → p.lifespan < 0)) ∧
    (∃ (l : ℚ) (idx : Int) (p : Particle) (pl' : ParticleList),
      ParticleGenerator.gaussOf demoGenerator.meanLifespan (demoGenerator.lifespanRange / 3)
        (1 / 4) = some l ∧ 0 ≤ l ∧
      readAt demoPool.inactiveStack (demoPool.inactiveCount - 1) = some idx ∧
      demoPool.activateTopParticle ⟨1, 2, 3⟩ ⟨0, 0, 0⟩ l 0 = some pl' ∧
      readAt pl'.particles idx = some p ∧ p.isActive = true ∧
      p.lifespan = |l| ∧ 0 ≤ p.lifespan) :=
  activate_lifespan ⟨1, 2, 3⟩ ⟨0, 0, 0⟩ 1 0 (1 / 4) demoPool demoGenerator
    ParticleList.demoPool_inv (by decide) (by norm_num) (by norm_num)
    (by norm_num [demoGenerator]) (by norm_num [demoGenerator])

end ParticleSystem
